import Mathlib

/-!
Verification of the parking-discount templating engine of the carp
repository (src/src/lib/parking-api.ts) against its specification.

The TypeScript source is shallowly embedded: every function of the engine
is translated into an executable Lean definition operating on explicit
data (JavaScript objects become association lists, JSON values become the
inductive type JsValue, nullable/optional values become Option).  The
network boundary is made explicit: sendParkingDiscount is split into a
pure preparation stage that either fails early or yields the concrete
HTTP request it would issue, and pure response-evaluation stages applied
to the response text afterwards.

Platform primitives used by the source (String.prototype methods, JSON
parse and stringify, URLSearchParams) are modelled faithfully at the
level the engine exercises them; deliberate modelling boundaries are
recorded in the doc comment of each definition (for example: regular
expressions appear in the source only as fixed literal patterns, which
are embedded as dedicated scanners; prototype-inherited JavaScript
object properties are treated as absent; JSON numbers are modelled as
integers).
-/

namespace Carp

/-! ### JavaScript string primitives -/

/-- JavaScript whitespace as used by String.prototype.trim and the regex
    class backslash-s: the ASCII whitespace characters plus NBSP and BOM.
    (Exotic Unicode space code points are not modelled.) -/
def isJsSpace (c : Char) : Bool :=
  c = ' ' || c = '\t' || c = '\n' || c = '\r' || c = '\x0b' || c = '\x0c' ||
  c = '\u00A0' || c = '\uFEFF'

/-- String.prototype.trim on a character list. -/
def jsTrimList (l : List Char) : List Char :=
  ((l.dropWhile isJsSpace).reverse.dropWhile isJsSpace).reverse

/-- String.prototype.trim. -/
def jsTrim (s : String) : String :=
  String.mk (jsTrimList s.data)

/-- String.prototype.toUpperCase, ASCII range (the source only upcases
    HTTP method names). -/
def jsToUpper (s : String) : String :=
  String.mk (s.data.map Char.toUpper)

/-- String.prototype.toLowerCase, ASCII range (the source only downcases
    HTTP header names). -/
def jsToLower (s : String) : String :=
  String.mk (s.data.map Char.toLower)

/-- Substring occurrence test on character lists (String.prototype.includes). -/
def listIncludes (pat : List Char) : List Char → Bool
  | [] => pat.isEmpty
  | c :: tl => pat.isPrefixOf (c :: tl) || listIncludes pat tl

/-- String.prototype.includes. -/
def strIncludes (s pat : String) : Bool :=
  listIncludes pat.data s.data

/-- Character-level String.prototype.indexOf for a single character,
    returning none for -1. -/
def listIdxOf (c : Char) : List Char → Option Nat
  | [] => none
  | d :: tl => if d = c then some 0 else (listIdxOf c tl).map (· + 1)

/-- Character-level String.prototype.lastIndexOf for a single character. -/
def listLastIdxOf (c : Char) (l : List Char) : Option Nat :=
  (listIdxOf c l.reverse).map (fun i => l.length - 1 - i)

/-- Split on every occurrence of a character from the separator set,
    keeping empty pieces.  The source always post-processes regex splits
    on one-or-more separator runs with map-trim and filter-truthy, under
    which splitting on single separators and on separator runs agree, so
    this is the shared splitting primitive. -/
def splitSet (seps : List Char) : List Char → List (List Char)
  | [] => [[]]
  | c :: tl =>
    let r := splitSet seps tl
    if seps.contains c then [] :: r
    else
      match r with
      | [] => [[c]]
      | h :: t => (c :: h) :: t

/-! ### JavaScript object records

JavaScript objects appear in the source as string-keyed records built by
object literals, spreads and property assignment.  They are embedded as
association lists with the exact JavaScript key semantics: property
assignment updates an existing key in place (keeping its position) and
appends a fresh key, so lists built through objSet never hold duplicate
keys and preserve insertion order, which matters downstream wherever the
source iterates with Object.entries. -/

/-- JavaScript property assignment obj[k] = v. -/
def objSet (l : List (String × α)) (k : String) (v : α) : List (String × α) :=
  if l.any (fun p => p.1 = k) then l.map (fun p => if p.1 = k then (k, v) else p)
  else l ++ [(k, v)]

/-- JavaScript property read obj[k] (own properties only; prototype-inherited
    properties are treated as absent). -/
def objGet (l : List (String × α)) (k : String) : Option α :=
  (l.find? (fun p => p.1 = k)).map (fun p => p.2)

/-- JavaScript delete obj[k]. -/
def objDelete (l : List (String × α)) (k : String) : List (String × α) :=
  l.filter (fun p => p.1 ≠ k)

/-- JavaScript spread-merge of two records (the second wins key conflicts,
    keys of the first keep their positions). -/
def recSpread (a b : List (String × α)) : List (String × α) :=
  b.foldl (fun acc p => objSet acc p.1 p.2) a

/-! ### JavaScript values

JsValue embeds the JSON-reachable JavaScript values.  The JavaScript
undefined is represented by Option JsValue with none at every use site
(property reads, optional fields), never as a JsValue constructor. -/

inductive JsValue where
  | null
  | bool (b : Bool)
  | num (n : Int)
  | str (s : String)
  | arr (elems : List JsValue)
  | obj (fields : List (String × JsValue))
deriving Repr

mutual

/-- Boolean equality on JsValue (structural; JavaScript strict equality on
    composite values is reference equality and is modelled separately). -/
def jsBeq : JsValue → JsValue → Bool
  | .null, .null => true
  | .bool a, .bool b => a = b
  | .num a, .num b => a = b
  | .str a, .str b => a = b
  | .arr a, .arr b => jsBeqArr a b
  | .obj a, .obj b => jsBeqObj a b
  | _, _ => false

def jsBeqArr : List JsValue → List JsValue → Bool
  | [], [] => true
  | a :: as', b :: bs' => jsBeq a b && jsBeqArr as' bs'
  | _, _ => false

def jsBeqObj : List (String × JsValue) → List (String × JsValue) → Bool
  | [], [] => true
  | (ka, va) :: as', (kb, vb) :: bs' => ka = kb && jsBeq va vb && jsBeqObj as' bs'
  | _, _ => false

end

mutual

theorem jsBeq_refl : ∀ a : JsValue, jsBeq a a = true
  | .null => rfl
  | .bool b => by simp [jsBeq]
  | .num n => by simp [jsBeq]
  | .str s => by simp [jsBeq]
  | .arr xs => by simp [jsBeq, jsBeqArr_refl xs]
  | .obj fs => by simp [jsBeq, jsBeqObj_refl fs]

theorem jsBeqArr_refl : ∀ l : List JsValue, jsBeqArr l l = true
  | [] => rfl
  | a :: tl => by simp [jsBeqArr, jsBeq_refl a, jsBeqArr_refl tl]

theorem jsBeqObj_refl : ∀ l : List (String × JsValue), jsBeqObj l l = true
  | [] => rfl
  | (k, v) :: tl => by simp [jsBeqObj, jsBeq_refl v, jsBeqObj_refl tl]

end

mutual

theorem jsBeq_eq : ∀ a b : JsValue, jsBeq a b = true → a = b
  | .null, .null, _ => rfl
  | .bool a, .bool b, h => by simpa [jsBeq] using congrArg JsValue.bool (by simpa [jsBeq] using h)
  | .num a, .num b, h => by simpa using congrArg JsValue.num (by simpa [jsBeq] using h)
  | .str a, .str b, h => by simpa using congrArg JsValue.str (by simpa [jsBeq] using h)
  | .arr a, .arr b, h => congrArg JsValue.arr (jsBeqArr_eq a b (by simpa [jsBeq] using h))
  | .obj a, .obj b, h => congrArg JsValue.obj (jsBeqObj_eq a b (by simpa [jsBeq] using h))
  | .null, .bool _, h => by simp [jsBeq] at h
  | .null, .num _, h => by simp [jsBeq] at h
  | .null, .str _, h => by simp [jsBeq] at h
  | .null, .arr _, h => by simp [jsBeq] at h
  | .null, .obj _, h => by simp [jsBeq] at h
  | .bool _, .null, h => by simp [jsBeq] at h
  | .bool _, .num _, h => by simp [jsBeq] at h
  | .bool _, .str _, h => by simp [jsBeq] at h
  | .bool _, .arr _, h => by simp [jsBeq] at h
  | .bool _, .obj _, h => by simp [jsBeq] at h
  | .num _, .null, h => by simp [jsBeq] at h
  | .num _, .bool _, h => by simp [jsBeq] at h
  | .num _, .str _, h => by simp [jsBeq] at h
  | .num _, .arr _, h => by simp [jsBeq] at h
  | .num _, .obj _, h => by simp [jsBeq] at h
  | .str _, .null, h => by simp [jsBeq] at h
  | .str _, .bool _, h => by simp [jsBeq] at h
  | .str _, .num _, h => by simp [jsBeq] at h
  | .str _, .arr _, h => by simp [jsBeq] at h
  | .str _, .obj _, h => by simp [jsBeq] at h
  | .arr _, .null, h => by simp [jsBeq] at h
  | .arr _, .bool _, h => by simp [jsBeq] at h
  | .arr _, .num _, h => by simp [jsBeq] at h
  | .arr _, .str _, h => by simp [jsBeq] at h
  | .arr _, .obj _, h => by simp [jsBeq] at h
  | .obj _, .null, h => by simp [jsBeq] at h
  | .obj _, .bool _, h => by simp [jsBeq] at h
  | .obj _, .num _, h => by simp [jsBeq] at h
  | .obj _, .str _, h => by simp [jsBeq] at h
  | .obj _, .arr _, h => by simp [jsBeq] at h

theorem jsBeqArr_eq : ∀ a b : List JsValue, jsBeqArr a b = true → a = b
  | [], [], _ => rfl
  | x :: xs, y :: ys, h => by
    have h1 : jsBeq x y = true := by
      have := h
      simp [jsBeqArr, Bool.and_eq_true] at this
      exact this.1
    have h2 : jsBeqArr xs ys = true := by
      have := h
      simp [jsBeqArr, Bool.and_eq_true] at this
      exact this.2
    rw [jsBeq_eq x y h1, jsBeqArr_eq xs ys h2]
  | [], _ :: _, h => by simp [jsBeqArr] at h
  | _ :: _, [], h => by simp [jsBeqArr] at h

theorem jsBeqObj_eq : ∀ a b : List (String × JsValue), jsBeqObj a b = true → a = b
  | [], [], _ => rfl
  | (ka, va) :: xs, (kb, vb) :: ys, h => by
    have h' := h
    simp [jsBeqObj, Bool.and_eq_true] at h'
    rw [h'.1.1, jsBeq_eq va vb h'.1.2, jsBeqObj_eq xs ys h'.2]
  | [], _ :: _, h => by simp [jsBeqObj] at h
  | _ :: _, [], h => by simp [jsBeqObj] at h

end

instance : DecidableEq JsValue := fun a b =>
  decidable_of_iff (jsBeq a b = true)
    ⟨jsBeq_eq a b, fun h => h ▸ jsBeq_refl a⟩

end Carp

namespace Carp

/-! ### JavaScript value operations -/

/-- JavaScript truthiness of a value. -/
def jsTruthy : JsValue → Bool
  | .null => false
  | .bool b => b
  | .num n => n ≠ 0
  | .str s => s ≠ ""
  | .arr _ => true
  | .obj _ => true

/-- JavaScript truthiness of a possibly-undefined value. -/
def jsTruthyOpt : Option JsValue → Bool
  | none => false
  | some v => jsTruthy v

/-- JavaScript truthiness of a possibly-undefined (or null, both none) string. -/
def strTruthy : Option String → Bool
  | none => false
  | some s => s ≠ ""

mutual

/-- JavaScript String() coercion.  Array elements that are null join as the
    empty string, matching Array.prototype.join. -/
def jsToString : JsValue → String
  | .null => "null"
  | .bool b => if b then "true" else "false"
  | .num n => toString n
  | .str s => s
  | .arr xs => String.intercalate "," (jsArrParts xs)
  | .obj _ => "[object Object]"

def jsArrParts : List JsValue → List String
  | [] => []
  | .null :: tl => "" :: jsArrParts tl
  | v :: tl => jsToString v :: jsArrParts tl

end

/-- JavaScript String() coercion of a possibly-undefined value. -/
def jsToStringOpt : Option JsValue → String
  | none => "undefined"
  | some v => jsToString v

/-- JavaScript number values as the engine observes them: an integer or NaN.
    Fractional results are outside the modelled fragment. -/
inductive JsNumber where
  | int (n : Int)
  | nan
deriving Repr, DecidableEq

/-- Digits of a decimal numeral, most significant first. -/
def digitsToNat : List Char → Option Nat
  | [] => none
  | l => l.foldlM (fun acc c => if c.isDigit then some (acc * 10 + (c.toNat - '0'.toNat)) else none) 0

/-- JavaScript Number() coercion.  Only the integer fragment is modelled:
    fractional, exponent, hexadecimal and Infinity forms of numeric strings,
    and the toPrimitive coercion of arrays and objects, all map to NaN. -/
def jsToNumber : JsValue → JsNumber
  | .num n => .int n
  | .bool b => .int (if b then 1 else 0)
  | .null => .int 0
  | .str s =>
    let t := jsTrimList s.data
    if t = [] then .int 0
    else
      match t with
      | '-' :: ds => match digitsToNat ds with | some n => .int (-(n : Int)) | none => .nan
      | '+' :: ds => match digitsToNat ds with | some n => .int (n : Int) | none => .nan
      | ds => match digitsToNat ds with | some n => .int (n : Int) | none => .nan
  | .arr _ => .nan
  | .obj _ => .nan

/-- Canonical array-index form of a property key: digits only, no redundant
    leading zero. -/
def decodeIndexKey (s : String) : Option Nat :=
  match s.data with
  | [] => none
  | '0' :: [] => some 0
  | '0' :: _ :: _ => none
  | ds => if ds.all Char.isDigit then digitsToNat ds else none

/-- JavaScript property read on a value: object fields by name, array elements
    and string characters by canonical index, length of arrays and strings.
    Prototype-inherited properties (methods, constructor and so on) are
    treated as absent; reads on null, booleans and numbers give undefined,
    matching the engine which guards every such read with a null check. -/
def jsMember (v : JsValue) (key : String) : Option JsValue :=
  match v with
  | .obj fs => objGet fs key
  | .arr xs =>
    if key = "length" then some (.num xs.length)
    else match decodeIndexKey key with
      | some i => xs.get? i
      | none => none
  | .str s =>
    if key = "length" then some (.num s.length)
    else match decodeIndexKey key with
      | some i => (s.data.get? i).map (fun c => .str (String.mk [c]))
      | none => none
  | _ => none

/-- JavaScript spread of a value into an object literal: objects contribute
    their fields, arrays and strings their indexed elements, primitives
    nothing. -/
def jsSpreadEntries : JsValue → List (String × JsValue)
  | .obj fs => fs
  | .arr xs => (xs.enum.map fun p => (toString p.1, p.2))
  | .str s => (s.data.enum.map fun p => (toString p.1, JsValue.str (String.mk [p.2])))
  | _ => []

/-! ### getValueByPath (source lines 337 to 347) -/

/-- Rewrite of each bracketed numeric index, the global regex replace of
    backslash-bracket (backslash-d plus) backslash-bracket with a dot
    capture in getValueByPath.  Fuel is the input length, enough because
    every step consumes at least one character. -/
def bracketNormGo : Nat → List Char → List Char
  | 0, l => l
  | _ + 1, [] => []
  | fuel + 1, '[' :: tl =>
    let ds := tl.takeWhile Char.isDigit
    let rest := tl.dropWhile Char.isDigit
    match ds, rest with
    | _ :: _, ']' :: rest2 => '.' :: ds ++ bracketNormGo fuel rest2
    | _, _ => '[' :: bracketNormGo fuel tl
  | fuel + 1, c :: tl => c :: bracketNormGo fuel tl

/-- Normalized path text of getValueByPath. -/
def bracketNorm (l : List Char) : List Char :=
  bracketNormGo l.length l

/-- Path segments of getValueByPath: normalize brackets, split on dots,
    drop empty segments. -/
def pathParts (path : String) : List String :=
  ((splitSet ['.'] (bracketNorm path.data)).filter (fun p => p ≠ [])).map String.mk

/-- Walk helper of getValueByPath: stop with undefined when the current
    value is null or undefined, otherwise read the next segment. -/
def getValueGo : Option JsValue → List String → Option JsValue
  | cur, [] => cur
  | none, _ :: _ => none
  | some .null, _ :: _ => none
  | some c, p :: tl => getValueGo (jsMember c p) tl

/-- getValueByPath of the source: undefined for an empty (falsy) path,
    otherwise the segment walk. -/
def getValueByPath (v : JsValue) (path : String) : Option JsValue :=
  if path = "" then none
  else getValueGo (some v) (pathParts path)

end Carp

namespace Carp

/-! ### JSON.parse and JSON.stringify

The engine parses admin-supplied configuration and upstream responses
with JSON.parse inside safeJsonParse.  The parser below follows the JSON
grammar with two recorded boundaries: numbers are modelled only in their
integer form (a fraction or exponent makes the parse fail rather than
produce a float), and an unpaired surrogate escape produces the
replacement character since Lean strings hold scalar values only. -/

/-- JSON whitespace (space, tab, line feed, carriage return). -/
def isJsonWs (c : Char) : Bool :=
  c = ' ' || c = '\t' || c = '\n' || c = '\r'

/-- Skip JSON whitespace. -/
def skipJsonWs (l : List Char) : List Char :=
  l.dropWhile isJsonWs

/-- Value of one hexadecimal digit. -/
def hexDigitVal (c : Char) : Option Nat :=
  if '0' ≤ c ∧ c ≤ '9' then some (c.toNat - '0'.toNat)
  else if 'a' ≤ c ∧ c ≤ 'f' then some (c.toNat - 'a'.toNat + 10)
  else if 'A' ≤ c ∧ c ≤ 'F' then some (c.toNat - 'A'.toNat + 10)
  else none

/-- Value of a four-digit hexadecimal escape. -/
def hex4 (a b c d : Char) : Option Nat := do
  let x1 ← hexDigitVal a
  let x2 ← hexDigitVal b
  let x3 ← hexDigitVal c
  let x4 ← hexDigitVal d
  pure (((x1 * 16 + x2) * 16 + x3) * 16 + x4)

/-- Body of a JSON string after the opening quote: characters up to the
    closing quote, with escapes resolved.  A surrogate escape pair combines
    into one scalar; an unpaired surrogate becomes the replacement
    character.  Raw control characters are rejected as JSON.parse does. -/
def parseJsonStringBodyGo : Nat → List Char → Option (List Char × List Char)
  | 0, _ => none
  | _ + 1, [] => none
  | _ + 1, '"' :: tl => some ([], tl)
  | fuel + 1, '\\' :: 'u' :: h1 :: h2 :: h3 :: h4 :: tl =>
    match hex4 h1 h2 h3 h4 with
    | none => none
    | some n =>
      if 0xD800 ≤ n ∧ n ≤ 0xDBFF then
        match tl with
        | '\\' :: 'u' :: g1 :: g2 :: g3 :: g4 :: tl2 =>
          match hex4 g1 g2 g3 g4 with
          | none => none
          | some m =>
            if 0xDC00 ≤ m ∧ m ≤ 0xDFFF then
              (parseJsonStringBodyGo fuel tl2).map fun p =>
                (Char.ofNat (0x10000 + (n - 0xD800) * 0x400 + (m - 0xDC00)) :: p.1, p.2)
            else
              (parseJsonStringBodyGo fuel tl).map fun p => ('�' :: p.1, p.2)
        | _ => (parseJsonStringBodyGo fuel tl).map fun p => ('�' :: p.1, p.2)
      else if 0xDC00 ≤ n ∧ n ≤ 0xDFFF then
        (parseJsonStringBodyGo fuel tl).map fun p => ('�' :: p.1, p.2)
      else
        (parseJsonStringBodyGo fuel tl).map fun p => (Char.ofNat n :: p.1, p.2)
  | fuel + 1, '\\' :: e :: tl =>
    let esc : Option Char :=
      if e = '"' then some '"'
      else if e = '\\' then some '\\'
      else if e = '/' then some '/'
      else if e = 'b' then some '\x08'
      else if e = 'f' then some '\x0c'
      else if e = 'n' then some '\n'
      else if e = 'r' then some '\r'
      else if e = 't' then some '\t'
      else none
    match esc with
    | none => none
    | some c => (parseJsonStringBodyGo fuel tl).map fun p => (c :: p.1, p.2)
  | fuel + 1, c :: tl =>
    if c.toNat < 0x20 then none
    else (parseJsonStringBodyGo fuel tl).map fun p => (c :: p.1, p.2)

/-- A complete JSON string starting at an opening quote. -/
def parseJsonStringBody (l : List Char) : Option (List Char × List Char) :=
  parseJsonStringBodyGo l.length l

def parseJsonStringAt : List Char → Option (String × List Char)
  | '"' :: tl => (parseJsonStringBody tl).map fun p => (String.mk p.1, p.2)
  | _ => none

/-- A JSON number in its integer form: optional minus, digits without a
    redundant leading zero.  A following fraction dot or exponent letter is
    outside the modelled fragment and fails. -/
def parseJsonIntAt (l : List Char) : Option (Int × List Char) :=
  let core : List Char → Option (Nat × List Char) := fun m =>
    let ds := m.takeWhile Char.isDigit
    let rest := m.dropWhile Char.isDigit
    match ds with
    | [] => none
    | '0' :: _ :: _ => none
    | _ =>
      match rest with
      | '.' :: _ => none
      | 'e' :: _ => none
      | 'E' :: _ => none
      | _ => (digitsToNat ds).map fun n => (n, rest)
  match l with
  | '-' :: tl => (core tl).map fun p => (-(p.1 : Int), p.2)
  | _ => (core l).map fun p => ((p.1 : Int), p.2)

mutual

/-- One JSON value at the head of the input (whitespace already skipped).
    Fuel decreases at each nesting step; the callers pass the input length
    plus one, which every grammar derivation respects because each level of
    nesting consumes at least one character. -/
def parseJsonVal : Nat → List Char → Option (JsValue × List Char)
  | 0, _ => none
  | fuel + 1, l =>
    match l with
    | '\x7b' :: tl =>
      match skipJsonWs tl with
      | '\x7d' :: tl2 => some (.obj [], tl2)
      | tl2 => (parseJsonMembers fuel tl2 []).map fun p => (JsValue.obj p.1, p.2)
    | '[' :: tl =>
      match skipJsonWs tl with
      | ']' :: tl2 => some (.arr [], tl2)
      | tl2 => (parseJsonElems fuel tl2 []).map fun p => (JsValue.arr p.1, p.2)
    | '"' :: tl => (parseJsonStringBodyGo fuel tl).map fun p => (JsValue.str (String.mk p.1), p.2)
    | 't' :: 'r' :: 'u' :: 'e' :: tl => some (.bool true, tl)
    | 'f' :: 'a' :: 'l' :: 's' :: 'e' :: tl => some (.bool false, tl)
    | 'n' :: 'u' :: 'l' :: 'l' :: tl => some (.null, tl)
    | _ => (parseJsonIntAt l).map fun p => (JsValue.num p.1, p.2)

/-- Members of a JSON object after the opening brace (duplicate keys follow
    the JavaScript rule: the value of the last duplicate wins and the key
    keeps its first position). -/
def parseJsonMembers : Nat → List Char → List (String × JsValue) →
    Option (List (String × JsValue) × List Char)
  | 0, _, _ => none
  | fuel + 1, l, acc =>
    match parseJsonStringAt l with
    | none => none
    | some (k, rest) =>
      match skipJsonWs rest with
      | ':' :: rest2 =>
        match parseJsonVal fuel (skipJsonWs rest2) with
        | none => none
        | some (v, rest3) =>
          let acc2 := objSet acc k v
          match skipJsonWs rest3 with
          | ',' :: rest4 => parseJsonMembers fuel (skipJsonWs rest4) acc2
          | '\x7d' :: rest4 => some (acc2, rest4)
          | _ => none
      | _ => none

/-- Elements of a JSON array after the opening bracket. -/
def parseJsonElems : Nat → List Char → List JsValue →
    Option (List JsValue × List Char)
  | 0, _, _ => none
  | fuel + 1, l, acc =>
    match parseJsonVal fuel l with
    | none => none
    | some (v, rest) =>
      match skipJsonWs rest with
      | ',' :: rest2 => parseJsonElems fuel (skipJsonWs rest2) (acc ++ [v])
      | ']' :: rest2 => some (acc ++ [v], rest2)
      | _ => none

end

/-- JSON.parse: one value surrounded by whitespace, nothing after it. -/
def jsonParse (s : String) : Option JsValue :=
  match parseJsonVal (s.data.length + 1) (skipJsonWs s.data) with
  | some (v, rest) => if skipJsonWs rest = [] then some v else none
  | none => none

/-- Escaped JSON text of one string (JSON.stringify quoting). -/
def jsonQuote (s : String) : String :=
  String.mk ('"' :: s.data.foldr (fun c acc =>
    if c = '"' then '\\' :: '"' :: acc
    else if c = '\\' then '\\' :: '\\' :: acc
    else if c = '\x08' then '\\' :: 'b' :: acc
    else if c = '\x0c' then '\\' :: 'f' :: acc
    else if c = '\n' then '\\' :: 'n' :: acc
    else if c = '\r' then '\\' :: 'r' :: acc
    else if c = '\t' then '\\' :: 't' :: acc
    else if c.toNat < 0x20 then
      '\\' :: 'u' :: '0' :: '0' ::
        (Nat.toDigits 16 (c.toNat / 16)).headI ::
        [(Nat.toDigits 16 (c.toNat % 16)).headI] ++ acc
    else c :: acc) ['"'])

mutual

/-- JSON.stringify on the JSON-reachable values (undefined never occurs in
    a JsValue, so the undefined-dropping rules of stringify are moot). -/
def jsonStringify : JsValue → String
  | .null => "null"
  | .bool b => if b then "true" else "false"
  | .num n => toString n
  | .str s => jsonQuote s
  | .arr xs => "[" ++ String.intercalate "," (jsonStringifyArr xs) ++ "]"
  | .obj fs => "\x7b" ++ String.intercalate "," (jsonStringifyObj fs) ++ "\x7d"

def jsonStringifyArr : List JsValue → List String
  | [] => []
  | v :: tl => jsonStringify v :: jsonStringifyArr tl

def jsonStringifyObj : List (String × JsValue) → List String
  | [] => []
  | (k, v) :: tl => (jsonQuote k ++ ":" ++ jsonStringify v) :: jsonStringifyObj tl

end

/-- safeJsonParse of the source (lines 25 to 32): null for a missing or
    empty (falsy) input and for a parse failure, the parsed value
    otherwise.  The returned value may itself be falsy, which callers
    observe through truthiness checks. -/
def safeJsonParse (value : Option String) : Option JsValue :=
  match value with
  | none => none
  | some s => if s = "" then none else jsonParse s

end Carp

namespace Carp

/-! ### A generic left-to-right scan

Several platform primitives of the engine (UTF-8 decoding, percent
decoding, global regex replacement) share one shape: walk the input left
to right, at each position emit an output chunk and consume at least one
element, never rescanning emitted output.  scanList captures that shape
once; the step function reports the chunk and how many elements it
consumed (a reported zero still consumes one, guaranteeing progress). -/

/-- Fuel-driven scan worker. -/
def scanGo (step : List α → (β × Nat)) : Nat → List α → List β
  | 0, _ => []
  | _ + 1, [] => []
  | fuel + 1, x :: tl =>
    (step (x :: tl)).1 :: scanGo step fuel ((x :: tl).drop (max 1 (step (x :: tl)).2))

/-- Scan of a whole list; the fuel is the length, which suffices because
    every step consumes at least one element. -/
def scanList (step : List α → (β × Nat)) (l : List α) : List β :=
  scanGo step l.length l

theorem scanGo_fuel (step : List α → (β × Nat)) :
    ∀ f1 f2 (l : List α), l.length ≤ f1 → l.length ≤ f2 →
      scanGo step f1 l = scanGo step f2 l := by
  intro f1
  induction f1 with
  | zero =>
    intro f2 l h1 _
    have : l = [] := List.length_eq_zero.mp (Nat.le_zero.mp h1)
    subst this
    cases f2 <;> rfl
  | succ f ih =>
    intro f2 l h1 h2
    match l with
    | [] => cases f2 <;> rfl
    | x :: tl =>
      match f2 with
      | 0 => simp at h2
      | g + 1 =>
        simp only [scanGo]
        congr 1
        apply ih
        · have hd : ((x :: tl).drop (max 1 (step (x :: tl)).2)).length ≤ tl.length := by
            rw [List.length_drop]
            simp only [List.length_cons]
            omega
          simp only [List.length_cons] at h1
          omega
        · have hd : ((x :: tl).drop (max 1 (step (x :: tl)).2)).length ≤ tl.length := by
            rw [List.length_drop]
            simp only [List.length_cons]
            omega
          simp only [List.length_cons] at h2
          omega

/-- Unfolding rule of scanList on a non-empty input. -/
theorem scanList_cons (step : List α → (β × Nat)) (x : α) (tl : List α) :
    scanList step (x :: tl) =
      (step (x :: tl)).1 :: scanList step ((x :: tl).drop (max 1 (step (x :: tl)).2)) := by
  simp only [scanList, List.length_cons, scanGo]
  congr 1
  apply scanGo_fuel
  · rw [List.length_drop]
    simp only [List.length_cons]
    omega
  · exact Nat.le_refl _

theorem scanList_nil (step : List α → (β × Nat)) : scanList step [] = [] := rfl

/-! ### UTF-8 bytes and the urlencoded codec

URLSearchParams operates on the UTF-8 bytes of its strings.  Bytes are
Nat here; the encoder produces the standard minimal encodings, and the
decoder follows the WHATWG replacement-character behaviour on invalid
input (only the valid encodings matter for the engine's round trips). -/

/-- UTF-8 encoding of one scalar value. -/
def utf8Bytes (c : Char) : List Nat :=
  let v := c.toNat
  if v < 0x80 then [v]
  else if v < 0x800 then [0xC0 + v / 64, 0x80 + v % 64]
  else if v < 0x10000 then [0xE0 + v / 4096, 0x80 + v / 64 % 64, 0x80 + v % 64]
  else [0xF0 + v / 0x40000, 0x80 + v / 4096 % 64, 0x80 + v / 64 % 64, 0x80 + v % 64]

/-- UTF-8 bytes of a whole string. -/
def strUtf8 (s : String) : List Nat :=
  s.data.flatMap utf8Bytes

/-- Continuation byte test. -/
def isCont (b : Nat) : Bool :=
  0x80 ≤ b && b < 0xC0

/-- One UTF-8 decoding step: the scalar at the head of the byte list and
    the number of bytes it occupies; invalid sequences yield the
    replacement character over one byte. -/
def utf8Step : List Nat → (Char × Nat)
  | [] => ('�', 1)
  | b0 :: rest =>
    if b0 < 0x80 then (Char.ofNat b0, 1)
    else if b0 < 0xC2 then ('�', 1)
    else if b0 < 0xE0 then
      match rest with
      | b1 :: _ =>
        if isCont b1 then (Char.ofNat ((b0 - 0xC0) * 64 + (b1 - 0x80)), 2)
        else ('�', 1)
      | [] => ('�', 1)
    else if b0 < 0xF0 then
      match rest with
      | b1 :: b2 :: _ =>
        if isCont b1 && isCont b2 then
          let v := (b0 - 0xE0) * 4096 + (b1 - 0x80) * 64 + (b2 - 0x80)
          if v < 0x800 || (0xD800 ≤ v && v < 0xE000) then ('�', 1)
          else (Char.ofNat v, 3)
        else ('�', 1)
      | _ => ('�', 1)
    else if b0 < 0xF5 then
      match rest with
      | b1 :: b2 :: b3 :: _ =>
        if isCont b1 && isCont b2 && isCont b3 then
          let v := (b0 - 0xF0) * 0x40000 + (b1 - 0x80) * 4096 + (b2 - 0x80) * 64 + (b3 - 0x80)
          if v < 0x10000 || 0x110000 ≤ v then ('�', 1)
          else (Char.ofNat v, 4)
        else ('�', 1)
      | _ => ('�', 1)
    else ('�', 1)

/-- UTF-8 decoding of a byte list. -/
def utf8Decode (bs : List Nat) : List Char :=
  scanList utf8Step bs

end Carp

namespace Carp

/-! ### URLSearchParams -/

/-- Urlencoded-unreserved byte: ASCII alphanumeric or one of asterisk,
    hyphen, dot, underscore. -/
def isFormUnreserved (b : Nat) : Bool :=
  (0x30 ≤ b && b ≤ 0x39) || (0x41 ≤ b && b ≤ 0x5A) || (0x61 ≤ b && b ≤ 0x7A) ||
  b = 0x2A || b = 0x2D || b = 0x2E || b = 0x5F

/-- Uppercase hexadecimal digit of a value below 16. -/
def hexDigitChar (n : Nat) : Char :=
  if n < 10 then Char.ofNat ('0'.toNat + n) else Char.ofNat ('A'.toNat + n - 10)

/-- Urlencoded serialization of one byte. -/
def formEncodeByte (b : Nat) : List Char :=
  if isFormUnreserved b then [Char.ofNat b]
  else if b = 0x20 then ['+']
  else ['%', hexDigitChar (b / 16 % 16), hexDigitChar (b % 16)]

/-- Urlencoded serialization of a string (UTF-8 bytes, each serialized). -/
def formEncode (s : String) : String :=
  String.mk ((strUtf8 s).flatMap formEncodeByte)

/-- One percent-decoding step over bytes: a percent byte followed by two
    hexadecimal digits collapses to one byte, anything else passes
    through. -/
def pctStep : List Nat → (Nat × Nat)
  | [] => (0, 1)
  | b :: rest =>
    if b = 0x25 then
      match rest with
      | h1 :: h2 :: _ =>
        match hexDigitVal (Char.ofNat h1), hexDigitVal (Char.ofNat h2) with
        | some x1, some x2 => (x1 * 16 + x2, 3)
        | _, _ => (b, 1)
      | _ => (b, 1)
    else (b, 1)

/-- Percent-decoding of a byte list. -/
def pctDecode (bs : List Nat) : List Nat :=
  scanList pctStep bs

/-- Urlencoded deserialization of one piece (a name or a value): plus
    becomes space at the byte level, percent escapes collapse, the result
    is UTF-8 decoded. -/
def formDecode (l : List Char) : String :=
  String.mk (utf8Decode (pctDecode ((l.flatMap utf8Bytes).map
    fun b => if b = 0x2B then 0x20 else b)))

/-- URLSearchParams string construction: strip one leading question mark,
    split on ampersands dropping empty pieces, split each piece at its
    first equals sign, decode names and values. -/
def urlParamsParse (s : String) : List (String × String) :=
  let l := match s.data with
    | '?' :: tl => tl
    | l => l
  ((splitSet ['&'] l).filter (fun p => p ≠ [])).map fun piece =>
    match listIdxOf '=' piece with
    | none => (formDecode piece, "")
    | some i => (formDecode (piece.take i), formDecode (piece.drop (i + 1)))

/-- URLSearchParams.set: update the first pair with the name in place,
    drop later pairs with the name, append when the name is absent. -/
def urlParamsSet : List (String × String) → String → String → List (String × String)
  | [], k, v => [(k, v)]
  | (k0, v0) :: tl, k, v =>
    if k0 = k then (k, v) :: tl.filter (fun p => p.1 ≠ k)
    else (k0, v0) :: urlParamsSet tl k v

/-- URLSearchParams.toString. -/
def urlParamsToString (l : List (String × String)) : String :=
  String.intercalate "&" (l.map fun p => formEncode p.1 ++ "=" ++ formEncode p.2)

end Carp

namespace Carp

/-! ### Token substitution (source lines 67 to 90)

The two template regexes are fixed in the source, so they are embedded as
deterministic scanners: the token pattern is two open braces, optional
whitespace, a non-empty run of name characters, optional whitespace, two
close braces; the legacy pattern is a hash, an open brace, a non-empty
name run, a close brace.  Both character classes are disjoint from
whitespace and from the braces, which makes the backtracking regex
equivalent to these greedy scanners. -/

/-- Character class of the token name: a-z A-Z 0-9 underscore dot hyphen. -/
def isNameChar (c : Char) : Bool :=
  c.isAlphanum || c = '_' || c = '.' || c = '-'

/-- Match of the token regex at the current position: the captured name and
    the length of the whole match. -/
def tokenMatchAt (l : List Char) : Option (String × Nat) :=
  match l with
  | '\x7b' :: '\x7b' :: rest =>
    let ws1 := rest.takeWhile isJsSpace
    let a1 := rest.drop ws1.length
    let name := a1.takeWhile isNameChar
    if name = [] then none
    else
      let a2 := a1.drop name.length
      let ws2 := a2.takeWhile isJsSpace
      match a2.drop ws2.length with
      | '\x7d' :: '\x7d' :: _ =>
        some (String.mk name, 2 + ws1.length + name.length + ws2.length + 2)
      | _ => none
  | _ => none

/-- Scan step of the global token replacement. -/
def tokenStep (resolve : String → String) (l : List Char) : (List Char × Nat) :=
  match tokenMatchAt l with
  | some (name, k) => ((resolve name).data, k)
  | none => (l.take 1, 1)

/-- Match of the legacy hash pattern at the current position: the captured
    name and the length of the whole match. -/
def hashMatchAt (l : List Char) : Option (String × Nat) :=
  match l with
  | '#' :: '\x7b' :: rest =>
    let name := rest.takeWhile isNameChar
    if name = [] then none
    else
      match rest.drop name.length with
      | '\x7d' :: _ => some (String.mk name, 2 + name.length + 1)
      | _ => none
  | _ => none

/-- Scan step of the legacy rewrite, replacing hash tokens with
    double-brace tokens. -/
def hashStep (l : List Char) : (List Char × Nat) :=
  match hashMatchAt l with
  | some (name, k) => ('\x7b' :: '\x7b' :: name.data ++ ['\x7d', '\x7d'], k)
  | none => (l.take 1, 1)

/-- The legacy-spelling rewrite, first replace of applyTemplate. -/
def hashRewrite (s : String) : String :=
  String.mk (scanList hashStep s.data).flatten

/-- Global token replacement with a resolver for each captured name. -/
def replaceTokensStr (resolve : String → String) (s : String) : String :=
  String.mk (scanList (tokenStep resolve) s.data).flatten

/-! ### The template context

TemplateContext is a flat string-keyed record whose values may be
undefined (the source stores results of or-undefined coercions under
fixed keys).  Keys with undefined values exist but read as undefined. -/

/-- The template context: insertion-ordered fields, possibly undefined. -/
abbrev Ctx := List (String × Option String)

/-- Flat context read, undefined for an absent key or an undefined value. -/
def ctxGet (ctx : Ctx) (k : String) : Option String :=
  (objGet ctx k).join

/-- The context seen as a JavaScript object for dotted-path walks
    (undefined-valued keys read as undefined either way, so they are
    dropped). -/
def ctxToJs (ctx : Ctx) : JsValue :=
  .obj (ctx.filterMap fun p => p.2.map fun s => (p.1, JsValue.str s))

/-- Resolution of one captured token name, body of the replacement
    callback in applyTemplate: dotted names walk the context, flat names
    read directly; undefined and null give the empty string, a string
    gives itself, anything else its String() coercion. -/
def ctxResolve (ctx : Ctx) (key : String) : String :=
  if strIncludes key "." then
    match getValueByPath (ctxToJs ctx) key with
    | none => ""
    | some .null => ""
    | some (.str s) => s
    | some v => jsToString v
  else
    match ctxGet ctx key with
    | none => ""
    | some s => s

/-- applyTemplate of the source: rewrite the legacy spelling, then replace
    every token through the context. -/
def applyTemplate (value : String) (ctx : Ctx) : String :=
  replaceTokensStr (ctxResolve ctx) (hashRewrite value)

mutual

/-- replaceTemplates of the source: strings are substituted, arrays map
    element-wise, objects value-wise, and every other value is returned
    unchanged. -/
def replaceTemplates : JsValue → Ctx → JsValue
  | .str s, ctx => .str (applyTemplate s ctx)
  | .arr xs, ctx => .arr (replaceTemplatesArr xs ctx)
  | .obj fs, ctx => .obj (replaceTemplatesObj fs ctx)
  | v, _ => v

def replaceTemplatesArr : List JsValue → Ctx → List JsValue
  | [], _ => []
  | v :: tl, ctx => replaceTemplates v ctx :: replaceTemplatesArr tl ctx

def replaceTemplatesObj : List (String × JsValue) → Ctx → List (String × JsValue)
  | [], _ => []
  | (k, v) :: tl, ctx => (k, replaceTemplates v ctx) :: replaceTemplatesObj tl ctx

end

end Carp

namespace Carp

/-! ### Directive extraction (source lines 104 to 134) -/

/-- Case-insensitive match of an expected lowercase word. -/
def matchCI (expected : List Char) (l : List Char) : Bool :=
  (l.take expected.length).map Char.toLower = expected ∧ expected.length ≤ l.length

/-- Match of a directive at the current position for one of the given
    lowercase names: hash, name (case-insensitive), open brace, lazy
    content up to the first close brace.  Returns the raw captured content
    and the length of the whole match. -/
def directiveMatchAt (names : List (List Char)) (l : List Char) : Option (List Char × Nat) :=
  match l with
  | '#' :: rest =>
    names.firstM fun name =>
      if matchCI name rest then
        match rest.drop name.length with
        | '\x7b' :: afterBrace =>
          let inner := afterBrace.takeWhile (fun c => c ≠ '\x7d')
          match afterBrace.drop inner.length with
          | '\x7d' :: _ => some (inner, 1 + name.length + 1 + inner.length + 1)
          | _ => none
        | _ => none
      else none
  | _ => none

/-- First directive occurrence, scanning left to right. -/
def findDirective (name : List Char) : List Char → Option (List Char)
  | [] => none
  | c :: tl =>
    match directiveMatchAt [name] (c :: tl) with
    | some (content, _) => some content
    | none => findDirective name tl

/-- extractDirective of the source: the trimmed content of the first
    directive with the given name, none when absent. -/
def extractDirective (raw : String) (name : String) : Option String :=
  (findDirective name.data raw.data).map fun content => jsTrim (String.mk content)

/-- Scan step removing directive occurrences. -/
def stripStep (names : List (List Char)) (l : List Char) : (List Char × Nat) :=
  match directiveMatchAt names l with
  | some (_, k) => ([], k)
  | none => (l.take 1, 1)

/-- stripDirectives of the source: global removal of every directive with
    one of the given names. -/
def stripDirectives (raw : String) (names : List String) : String :=
  String.mk (scanList (stripStep (names.map String.data)) raw.data).flatten

/-! ### parseObjectLiteral (source lines 92 to 101)

The tolerant object-literal reader: normalize backticks and single quotes
to double quotes, quote bare keys after an open brace or comma, strip
trailing commas, then parse as JSON.  The two global regex replaces are
embedded as scan steps with the exact capture layout of the source
(the separator and the whitespace after it are kept, the whitespace
between key and colon is dropped; the comma and the whitespace before a
closing bracket are dropped). -/

/-- Word character of the regex class backslash-w. -/
def isWordChar (c : Char) : Bool :=
  c.isAlphanum || c = '_'

/-- Scan step quoting bare object keys. -/
def quoteKeysStep (l : List Char) : (List Char × Nat) :=
  match l with
  | c :: tl =>
    if c = ',' || c = '\x7b' then
      let ws := tl.takeWhile isJsSpace
      let a1 := tl.drop ws.length
      let name := a1.takeWhile (fun d => isWordChar d || d = '-')
      if name = [] then ([c], 1)
      else
        let a2 := a1.drop name.length
        let ws2 := a2.takeWhile isJsSpace
        match a2.drop ws2.length with
        | ':' :: _ =>
          (c :: ws ++ '"' :: name ++ ['"', ':'],
            1 + ws.length + name.length + ws2.length + 1)
        | _ => ([c], 1)
    else ([c], 1)
  | [] => ([], 1)

/-- Scan step stripping trailing commas before a closing bracket. -/
def trailingCommaStep (l : List Char) : (List Char × Nat) :=
  match l with
  | ',' :: tl =>
    let ws := tl.takeWhile isJsSpace
    match tl.drop ws.length with
    | '\x7d' :: _ => (['\x7d'], 1 + ws.length + 1)
    | ']' :: _ => ([']'], 1 + ws.length + 1)
    | _ => ([','], 1)
  | c :: _ => ([c], 1)
  | [] => ([], 1)

/-- parseObjectLiteral of the source. -/
def parseObjectLiteral (raw : String) : Option JsValue :=
  let cleaned := jsTrim raw
  match cleaned.data with
  | '\x7b' :: _ =>
    let pass1 := cleaned.data.map fun c => if c = '`' || c = '\'' then '"' else c
    let pass2 := (scanList quoteKeysStep pass1).flatten
    let pass3 := (scanList trailingCommaStep pass2).flatten
    safeJsonParse (some (String.mk pass3))
  | _ => none

/-! ### Snippet-grammar field matchers (source lines 254 to 261) -/

/-- Identifier-start character of the JSONP wrapper regex. -/
def isIdentStart (c : Char) : Bool :=
  c.isAlpha || c = '_' || c = '$'

/-- Identifier-continuation character (backslash-w or dollar). -/
def isIdentChar (c : Char) : Bool :=
  isWordChar c || c = '$'

/-- Match at the current position of a const field with a quoted value:
    the word const, whitespace, the field name, an equals sign between
    optional whitespace, a quote character (backtick, single or double),
    and the lazily captured content up to the repeated quote. -/
def constQuotedAt (field : List Char) (l : List Char) : Option String :=
  match l with
  | 'c' :: 'o' :: 'n' :: 's' :: 't' :: rest =>
    let ws1 := rest.takeWhile isJsSpace
    if ws1 = [] then none
    else
      let a1 := rest.drop ws1.length
      if field.isPrefixOf a1 then
        let a2 := (a1.drop field.length).dropWhile isJsSpace
        match a2 with
        | '=' :: a3 =>
          match a3.dropWhile isJsSpace with
          | q :: a4 =>
            if q = '`' || q = '\'' || q = '"' then
              let content := a4.takeWhile (fun c => c ≠ q)
              match a4.drop content.length with
              | _ :: _ => some (String.mk content)
              | [] => none
            else none
          | [] => none
        | _ => none
      else none
  | _ => none

/-- First occurrence of a quoted const field, scanning left to right. -/
def findConstQuoted (field : List Char) : List Char → Option String
  | [] => none
  | c :: tl =>
    match constQuotedAt field (c :: tl) with
    | some s => some s
    | none => findConstQuoted field tl

/-- Match at the current position of a const field with a braced value:
    as constQuotedAt but the captured group is the open brace, the lazy
    content, and the first close brace. -/
def constBraceAt (field : List Char) (l : List Char) : Option String :=
  match l with
  | 'c' :: 'o' :: 'n' :: 's' :: 't' :: rest =>
    let ws1 := rest.takeWhile isJsSpace
    if ws1 = [] then none
    else
      let a1 := rest.drop ws1.length
      if field.isPrefixOf a1 then
        let a2 := (a1.drop field.length).dropWhile isJsSpace
        match a2 with
        | '=' :: a3 =>
          match a3.dropWhile isJsSpace with
          | '\x7b' :: a4 =>
            let content := a4.takeWhile (fun c => c ≠ '\x7d')
            match a4.drop content.length with
            | _ :: _ => some (String.mk ('\x7b' :: content ++ ['\x7d']))
            | [] => none
          | _ => none
        | _ => none
      else none
  | _ => none

/-- First occurrence of a braced const field, scanning left to right. -/
def findConstBrace (field : List Char) : List Char → Option String
  | [] => none
  | c :: tl =>
    match constBraceAt field (c :: tl) with
    | some s => some s
    | none => findConstBrace field tl

/-! ### JSONP unwrapping (source line 321) -/

/-- The anchored wrapper regex of tryParseJsonFromText: an identifier, an
    open parenthesis, a greedily captured body, a close parenthesis,
    optional whitespace and one optional final semicolon.  Greediness
    picks the last close parenthesis whose tail is whitespace and at most
    one semicolon ending the input. -/
def functionUnwrap (trimmed : List Char) : Option (List Char) :=
  match trimmed with
  | c :: tl =>
    if isIdentStart c then
      let run := tl.takeWhile isIdentChar
      match tl.drop run.length with
      | '(' :: inner =>
        let rev := inner.reverse
        let rev1 := match rev with
          | ';' :: r => r
          | r => r
        let rev2 := rev1.dropWhile isJsSpace
        match rev2 with
        | ')' :: content => some content.reverse
        | _ => none
      | _ => none
    else none
  | [] => none

end Carp

namespace Carp

/-! ### Engine data types

CustomRequestConfig mirrors the source interface, with the runtime
reality of the unvalidated JSON cast: url and method may hold any JSON
value (a truthy non-string makes the engine throw at use, which the
preparation stage models as the generic catch result).  Header values are
coerced to strings at the boundary, which is observationally equivalent
because every later use coerces them; templates whose headers field is a
truthy non-object are outside the modelled fragment. -/

structure CustomRequestConfig where
  url : JsValue
  method : Option JsValue
  headers : Option (List (String × String))
  body : Option JsValue
  bodyType : Option String
deriving Repr, DecidableEq

/-- Success rule of a response template.  The path and regex fields keep
    only their truthy string coercions (none for a falsy field), which is
    observationally equivalent at every use site; a truthy non-string
    path (which would make the source throw inside getValueByPath) is
    outside the modelled fragment. -/
structure SuccessRule where
  path : Option String
  equals : Option JsValue
  regex : Option String
deriving Repr, DecidableEq

structure CustomResponseConfig where
  type : Option String
  success : Option SuccessRule
  messagePath : Option String
  redirectPath : Option String
deriving Repr, DecidableEq

structure DiscountInfo where
  plate : String
  discountcharge : JsNumber
  needcharge : String
  entertime : String
  staytime : String
deriving Repr, DecidableEq

structure ParkingRequestResult where
  success : Bool
  message : Option String := none
  rawResponse : Option String := none
  redirectUrl : Option String := none
  discountInfo : Option DiscountInfo := none
deriving Repr, DecidableEq

/-- The discount-type configuration record read from the external store
    (string-or-null fields as Option String). -/
structure DiscountTypeRec where
  name : String
  jsessionid : Option String
  refererUrl : Option String
  scanUrl : Option String
  postParams : Option String
  useCustomRequest : Bool
  requestTemplate : Option String
  responseTemplate : Option String
deriving Repr, DecidableEq

/-- Caller-supplied submission overrides. -/
structure ContextOverrides where
  note : Option String := none
  name : Option String := none
  phone : Option String := none
  extra : List (String × Option String) := []
deriving Repr, DecidableEq

/-- The concrete outbound HTTP request the engine hands to fetch. -/
structure HttpRequest where
  url : String
  method : String
  headers : List (String × String)
  body : Option String
deriving Repr, DecidableEq

/-- Outcome of the pure preparation stage of sendParkingDiscount: an early
    structured failure with no network activity, or the request of the
    custom flow together with its response rule, or the request of the
    legacy flow. -/
inductive PrepareResult where
  | fail (r : ParkingRequestResult)
  | custom (req : HttpRequest) (rule : Option CustomResponseConfig)
  | legacy (req : HttpRequest)
deriving Repr, DecidableEq

/-- Typeof-object test of JavaScript (null, arrays and objects). -/
def jsTypeofObject : JsValue → Bool
  | .null => true
  | .arr _ => true
  | .obj _ => true
  | _ => false

/-- Truthy string coercion of an optional member: none for an absent or
    falsy member, the String() coercion otherwise. -/
def truthyMemberStr (v : JsValue) (key : String) : Option String :=
  match jsMember v key with
  | some w => if jsTruthy w then some (jsToString w) else none
  | none => none

/-! ### Header helpers (source lines 136 to 164) -/

/-- findHeaderKey of the source: the first key whose lowercase form is the
    given lowercase name. -/
def findHeaderKey (headers : List (String × String)) (lowerName : String) : Option String :=
  ((headers.find? fun p => jsToLower p.1 = lowerName).map fun p => p.1)

/-- hasHeader of the source. -/
def hasHeader (headers : List (String × String)) (name : String) : Bool :=
  (findHeaderKey headers (jsToLower name)).isSome

/-- setHeader of the source: replace the value under an existing
    case-insensitive key in place, append otherwise. -/
def setHeader (headers : List (String × String)) (name value : String) : List (String × String) :=
  match findHeaderKey headers (jsToLower name) with
  | some existingKey => objSet headers existingKey value
  | none => objSet headers name value

/-- mergeHeaders of the source: for each override, delete a case-variant
    existing key, then assign under the override's own spelling. -/
def mergeHeaders (headers overrides : List (String × String)) : List (String × String) :=
  overrides.foldl
    (fun next p =>
      let next2 :=
        match findHeaderKey next (jsToLower p.1) with
        | some existingKey => if existingKey ≠ p.1 then objDelete next existingKey else next
        | none => next
      objSet next2 p.1 p.2)
    headers

/-! ### Key-value parsing (source lines 110 to 128, 166 to 210) -/

/-- Shared piece handling of parseHeaderDirective and parseNoteVariables:
    split at the first equals sign, or at the first colon when no equals
    sign exists; a missing or leading separator skips the piece, as does a
    key that trims to nothing. -/
def kvOfPiece (piece : List Char) : Option (String × String) :=
  let sepIdx :=
    match listIdxOf '=' piece with
    | some i => some i
    | none => listIdxOf ':' piece
  match sepIdx with
  | none => none
  | some 0 => none
  | some i =>
    let key := jsTrim (String.mk (piece.take i))
    let value := jsTrim (String.mk (piece.drop (i + 1)))
    if key = "" then none else some (key, value)

/-- Header fields of a parsed object literal, string-coerced values. -/
def headerFieldsOfJs : JsValue → List (String × String)
  | .obj fs => fs.map fun p => (p.1, jsToString p.2)
  | _ => []

/-- parseHeaderDirective of the source. -/
def parseHeaderDirective (raw : String) : Option (List (String × String)) :=
  let trimmed := jsTrim raw
  if trimmed = "" then none
  else
    let objResult : Option JsValue :=
      match trimmed.data with
      | '\x7b' :: _ =>
        match parseObjectLiteral trimmed with
        | some v => some v
        | none => safeJsonParse (some trimmed)
      | _ => none
    match objResult with
    | some v => some (headerFieldsOfJs v)
    | none =>
      let pairs := ((splitSet ['&', ';', '\n'] trimmed.data).map jsTrimList).filter
        (fun p => p ≠ [])
      if pairs = [] then none
      else
        let headers := pairs.foldl
          (fun acc piece =>
            match kvOfPiece piece with
            | some (k, v) => objSet acc k v
            | none => acc) []
        if headers = [] then none else some headers

/-- parseNoteVariables of the source. -/
def parseNoteVariables (note : Option String) : List (String × String) :=
  match note with
  | none => []
  | some n =>
    let trimmed := jsTrim n
    if trimmed = "" then []
    else
      let jsonResult : Option (List (String × String)) :=
        match trimmed.data with
        | '\x7b' :: _ =>
          match safeJsonParse (some trimmed) with
          | some (.obj fs) =>
            some (fs.filterMap fun p =>
              match p.2 with
              | .null => none
              | .str s => some (p.1, s)
              | v => some (p.1, jsToString v))
          | _ => none
        | _ => none
      match jsonResult with
      | some vars => vars
      | none =>
        let pieces := ((splitSet ['&', ';', '\r', '\n'] trimmed.data).map jsTrimList).filter
          (fun p => p ≠ [])
        pieces.foldl
          (fun acc piece =>
            match kvOfPiece piece with
            | some (k, v) => objSet acc k v
            | none => acc) []

/-- parseKeyValuePairs of the source: object-literal content keeps its
    JSON value types; other content goes through the URLSearchParams
    constructor and collapses duplicate keys with the last value. -/
def parseKeyValuePairs (raw : String) : Option (List (String × JsValue)) :=
  let trimmed := jsTrim raw
  if trimmed = "" then none
  else
    match trimmed.data with
    | '\x7b' :: _ =>
      match parseObjectLiteral trimmed with
      | some (.obj fs) => some fs
      | some _ => none
      | none =>
        match safeJsonParse (some trimmed) with
        | some (.obj fs) => some fs
        | _ => none
    | _ =>
      if ¬ strIncludes trimmed "=" ∧ ¬ strIncludes trimmed ":" then none
      else
        let result := (urlParamsParse trimmed).foldl
          (fun acc p => objSet acc p.1 (JsValue.str p.2)) []
        if result = [] then none else some result

end Carp

namespace Carp

/-! ### applyBodyDirective (source lines 212 to 240) -/

/-- applyBodyDirective of the source, functionally: an empty (whitespace)
    directive changes nothing; a truthy object body merges parsed
    overrides (or is wholesale-replaced by unparseable content); a
    non-empty string body with parsed overrides goes through
    URLSearchParams.set per override, bodyType defaulting to form; every
    other case wholesale-replaces the body with the trimmed directive text
    and forces bodyType to raw. -/
def applyBodyDirective (config : CustomRequestConfig) (directive : String) :
    CustomRequestConfig :=
  let trimmed := jsTrim directive
  if trimmed = "" then config
  else
    let overrides := parseKeyValuePairs trimmed
    match config.body with
    | some bodyV =>
      if jsTruthy bodyV ∧ jsTypeofObject bodyV then
        match overrides with
        | some ovs =>
          { config with body := some (.obj (recSpread (jsSpreadEntries bodyV) ovs)) }
        | none =>
          { config with body := some (.str trimmed), bodyType := some "raw" }
      else
        match bodyV, overrides with
        | .str s, some ovs =>
          if s ≠ "" then
            let baseParams := urlParamsParse s
            let newParams := ovs.foldl
              (fun acc p => urlParamsSet acc p.1 (jsToString p.2)) baseParams
            { config with
                body := some (.str (urlParamsToString newParams)),
                bodyType := match config.bodyType with
                  | some t => some t
                  | none => some "form" }
          else
            { config with body := some (.str trimmed), bodyType := some "raw" }
        | _, _ =>
          { config with body := some (.str trimmed), bodyType := some "raw" }
    | none =>
      { config with body := some (.str trimmed), bodyType := some "raw" }

/-! ### parseRequestTemplate (source lines 242 to 307) -/

/-- Request config read off a parsed JSON template object (the unvalidated
    cast of the source: fields are taken as they come). -/
def configOfJson (v : JsValue) : CustomRequestConfig :=
  { url := (jsMember v "url").getD (.str "")
    method := jsMember v "method"
    headers :=
      match jsMember v "headers" with
      | some (.obj fs) => some (fs.map fun p => (p.1, jsToString p.2))
      | _ => none
    body := jsMember v "body"
    bodyType :=
      match jsMember v "bodyType" with
      | some w => if jsTruthy w then some (jsToString w) else none
      | none => none }

/-- parseRequestTemplate of the source: extract directives, strip them,
    parse the remainder as a JSON template (requiring a truthy url) or as
    the const-snippet grammar (requiring a url match), then re-apply the
    template-level header directive by plain object spread and the
    template-level body directive by applyBodyDirective. -/
def parseRequestTemplate (raw : String) : Option CustomRequestConfig :=
  let bodyDirective := extractDirective raw "body"
  let headerDirective := extractDirective raw "header"
  let trimmed := jsTrim (stripDirectives raw ["body", "header"])
  if trimmed = "" then none
  else
    let config : Option CustomRequestConfig :=
      match trimmed.data with
      | '\x7b' :: _ =>
        match safeJsonParse (some trimmed) with
        | some v => if jsTruthyOpt (jsMember v "url") then some (configOfJson v) else none
        | none => none
      | _ =>
        match findConstQuoted "url".data trimmed.data with
        | none => none
        | some url =>
          let methodMatch := findConstQuoted "method".data trimmed.data
          let headersMatch := findConstBrace "headers".data trimmed.data
          let bodyTypeMatch := findConstQuoted "bodyType".data trimmed.data
          let bodyObjectMatch := findConstBrace "body".data trimmed.data
          let bodyStringMatch := findConstQuoted "body".data trimmed.data
          let headers :=
            match headersMatch with
            | some h =>
              match parseObjectLiteral h with
              | some (.obj fs) => some (fs.map fun p => (p.1, jsToString p.2))
              | _ => none
            | none => none
          let body : Option JsValue :=
            match bodyObjectMatch with
            | some b =>
              match parseObjectLiteral b with
              | some v => some v
              | none =>
                match safeJsonParse (some b) with
                | some v => some v
                | none => none
            | none => bodyStringMatch.map JsValue.str
          let rawBodyType := (bodyTypeMatch.map fun t => jsToLower (jsTrim t))
          let explicitBodyType : Option String :=
            match rawBodyType with
            | some t => if t = "json" ∨ t = "form" ∨ t = "raw" then some t else none
            | none => none
          let inferredBodyType : Option String :=
            match body with
            | some b =>
              if jsTypeofObject b then some "form"
              else match b with
                | .str s => if strIncludes s "=" then some "form" else some "raw"
                | _ => none
            | none => none
          some
            { url := .str url
              method := methodMatch.map JsValue.str
              headers := headers
              body := body
              bodyType :=
                match explicitBodyType with
                | some t => some t
                | none => inferredBodyType }
    match config with
    | none => none
    | some cfg =>
      let cfg2 :=
        match headerDirective with
        | some d =>
          if d ≠ "" then
            match parseHeaderDirective d with
            | some ovs => { cfg with headers := some (recSpread (cfg.headers.getD []) ovs) }
            | none => cfg
          else cfg
        | none => cfg
      match bodyDirective with
      | some d => if d ≠ "" then some (applyBodyDirective cfg2 d) else some cfg2
      | none => some cfg2

/-- parseResponseTemplate of the source: null for a missing, empty or
    unparseable (or falsy-parsing) template, the read config otherwise. -/
def parseResponseTemplate (raw : Option String) : Option CustomResponseConfig :=
  match safeJsonParse raw with
  | some v =>
    if jsTruthy v then
      some
        { type := truthyMemberStr v "type"
          success :=
            match jsMember v "success" with
            | some w =>
              if jsTruthy w then
                some
                  { path := truthyMemberStr w "path"
                    equals := jsMember w "equals"
                    regex := truthyMemberStr w "regex" }
              else none
            | none => none
          messagePath := truthyMemberStr v "messagePath"
          redirectPath := truthyMemberStr v "redirectPath" }
    else none
  | none => none

end Carp

namespace Carp

/-! ### tryParseJsonFromText (source lines 316 to 335) -/

/-- The first-to-last-brace slice fallback of tryParseJsonFromText. -/
def braceSlice (trimmed : String) : Option JsValue :=
  match listIdxOf '\x7b' trimmed.data, listLastIdxOf '\x7d' trimmed.data with
  | some i, some j =>
    if i < j then safeJsonParse (some (String.mk ((trimmed.data.drop i).take (j - i + 1))))
    else none
  | _, _ => none

/-- tryParseJsonFromText of the source: trim, unwrap a JSONP wrapper when
    the whole text matches one, parse the candidate directly, and when
    that fails or parses to a falsy value fall back to the brace slice of
    the trimmed text. -/
def tryParseJsonFromText (text : String) : Option JsValue :=
  if text = "" then none
  else
    let trimmed := jsTrim text
    if trimmed = "" then none
    else
      let candidate :=
        match functionUnwrap trimmed.data with
        | some inner => String.mk inner
        | none => trimmed
      match safeJsonParse (some candidate) with
      | some v => if jsTruthy v then some v else braceSlice trimmed
      | none => braceSlice trimmed

/-! ### extractDiscountInfo (source lines 349 to 360) -/

/-- The in-operator of JavaScript on the values it is applied to here. -/
def jsHasProp (v : JsValue) (key : String) : Bool :=
  match v with
  | .obj fs => fs.any fun p => p.1 = key
  | .arr xs =>
    key = "length" ||
      (match decodeIndexKey key with
       | some i => i < xs.length
       | none => false)
  | _ => false

/-- Field extraction rule String(x or default) of the source. -/
def strFieldOr (m : Option JsValue) (dflt : String) : String :=
  match m with
  | some w => if jsTruthy w then jsToString w else dflt
  | none => dflt

/-- extractDiscountInfo of the source: requires a truthy response value
    whose info member is a non-null object carrying a discountcharge
    property, then extracts the five fields with falsy-coalescing
    defaults. -/
def extractDiscountInfo (jsonResponse : Option JsValue) : Option DiscountInfo :=
  match jsonResponse with
  | none => none
  | some j =>
    if ¬ jsTruthy j then none
    else
      match jsMember j "info" with
      | none => none
      | some info =>
        if ¬ jsTypeofObject info ∨ info = .null then none
        else if ¬ jsHasProp info "discountcharge" then none
        else
          some
            { plate := strFieldOr (jsMember info "plate") ""
              discountcharge :=
                jsToNumber
                  (match jsMember info "discountcharge" with
                   | some w => if jsTruthy w then w else .num 0
                   | none => .num 0)
              needcharge := strFieldOr (jsMember info "needcharge") "0"
              entertime := strFieldOr (jsMember info "entertime") ""
              staytime := strFieldOr (jsMember info "staytime") "" }

/-! ### evaluateCustomResponse (source lines 362 to 411) -/

/-- Result record of evaluateCustomResponse. -/
structure EvalResult where
  success : Bool
  message : Option String := none
  redirectUrl : Option String := none
  json : Option JsValue := none
deriving Repr, DecidableEq

/-- RegExp.test as the engine exercises it.  Modelling boundary: the
    admin-authored pattern is treated as a literal (no metacharacters), so
    a test is substring containment; an invalid pattern (which would make
    the source throw) is likewise outside the modelled fragment. -/
def regexTest (pattern target : String) : Bool :=
  strIncludes target pattern

/-- JavaScript strict equality between a possibly-undefined value and a
    configured equals value.  Composite against composite is reference
    equality, and the two sides here always come from distinct parses, so
    it is false. -/
def jsStrictEqOpt : Option JsValue → JsValue → Bool
  | none, _ => false
  | some .null, .null => true
  | some (.bool a), .bool b => a = b
  | some (.num a), .num b => a = b
  | some (.str a), .str b => a = b
  | _, _ => false

/-- The effective type resolution of evaluateCustomResponse: the truthy
    configured type, else json when any of the three path fields is
    truthy, else text. -/
def effectiveType (cfg : CustomResponseConfig) : String :=
  match cfg.type with
  | some t => t
  | none =>
    if (cfg.success.bind fun r => r.path).isSome ∨ cfg.messagePath.isSome ∨
        cfg.redirectPath.isSome then "json"
    else "text"

/-- evaluateCustomResponse of the source. -/
def evaluateCustomResponse (responseText : String) (config : Option CustomResponseConfig) :
    Option EvalResult :=
  match config with
  | none => none
  | some cfg =>
    if effectiveType cfg = "json" then
      let parsed := tryParseJsonFromText responseText
      if ¬ jsTruthyOpt parsed then
        some { success := false, message := some "Invalid JSON response" }
      else
        match parsed with
        | none => some { success := false, message := some "Invalid JSON response" }
        | some json =>
          let success :=
            match cfg.success with
            | none => false
            | some rule =>
              let targetValue : Option JsValue :=
                match rule.path with
                | some p => getValueByPath json p
                | none => none
              match rule.equals with
              | some eqv =>
                jsStrictEqOpt targetValue eqv || jsToStringOpt targetValue = jsToString eqv
              | none =>
                match rule.regex with
                | some r =>
                  regexTest r
                    (match targetValue with
                     | some tv => jsToString tv
                     | none => jsonStringify json)
                | none =>
                  match rule.path with
                  | some _ => jsTruthyOpt targetValue
                  | none => false
          let messageValue :=
            match cfg.messagePath with
            | some mp => getValueByPath json mp
            | none => none
          let redirectValue :=
            match cfg.redirectPath with
            | some rp => getValueByPath json rp
            | none => none
          some
            { success := success
              message := messageValue.map jsToString
              redirectUrl :=
                match redirectValue with
                | some (.str s) => some s
                | _ => none
              json := some json }
    else
      match cfg.success.bind fun r => r.regex with
      | some r => some { success := regexTest r responseText, message := some responseText }
      | none =>
        match cfg.success.bind fun r => r.equals with
        | some eqv =>
          some
            { success := strIncludes responseText (jsToString eqv)
              message := some responseText }
        | none => some { success := false, message := some responseText }

/-! ### buildRequestBody (source lines 413 to 434) -/

/-- Body serialization outcome: the optional body string, or the thrown
    marker for the one reachable exception (Object.entries on a null
    body), which the engine's outer catch converts to the generic
    failure. -/
inductive BodyBuild where
  | ok (b : Option String)
  | thrown
deriving Repr, DecidableEq

/-- buildRequestBody of the source: substitute tokens through the body,
    return a string body as is, serialize an object body as JSON when
    bodyType is json and as urlencoded pairs otherwise (null field values
    serialize empty). -/
def buildRequestBody (body : Option JsValue) (bodyType : Option String) (ctx : Ctx) :
    BodyBuild :=
  match body with
  | none => .ok none
  | some b =>
    let resolved := replaceTemplates b ctx
    match resolved with
    | .str s => .ok (some s)
    | r =>
      if bodyType = some "json" then .ok (some (jsonStringify r))
      else
        match r with
        | .null => .thrown
        | r =>
          let params := (jsSpreadEntries r).foldl
            (fun acc p =>
              urlParamsSet acc p.1
                (match p.2 with
                 | .null => ""
                 | v => jsToString v)) []
          .ok (some (urlParamsToString params))

end Carp

namespace Carp

/-! ### The custom request pipeline of sendParkingDiscount
    (source lines 502 to 585) -/

/-- Note-level directive application (source lines 538 to 547): a truthy
    note header directive merges case-insensitively through mergeHeaders,
    then a truthy note body directive goes through applyBodyDirective. -/
def applyNoteDirectives (cfg : CustomRequestConfig)
    (noteHeaderDirective noteBodyDirective : Option String) : CustomRequestConfig :=
  let cfg1 :=
    match noteHeaderDirective with
    | some d =>
      if d ≠ "" then
        match parseHeaderDirective d with
        | some ovs => { cfg with headers := some (mergeHeaders (cfg.headers.getD []) ovs) }
        | none => cfg
      else cfg
    | none => cfg
  match noteBodyDirective with
  | some d => if d ≠ "" then applyBodyDirective cfg1 d else cfg1
  | none => cfg1

/-- Request-assembly outcome: the request, or the thrown marker for the
    reachable exceptions (a truthy non-string url or method, a null body
    serialized as form data), which the engine's outer catch converts to
    the generic failure. -/
inductive RequestBuild where
  | ok (req : HttpRequest)
  | thrown
deriving Repr, DecidableEq

/-- The effective method of the request (source line 550): the upper-cased
    truthy configured method (a truthy non-string method marks the thrown
    toUpperCase), defaulting to POST. -/
def methodOf (cfg : CustomRequestConfig) : Option String :=
  match cfg.method with
  | some m =>
    if jsTruthy m then
      match m with
      | .str s => some (jsToUpper s)
      | _ => none
    else some "POST"
  | none => some "POST"

/-- The header pipeline of the request assembly (source lines 551 to 564):
    copy the configured headers; inject the Cookie header when no
    case-insensitive cookie header exists and the context jsessionid is
    truthy; substitute every header value; inject the Referer header when
    no referer header exists and the context referer is truthy. -/
def headersStage (cfg : CustomRequestConfig) (ctx : Ctx) : List (String × String) :=
  let headers0 := cfg.headers.getD []
  let headers1 :=
    if ¬ hasHeader headers0 "cookie" ∧ strTruthy (ctxGet ctx "jsessionid") then
      setHeader headers0 "Cookie" ("JSESSIONID=" ++ (ctxGet ctx "jsessionid").getD "")
    else headers0
  let resolvedHeaders := headers1.map fun p => (p.1, applyTemplate p.2 ctx)
  if ¬ hasHeader resolvedHeaders "referer" ∧ strTruthy (ctxGet ctx "referer") then
    setHeader resolvedHeaders "Referer" ((ctxGet ctx "referer").getD "")
  else resolvedHeaders

/-- Request assembly (source lines 549 to 585): substitute the url; upcase
    the method, defaulting to POST; run the header pipeline (Cookie
    injection, value substitution, Referer injection, in that order); for
    a non-GET method resolve the body type (an object-typed body defaults
    to form), build the body, and inject the default Content-Type for
    json or form bodies when absent. -/
def assembleRequest (cfg : CustomRequestConfig) (ctx : Ctx) : RequestBuild :=
  match cfg.url with
  | .str u =>
    let url := applyTemplate u ctx
    match methodOf cfg with
    | none => .thrown
    | some method =>
      let resolvedHeaders2 := headersStage cfg ctx
      if method = "GET" then
        .ok { url := url, method := method, headers := resolvedHeaders2, body := none }
      else
        let resolvedBodyType :=
          match cfg.bodyType with
          | some t => some t
          | none =>
            match cfg.body with
            | some b => if jsTypeofObject b then some "form" else none
            | none => none
        match buildRequestBody cfg.body resolvedBodyType ctx with
        | .thrown => .thrown
        | .ok body =>
          let finalHeaders :=
            if resolvedBodyType = some "json" then
              if ¬ hasHeader resolvedHeaders2 "content-type" then
                setHeader resolvedHeaders2 "Content-Type" "application/json"
              else resolvedHeaders2
            else if resolvedBodyType = some "form" then
              if ¬ hasHeader resolvedHeaders2 "content-type" then
                setHeader resolvedHeaders2 "Content-Type"
                  "application/x-www-form-urlencoded; charset=UTF-8"
              else resolvedHeaders2
            else resolvedHeaders2
          .ok { url := url, method := method, headers := finalHeaders, body := body }
  | _ => .thrown

/-- Keep a truthy optional string, matching the or-undefined coercions of
    the context literal. -/
def truthyF (o : Option String) : Option String :=
  if strTruthy o then o else none

/-- The template context of one submission (source lines 511 to 527):
    fixed keys first, note-derived variables spread over them, extra
    overrides spread last. -/
def buildContext (plateNumber discountTypeCode : String) (ov : ContextOverrides)
    (rec : DiscountTypeRec) (cleanedNote : Option String) : Ctx :=
  let noteVars := parseNoteVariables cleanedNote
  let baseCtx : Ctx := [
    ("plate", some plateNumber),
    ("discountType", some discountTypeCode),
    ("jsessionid", truthyF rec.jsessionid),
    ("referer", truthyF rec.refererUrl),
    ("scanUrl", truthyF rec.scanUrl),
    ("note", truthyF cleanedNote),
    ("name", truthyF ov.name),
    ("phone", truthyF ov.phone)]
  recSpread (recSpread baseCtx (noteVars.map fun p => (p.1, some p.2))) ov.extra

/-- The custom flow of sendParkingDiscount after the mode split: parse the
    template (a null parse is the definitive template-parse failure),
    derive note directives and the context, layer note directives, and
    assemble the request. -/
def customFlow (plateNumber discountTypeCode : String) (ov : ContextOverrides)
    (rec : DiscountTypeRec) (customRequestRaw : String)
    (customResponse : Option CustomResponseConfig) : PrepareResult :=
  match parseRequestTemplate customRequestRaw with
  | none =>
    .fail { success := false,
            message := some ("Custom request template parse failed for " ++ rec.name) }
  | some requestConfig =>
    let noteRaw := ov.note
    let noteBodyDirective :=
      if strTruthy noteRaw then extractDirective (noteRaw.getD "") "body" else none
    let noteHeaderDirective :=
      if strTruthy noteRaw then extractDirective (noteRaw.getD "") "header" else none
    let cleanedNote :=
      if strTruthy noteRaw then
        some (jsTrim (stripDirectives (noteRaw.getD "") ["body", "header"]))
      else none
    let context := buildContext plateNumber discountTypeCode ov rec cleanedNote
    let effective := applyNoteDirectives requestConfig noteHeaderDirective noteBodyDirective
    match assembleRequest effective context with
    | .thrown => .fail { success := false, message := some "Failed to request parking system" }
    | .ok req => .custom req customResponse

/-! ### The legacy flow of sendParkingDiscount (source lines 618 to 658) -/

/-- The fixed legacy endpoint. -/
def PARKING_API_URL : String :=
  "http://www.szdaqin.cn/shopDiscount/goDicount.do?responseFunction=goDicount&querytype=0"

/-- The default legacy body parameters. -/
def DEFAULT_BODY_PARAMS : List (String × JsValue) := [
  ("id", .str "8"), ("businessid", .str "3"), ("parkid", .str "229"),
  ("type", .str "null"), ("serialNumber", .str ""), ("orderno", .str ""),
  ("totalcount", .str "1")]

/-- The legacy flow: fail on a falsy jsessionid, otherwise build the fixed
    headers (plus Referer when configured) and the urlencoded body from
    the defaults, the stored post parameters and the plate. -/
def legacyFlow (plateNumber : String) (rec : DiscountTypeRec) : PrepareResult :=
  if ¬ strTruthy rec.jsessionid then
    .fail { success := false,
            message := some ("Discount type " ++ rec.name ++
              " missing Session ID. Configure in settings.") }
  else
    let jsessionid := rec.jsessionid.getD ""
    let referer := rec.refererUrl
    let storedPostParams := safeJsonParse rec.postParams
    let headers0 : List (String × String) := [
      ("X-Requested-With", "XMLHttpRequest"),
      ("Content-Type", "application/x-www-form-urlencoded; charset=UTF-8"),
      ("Origin", "http://www.szdaqin.cn"),
      ("Accept", "text/plain, */*; q=0.01"),
      ("Accept-Language", "zh-CN,zh;q=0.9,en;q=0.8"),
      ("User-Agent", "Mozilla/5.0 (iPhone; CPU iPhone OS 18_7 like Mac OS X) AppleWebKit/605.1.15 (KHTML, like Gecko) Version/26.2 Mobile/15E148 Safari/604.1"),
      ("Cookie", "JSESSIONID=" ++ jsessionid)]
    let headers :=
      if strTruthy referer then objSet headers0 "Referer" (referer.getD "") else headers0
    let stored :=
      match storedPostParams with
      | some v => if jsTruthy v then jsSpreadEntries v else []
      | none => []
    let bodyParams := objSet (recSpread DEFAULT_BODY_PARAMS stored) "plate" (.str plateNumber)
    let body := urlParamsToString (bodyParams.map fun p => (p.1, jsToString p.2))
    .legacy { url := PARKING_API_URL, method := "POST", headers := headers, body := some body }

/-! ### The preparation stage of sendParkingDiscount
    (source lines 455 to 509 and 618 to 623) -/

/-- Pure preparation stage of sendParkingDiscount: the early guards (the
    literal none code, the missing configuration record, the response
    template that fails to parse, the enabled-but-empty request template),
    then the mode split on the truthiness of the trimmed custom template.
    The external store read is a parameter, consulted only after the none
    guard. -/
def prepareParkingDiscount (plateNumber discountTypeCode : String) (ov : ContextOverrides)
    (db : String → Option DiscountTypeRec) : PrepareResult :=
  if discountTypeCode = "none" then
    .fail { success := false, message := some "Discount type not set" }
  else
    match db discountTypeCode with
    | none =>
      .fail { success := false,
              message := some ("Discount type not found: " ++ discountTypeCode) }
    | some rec =>
      let customRequestRaw : Option String :=
        if rec.useCustomRequest then rec.requestTemplate.map jsTrim else some ""
      let customResponse := parseResponseTemplate rec.responseTemplate
      if strTruthy rec.responseTemplate ∧ customResponse = none then
        .fail { success := false,
                message := some ("Custom response template parse failed for " ++ rec.name) }
      else if rec.useCustomRequest ∧ ¬ strTruthy customRequestRaw then
        .fail { success := false,
                message := some ("Custom request enabled but template is empty for " ++
                  rec.name) }
      else if strTruthy customRequestRaw then
        customFlow plateNumber discountTypeCode ov rec (customRequestRaw.getD "")
          customResponse
      else legacyFlow plateNumber rec

/-! ### Response stages (source lines 587 to 615 and 660 to 686) -/

/-- Response handling of the custom flow: a configured rule's evaluation
    becomes the result (with discount info extracted from its parsed
    json); without a rule, the built-in heuristic extracts discount info
    from the leniently parsed text, else falls back to the HTTP status
    with the fixed Request failed message. -/
def customResponseStage (responseText : String) (statusOk : Bool)
    (rule : Option CustomResponseConfig) : ParkingRequestResult :=
  match evaluateCustomResponse responseText rule with
  | some e =>
    { success := e.success, message := e.message, rawResponse := some responseText,
      redirectUrl := e.redirectUrl, discountInfo := extractDiscountInfo e.json }
  | none =>
    let jsonResponse := tryParseJsonFromText responseText
    match extractDiscountInfo jsonResponse with
    | some info =>
      { success := true, rawResponse := some responseText, discountInfo := some info }
    | none =>
      { success := statusOk,
        message := if statusOk then none else some "Request failed",
        rawResponse := some responseText }

/-- Error-message selection of the legacy response path: a truthy errmsg
    of a truthy object info member, unless it is the string ok, else the
    fixed default. -/
def legacyErrorMessage (jsonResponse : Option JsValue) : String :=
  let dflt := "Parking discount request failed"
  match jsonResponse with
  | some j =>
    match jsMember j "info" with
    | some info =>
      if jsTruthy info ∧ jsTypeofObject info then
        match jsMember info "errmsg" with
        | some em => if jsTruthy em ∧ em ≠ .str "ok" then jsToString em else dflt
        | none => dflt
      else dflt
    | none => dflt
  | none => dflt

/-- Response handling of the legacy flow: discount info extraction on
    success, otherwise a failure (independent of the HTTP status) whose
    message surfaces a truthy errmsg different from ok, with a fixed
    default. -/
def legacyResponseStage (responseText : String) : ParkingRequestResult :=
  let jsonResponse := tryParseJsonFromText responseText
  match extractDiscountInfo jsonResponse with
  | some info =>
    { success := true, rawResponse := some responseText, discountInfo := some info }
  | none =>
    { success := false, message := some (legacyErrorMessage jsonResponse),
      rawResponse := some responseText }

end Carp

namespace Carp

/-! ## Claims -/

/-- C10: for every plate and every set of context overrides, a submission
    with the literal discount-type code none fails with the fixed
    Discount type not set message without consulting the configuration
    store (the result is the same for every store) and without any
    network request (the outcome is an early failure, not a request);
    and a submission whose code has no configuration record fails with
    the Discount type not found message, likewise without a request. -/
theorem sendParkingDiscount_none_and_not_found :
    (∀ (plate : String) (ov : ContextOverrides) (db : String → Option DiscountTypeRec),
      prepareParkingDiscount plate "none" ov db =
        .fail { success := false, message := some "Discount type not set" }) ∧
    (∀ (plate code : String) (ov : ContextOverrides) (db : String → Option DiscountTypeRec),
      code ≠ "none" → db code = none →
      prepareParkingDiscount plate code ov db =
        .fail { success := false,
                message := some ("Discount type not found: " ++ code) }) := by
  constructor
  · intro plate ov db
    rfl
  · intro plate code ov db hcode hdb
    unfold prepareParkingDiscount
    rw [if_neg hcode, hdb]

/-- Witness for C10 at concrete inputs. -/
theorem sendParkingDiscount_none_and_not_found_witness :
    prepareParkingDiscount "A1" "none" {} (fun _ => none) =
      .fail { success := false, message := some "Discount type not set" } ∧
    prepareParkingDiscount "A1" "missing" {} (fun _ => none) =
      .fail { success := false, message := some "Discount type not found: missing" } :=
  ⟨sendParkingDiscount_none_and_not_found.1 "A1" {} (fun _ => none),
   sendParkingDiscount_none_and_not_found.2 "A1" "missing" {} (fun _ => none)
     (by decide) rfl⟩

/-- C9: a non-empty responseTemplate that is not valid JSON makes every
    submission for that discount type fail immediately with the Custom
    response template parse failed message, before any request is built
    and before any network call (the outcome is an early failure), in
    legacy mode just as in custom mode (the record's useCustomRequest is
    unconstrained). -/
theorem responseTemplate_parse_guard
    (plate code : String) (ov : ContextOverrides) (db : String → Option DiscountTypeRec)
    (rec : DiscountTypeRec) (s : String)
    (hcode : code ≠ "none") (hdb : db code = some rec)
    (hrt : rec.responseTemplate = some s) (hne : s ≠ "")
    (hbad : jsonParse s = none) :
    prepareParkingDiscount plate code ov db =
      .fail { success := false,
              message := some ("Custom response template parse failed for " ++ rec.name) } := by
  have hresp : parseResponseTemplate (some s) = none := by
    simp [parseResponseTemplate, safeJsonParse, hne, hbad]
  unfold prepareParkingDiscount
  rw [if_neg hcode, hdb]
  simp only [hrt, hresp]
  simp [strTruthy, hne]

/-- Witness for C9: a legacy-mode record with an unparseable response
    template. -/
theorem responseTemplate_parse_guard_witness :
    prepareParkingDiscount "A1" "t" {}
      (fun _ => some { name := "T", jsessionid := some "S", refererUrl := none,
                       scanUrl := none, postParams := none, useCustomRequest := false,
                       requestTemplate := none, responseTemplate := some "not json" }) =
      .fail { success := false,
              message := some "Custom response template parse failed for T" } :=
  responseTemplate_parse_guard "A1" "t" {} _
    { name := "T", jsessionid := some "S", refererUrl := none,
      scanUrl := none, postParams := none, useCustomRequest := false,
      requestTemplate := none, responseTemplate := some "not json" }
    "not json" (by decide) rfl rfl (by decide) rfl

end Carp

namespace Carp

/-- C1: configuration errors are definitive and never fall back across
    modes.  With custom requests enabled, a missing or whitespace-only
    template fails early with the enabled-but-empty message; a template
    whose trimmed text parseRequestTemplate rejects fails early with the
    template-parse-failed message; in legacy mode (custom requests
    disabled) a falsy jsessionid fails early with the missing-session
    message.  Each outcome is an early failure, so no request is built
    and the other mode is never attempted; the last conjunct separates
    the three messages for every record name.  The submissions are
    assumed to pass the earlier response-template guard, which would
    otherwise fail even earlier with its own distinct message. -/
theorem configuration_errors_definitive :
    (∀ (plate code : String) (ov : ContextOverrides)
      (db : String → Option DiscountTypeRec) (rec : DiscountTypeRec),
      code ≠ "none" → db code = some rec → rec.useCustomRequest = true →
      (rec.requestTemplate = none ∨ ∃ t, rec.requestTemplate = some t ∧ jsTrim t = "") →
      ¬ (strTruthy rec.responseTemplate ∧
          parseResponseTemplate rec.responseTemplate = none) →
      prepareParkingDiscount plate code ov db =
        .fail { success := false,
                message := some ("Custom request enabled but template is empty for " ++
                  rec.name) }) ∧
    (∀ (plate code : String) (ov : ContextOverrides)
      (db : String → Option DiscountTypeRec) (rec : DiscountTypeRec) (t : String),
      code ≠ "none" → db code = some rec → rec.useCustomRequest = true →
      rec.requestTemplate = some t → jsTrim t ≠ "" →
      parseRequestTemplate (jsTrim t) = none →
      ¬ (strTruthy rec.responseTemplate ∧
          parseResponseTemplate rec.responseTemplate = none) →
      prepareParkingDiscount plate code ov db =
        .fail { success := false,
                message := some ("Custom request template parse failed for " ++
                  rec.name) }) ∧
    (∀ (plate code : String) (ov : ContextOverrides)
      (db : String → Option DiscountTypeRec) (rec : DiscountTypeRec),
      code ≠ "none" → db code = some rec → rec.useCustomRequest = false →
      ¬ strTruthy rec.jsessionid →
      ¬ (strTruthy rec.responseTemplate ∧
          parseResponseTemplate rec.responseTemplate = none) →
      prepareParkingDiscount plate code ov db =
        .fail { success := false,
                message := some ("Discount type " ++ rec.name ++
                  " missing Session ID. Configure in settings.") }) ∧
    (∀ n : String,
      ("Custom request enabled but template is empty for " ++ n ≠
        "Custom request template parse failed for " ++ n) ∧
      ("Custom request enabled but template is empty for " ++ n ≠
        "Discount type " ++ n ++ " missing Session ID. Configure in settings.") ∧
      ("Custom request template parse failed for " ++ n ≠
        "Discount type " ++ n ++ " missing Session ID. Configure in settings.")) := by
  refine ⟨?_, ?_, ?_, ?_⟩
  · intro plate code ov db rec hcode hdb hcustom hempty hresp
    unfold prepareParkingDiscount
    rw [if_neg hcode, hdb]
    dsimp only
    rw [if_neg hresp]
    rcases hempty with h | ⟨t, ht2, htr⟩
    · rw [if_pos ⟨hcustom, by simp [h, hcustom, strTruthy]⟩]
    · rw [if_pos ⟨hcustom, by simp [ht2, htr, hcustom, strTruthy]⟩]
  · intro plate code ov db rec t hcode hdb hcustom ht htne hparse hresp
    unfold prepareParkingDiscount
    rw [if_neg hcode, hdb]
    dsimp only
    rw [if_neg hresp]
    rw [if_neg (fun hc => hc.2 (by simp [hcustom, ht, strTruthy, htne]))]
    rw [if_pos (by simp [hcustom, ht, strTruthy, htne])]
    simp only [hcustom, ht, if_true]
    unfold customFlow
    simp [hparse]
  · intro plate code ov db rec hcode hdb hcustom hsid hresp
    unfold prepareParkingDiscount
    rw [if_neg hcode, hdb]
    dsimp only
    rw [if_neg hresp]
    rw [if_neg (fun hc => by rw [hcustom] at hc; exact absurd hc.1 (by simp))]
    rw [if_neg (by simp [hcustom, strTruthy])]
    unfold legacyFlow
    rw [if_pos hsid]
  · intro n
    have l1 : ("Custom request enabled but template is empty for ").length = 49 := rfl
    have l2 : ("Custom request template parse failed for ").length = 41 := rfl
    have l3 : ("Discount type ").length = 14 := rfl
    have l4 : (" missing Session ID. Configure in settings.").length = 43 := rfl
    refine ⟨?_, ?_, ?_⟩ <;>
      · intro h
        have hl := congrArg String.length h
        simp only [String.length_append, l1, l2, l3, l4] at hl
        omega

/-- Witness for C1: three concrete records exercising the empty-template,
    parse-failed and missing-session failures, plus the message
    separation at one name. -/
theorem configuration_errors_definitive_witness :
    prepareParkingDiscount "A1" "t" {}
      (fun _ => some { name := "T", jsessionid := none, refererUrl := none,
                       scanUrl := none, postParams := none, useCustomRequest := true,
                       requestTemplate := some "   ", responseTemplate := none }) =
      .fail { success := false,
              message := some "Custom request enabled but template is empty for T" } ∧
    prepareParkingDiscount "A1" "t" {}
      (fun _ => some { name := "T", jsessionid := none, refererUrl := none,
                       scanUrl := none, postParams := none, useCustomRequest := true,
                       requestTemplate := some "nonsense", responseTemplate := none }) =
      .fail { success := false,
              message := some "Custom request template parse failed for T" } ∧
    prepareParkingDiscount "A1" "t" {}
      (fun _ => some { name := "T", jsessionid := some "", refererUrl := none,
                       scanUrl := none, postParams := none, useCustomRequest := false,
                       requestTemplate := none, responseTemplate := none }) =
      .fail { success := false,
              message := some "Discount type T missing Session ID. Configure in settings." } ∧
    ("Custom request enabled but template is empty for T" ≠
      "Custom request template parse failed for T") :=
  ⟨configuration_errors_definitive.1 "A1" "t" {} _
    { name := "T", jsessionid := none, refererUrl := none, scanUrl := none,
      postParams := none, useCustomRequest := true, requestTemplate := some "   ",
      responseTemplate := none }
    (by decide) rfl rfl (Or.inr ⟨"   ", rfl, rfl⟩) (by simp [strTruthy]),
   configuration_errors_definitive.2.1 "A1" "t" {} _
    { name := "T", jsessionid := none, refererUrl := none, scanUrl := none,
      postParams := none, useCustomRequest := true, requestTemplate := some "nonsense",
      responseTemplate := none }
    "nonsense" (by decide) rfl rfl rfl (by decide) rfl (by simp [strTruthy]),
   configuration_errors_definitive.2.2.1 "A1" "t" {} _
    { name := "T", jsessionid := some "", refererUrl := none, scanUrl := none,
      postParams := none, useCustomRequest := false, requestTemplate := none,
      responseTemplate := none }
    (by decide) rfl rfl (by simp [strTruthy]) (by simp [strTruthy]),
   configuration_errors_definitive.2.2.2 "T" |>.1⟩

end Carp

namespace Carp

/-! ## C2: token substitution -/

/-- Building block of a template string made of tokens and literal text,
    the formalization of a string containing only tokens present in the
    context. -/
inductive TokenPart where
  | lit (s : String)
  | tok (name : String)
deriving Repr, DecidableEq

/-- The template string of a part list, each token rendered in its
    canonical double-brace form. -/
def mkTokenString : List TokenPart → String
  | [] => ""
  | .lit s :: tl => s ++ mkTokenString tl
  | .tok n :: tl => "\x7b\x7b" ++ n ++ "\x7d\x7d" ++ mkTokenString tl

/-- Literal text of a token string: no braces (which could fuse with
    neighbouring tokens) and no hash (which could fuse into a legacy
    token). -/
def litOK (s : String) : Prop :=
  ∀ c ∈ s.data, c ≠ '\x7b' ∧ c ≠ '\x7d' ∧ c ≠ '#'

/-- A well-formed token name: non-empty and of name characters only. -/
def wfName (n : String) : Prop :=
  n ≠ "" ∧ ∀ c ∈ n.data, isNameChar c

/-- Well-formed part list. -/
def partsWF : List TokenPart → Prop
  | [] => True
  | .lit s :: tl => litOK s ∧ partsWF tl
  | .tok n :: tl => wfName n ∧ partsWF tl

/-- Substitution result of a part list: literals verbatim, tokens through
    the resolver the engine uses. -/
def renderParts (ctx : Ctx) : List TokenPart → String
  | [] => ""
  | .lit s :: tl => s ++ renderParts ctx tl
  | .tok n :: tl => ctxResolve ctx n ++ renderParts ctx tl

/-- A string with no brace characters. -/
def noBraces (s : String) : Prop :=
  ∀ c ∈ s.data, c ≠ '\x7b' ∧ c ≠ '\x7d'

theorem nameChar_not_space {c : Char} (h : isNameChar c = true) : isJsSpace c = false := by
  by_contra hw
  simp only [Bool.not_eq_false, isJsSpace, Bool.or_eq_true, decide_eq_true_eq] at hw
  rcases hw with ((((((h1 | h1) | h1) | h1) | h1) | h1) | h1) | h1 <;>
    subst h1 <;> revert h <;> decide

theorem nameChar_ne_hash {c : Char} (h : isNameChar c = true) : c ≠ '#' := by
  intro h1
  subst h1
  revert h
  decide

theorem nameChar_ne_close {c : Char} (h : isNameChar c = true) : c ≠ '\x7d' := by
  intro h1
  subst h1
  revert h
  decide

/-- Flattened scan output, the character list of a global replace. -/
def flatScan (step : List Char → (List Char × Nat)) (l : List Char) : List Char :=
  (scanList step l).flatten

theorem flatScan_nil (step : List Char → (List Char × Nat)) : flatScan step [] = [] := rfl

/-- Passthrough of a scan whose step is inert away from a trigger
    character over text free of that trigger. -/
theorem flatScan_passthrough (step : List Char → (List Char × Nat)) (trigger : Char)
    (hstep : ∀ c tl, c ≠ trigger → step (c :: tl) = ([c], 1)) :
    ∀ (s rest : List Char), (∀ c ∈ s, c ≠ trigger) →
      flatScan step (s ++ rest) = s ++ flatScan step rest := by
  intro s
  induction s with
  | nil => intro rest _; rfl
  | cons c tl ih =>
    intro rest hs
    have hc : c ≠ trigger := hs c (List.mem_cons_self c tl)
    have hstep' := hstep c (tl ++ rest) hc
    calc flatScan step ((c :: tl) ++ rest)
        = c :: flatScan step (tl ++ rest) := by
          rw [List.cons_append, flatScan, scanList_cons, hstep']
          rfl
      _ = c :: (tl ++ flatScan step rest) := by
          rw [ih rest (fun d hd => hs d (List.mem_cons_of_mem c hd))]
      _ = (c :: tl) ++ flatScan step rest := rfl

theorem tokenStep_inert (resolve : String → String) (c : Char) (tl : List Char)
    (hc : c ≠ '\x7b') : tokenStep resolve (c :: tl) = ([c], 1) := by
  have hm : tokenMatchAt (c :: tl) = none := by
    unfold tokenMatchAt
    split
    · rename_i heq
      injection heq with h1 h2
      simp_all
    · rfl
  simp [tokenStep, hm]

theorem hashStep_inert (c : Char) (tl : List Char) (hc : c ≠ '#') :
    hashStep (c :: tl) = ([c], 1) := by
  have hm : hashMatchAt (c :: tl) = none := by
    unfold hashMatchAt
    split
    · rename_i heq
      injection heq with h1 h2
      simp_all
    · rfl
  simp [hashStep, hm]

theorem takeWhile_all_append {p : Char → Bool} :
    ∀ (xs : List Char) (y : Char) (rest : List Char), (∀ x ∈ xs, p x = true) →
      p y = false →
      (xs ++ y :: rest).takeWhile p = xs ∧ (xs ++ y :: rest).dropWhile p = y :: rest := by
  intro xs
  induction xs with
  | nil => intro y rest _ hy; simp [List.takeWhile_cons, List.dropWhile_cons, hy]
  | cons x tl ih =>
    intro y rest hx hy
    have hpx : p x = true := hx x (List.mem_cons_self x tl)
    have := ih y rest (fun d hd => hx d (List.mem_cons_of_mem x hd)) hy
    simp [List.takeWhile_cons, List.dropWhile_cons, hpx, this.1, this.2]

/-- The token matcher at a canonical token: it captures exactly the name
    and consumes exactly the token. -/
theorem tokenMatchAt_canonical (name : String) (rest : List Char) (hwf : wfName name) :
    tokenMatchAt ('\x7b' :: '\x7b' :: (name.data ++ '\x7d' :: '\x7d' :: rest)) =
      some (name, name.data.length + 4) := by
  obtain ⟨hne, hchars⟩ := hwf
  have hstop : isJsSpace '\x7d' = false := by decide
  have hname : ∀ c ∈ name.data, isNameChar c = true := fun c hc => hchars c hc
  have hws : ∀ c ∈ name.data, isJsSpace c = false :=
    fun c hc => nameChar_not_space (hname c hc)
  have hhead : (name.data ++ '\x7d' :: '\x7d' :: rest).takeWhile isJsSpace = [] := by
    match hd : name.data with
    | [] => exact absurd (String.ext hd) hne
    | c :: tl =>
      have hcs : isJsSpace c = false := hws c (by rw [hd]; exact List.mem_cons_self c tl)
      simp [List.takeWhile_cons, hcs]
  have hrun := takeWhile_all_append name.data '\x7d' ('\x7d' :: rest) hname (by decide)
  have hnameData : name.data ≠ [] := fun hd => absurd (String.ext hd) hne
  have hdrop : (name.data ++ '\x7d' :: '\x7d' :: rest).drop name.data.length =
      '\x7d' :: '\x7d' :: rest := List.drop_left _ _
  simp only [tokenMatchAt, hhead, List.length_nil, List.drop_zero, hrun.1,
    if_neg hnameData, hdrop, List.takeWhile_cons, hstop, Bool.false_eq_true, if_false]
  refine congrArg some ?_
  refine Prod.ext rfl ?_
  simp only []
  omega

end Carp

namespace Carp

theorem flatScan_token (resolve : String → String) (name : String) (rest : List Char)
    (hwf : wfName name) :
    flatScan (tokenStep resolve) ('\x7b' :: '\x7b' :: (name.data ++ '\x7d' :: '\x7d' :: rest)) =
      (resolve name).data ++ flatScan (tokenStep resolve) rest := by
  have hm := tokenMatchAt_canonical name rest hwf
  have hstep : tokenStep resolve ('\x7b' :: '\x7b' :: (name.data ++ '\x7d' :: '\x7d' :: rest)) =
      ((resolve name).data, name.data.length + 4) := by
    simp [tokenStep, hm]
  have hdrop : ('\x7b' :: '\x7b' :: (name.data ++ '\x7d' :: '\x7d' :: rest)).drop
      (max 1 (name.data.length + 4)) = rest := by
    have hmax : max 1 (name.data.length + 4) = name.data.length + 4 := by omega
    have hexp : '\x7b' :: '\x7b' :: (name.data ++ '\x7d' :: '\x7d' :: rest) =
        ('\x7b' :: '\x7b' :: name.data ++ ['\x7d', '\x7d']) ++ rest := by simp
    have hlen : ('\x7b' :: '\x7b' :: name.data ++ ['\x7d', '\x7d']).length =
        name.data.length + 4 := by simp
    rw [hmax, hexp, ← hlen, List.drop_left]
  rw [flatScan, scanList_cons, hstep]
  simp only []
  rw [hdrop]
  rfl

theorem hashMatchAt_canonical (name : String) (rest : List Char) (hwf : wfName name) :
    hashMatchAt ('#' :: '\x7b' :: (name.data ++ '\x7d' :: rest)) =
      some (name, name.data.length + 3) := by
  obtain ⟨hne, hchars⟩ := hwf
  have hname : ∀ c ∈ name.data, isNameChar c = true := fun c hc => hchars c hc
  have hrun := takeWhile_all_append name.data '\x7d' rest hname (by decide)
  have hnameData : name.data ≠ [] := fun hd => absurd (String.ext hd) hne
  have hdrop : (name.data ++ '\x7d' :: rest).drop name.data.length = '\x7d' :: rest :=
    List.drop_left _ _
  simp only [hashMatchAt, hrun.1, if_neg hnameData, hdrop]
  refine congrArg some ?_
  refine Prod.ext rfl ?_
  simp only []
  omega

theorem flatScan_hash_canonical (name : String) (rest : List Char) (hwf : wfName name) :
    flatScan hashStep ('#' :: '\x7b' :: (name.data ++ '\x7d' :: rest)) =
      ('\x7b' :: '\x7b' :: name.data ++ ['\x7d', '\x7d']) ++ flatScan hashStep rest := by
  have hm := hashMatchAt_canonical name rest hwf
  have hstep : hashStep ('#' :: '\x7b' :: (name.data ++ '\x7d' :: rest)) =
      ('\x7b' :: '\x7b' :: name.data ++ ['\x7d', '\x7d'], name.data.length + 3) := by
    simp [hashStep, hm]
  have hdrop : ('#' :: '\x7b' :: (name.data ++ '\x7d' :: rest)).drop
      (max 1 (name.data.length + 3)) = rest := by
    have hmax : max 1 (name.data.length + 3) = name.data.length + 3 := by omega
    have hexp : '#' :: '\x7b' :: (name.data ++ '\x7d' :: rest) =
        ('#' :: '\x7b' :: name.data ++ ['\x7d']) ++ rest := by simp
    have hlen : ('#' :: '\x7b' :: name.data ++ ['\x7d']).length = name.data.length + 3 := by
      simp
    rw [hmax, hexp, ← hlen, List.drop_left]
  rw [flatScan, scanList_cons, hstep]
  simp only []
  rw [hdrop]
  rfl

/-- Data of a part string, decomposed. -/
theorem mkTokenString_lit_data (s : String) (tl : List TokenPart) :
    (mkTokenString (.lit s :: tl)).data = s.data ++ (mkTokenString tl).data := by
  simp [mkTokenString, String.data_append]

theorem mkTokenString_tok_data (n : String) (tl : List TokenPart) :
    (mkTokenString (.tok n :: tl)).data =
      ('\x7b' :: '\x7b' :: n.data ++ ['\x7d', '\x7d']) ++ (mkTokenString tl).data := by
  simp [mkTokenString, String.data_append]

/-- The legacy rewrite leaves a token string unchanged. -/
theorem hashScan_parts : ∀ (parts : List TokenPart), partsWF parts →
    flatScan hashStep (mkTokenString parts).data = (mkTokenString parts).data := by
  intro parts
  induction parts with
  | nil => intro _; rfl
  | cons p tl ih =>
    intro h
    match p with
    | .lit s =>
      obtain ⟨hs, htl⟩ := h
      rw [mkTokenString_lit_data,
        flatScan_passthrough hashStep '#' hashStep_inert s.data _
          (fun c hc => (hs c hc).2.2), ih htl]
    | .tok n =>
      obtain ⟨hn, htl⟩ := h
      rw [mkTokenString_tok_data,
        flatScan_passthrough hashStep '#' hashStep_inert _ _ ?_, ih htl]
      intro c hc
      simp only [List.cons_append, List.mem_cons, List.mem_append, List.mem_singleton] at hc
      rcases hc with h1 | h1 | h1 | h1
      · subst h1; decide
      · subst h1; decide
      · exact nameChar_ne_hash (hn.2 c h1)
      · rcases h1 with h1 | h1 | h1 <;> first | (subst h1; decide) | simp at h1

/-- The token replacement renders a token string part by part. -/
theorem tokScan_parts (ctx : Ctx) : ∀ (parts : List TokenPart), partsWF parts →
    flatScan (tokenStep (ctxResolve ctx)) (mkTokenString parts).data =
      (renderParts ctx parts).data := by
  intro parts
  induction parts with
  | nil => intro _; rfl
  | cons p tl ih =>
    intro h
    match p with
    | .lit s =>
      obtain ⟨hs, htl⟩ := h
      rw [mkTokenString_lit_data,
        flatScan_passthrough (tokenStep (ctxResolve ctx)) '\x7b'
          (tokenStep_inert (ctxResolve ctx)) s.data _ (fun c hc => (hs c hc).1),
        ih htl]
      simp [renderParts, String.data_append]
    | .tok n =>
      obtain ⟨hn, htl⟩ := h
      have hexp : ('\x7b' :: '\x7b' :: n.data ++ ['\x7d', '\x7d']) ++ (mkTokenString tl).data =
          '\x7b' :: '\x7b' :: (n.data ++ '\x7d' :: '\x7d' :: (mkTokenString tl).data) := by
        simp
      rw [mkTokenString_tok_data, hexp, flatScan_token (ctxResolve ctx) n _ hn, ih htl]
      simp [renderParts, String.data_append]

/-- applyTemplate on a token string is the per-part rendering. -/
theorem applyTemplate_parts (ctx : Ctx) (parts : List TokenPart) (h : partsWF parts) :
    applyTemplate (mkTokenString parts) ctx = renderParts ctx parts := by
  show String.mk (flatScan (tokenStep (ctxResolve ctx))
    (String.mk (flatScan hashStep (mkTokenString parts).data)).data) = renderParts ctx parts
  rw [show (String.mk (flatScan hashStep (mkTokenString parts).data)).data =
    flatScan hashStep (mkTokenString parts).data from rfl]
  rw [hashScan_parts parts h, tokScan_parts ctx parts h]

theorem listIncludes_double (pat : Char) : ∀ (l : List Char), (∀ c ∈ l, c ≠ pat) →
    listIncludes [pat, pat] l = false := by
  intro l
  induction l with
  | nil => intro _; rfl
  | cons c tl ih =>
    intro h
    have hc : ¬ (pat = c) := fun he => (h c (List.mem_cons_self c tl)) he.symm
    have hbeq : (pat == c) = false := beq_eq_false_iff_ne.mpr hc
    simp only [listIncludes, List.isPrefixOf, hbeq, Bool.false_and, Bool.false_or]
    exact ih (fun d hd => h d (List.mem_cons_of_mem c hd))

theorem noBraces_no_double (s : String) (h : ∀ c ∈ s.data, c ≠ '\x7b' ∧ c ≠ '\x7d') :
    strIncludes s "\x7b\x7b" = false ∧ strIncludes s "\x7d\x7d" = false :=
  ⟨listIncludes_double '\x7b' s.data (fun c hc => (h c hc).1),
   listIncludes_double '\x7d' s.data (fun c hc => (h c hc).2)⟩
end Carp

namespace Carp

theorem replaceTemplatesArr_eq_map (ctx : Ctx) : ∀ (xs : List JsValue),
    replaceTemplatesArr xs ctx = xs.map fun v => replaceTemplates v ctx := by
  intro xs
  induction xs with
  | nil => rfl
  | cons v tl ih => simp [replaceTemplatesArr, ih]

theorem replaceTemplatesObj_eq_map (ctx : Ctx) : ∀ (fs : List (String × JsValue)),
    replaceTemplatesObj fs ctx = fs.map fun p => (p.1, replaceTemplates p.2 ctx) := by
  intro fs
  induction fs with
  | nil => rfl
  | cons p tl ih =>
    match p with
    | (k, v) => simp [replaceTemplatesObj, ih]

theorem renderParts_noBraces (ctx : Ctx) : ∀ (parts : List TokenPart), partsWF parts →
    (∀ n, TokenPart.tok n ∈ parts → noBraces (ctxResolve ctx n)) →
    ∀ c ∈ (renderParts ctx parts).data, c ≠ '\x7b' ∧ c ≠ '\x7d' := by
  intro parts
  induction parts with
  | nil => intro _ _ c hc; simp [renderParts] at hc
  | cons p tl ih =>
    intro hWF hvals c hc
    match p, hWF with
    | .lit s, ⟨hs, htl⟩ =>
      rw [show renderParts ctx (.lit s :: tl) = s ++ renderParts ctx tl from rfl,
        String.data_append] at hc
      rcases List.mem_append.mp hc with h1 | h1
      · exact ⟨(hs c h1).1, (hs c h1).2.1⟩
      · exact ih htl (fun n hn => hvals n (List.mem_cons_of_mem _ hn)) c h1
    | .tok n, ⟨hn, htl⟩ =>
      rw [show renderParts ctx (.tok n :: tl) = ctxResolve ctx n ++ renderParts ctx tl
        from rfl, String.data_append] at hc
      rcases List.mem_append.mp hc with h1 | h1
      · exact hvals n (List.mem_cons_self _ _) c h1
      · exact ih htl (fun m hm => hvals m (List.mem_cons_of_mem _ hm)) c h1

/-- C2 counterexample: the claim as stated is false.  The single-token
    string of the part list [tok plate] contains only a token present in
    the context, yet with the context value itself holding a close-brace
    pair the substitution result is that pair, so the result does contain
    a close-brace sequence. -/
theorem token_substitution_counterexample :
    mkTokenString [TokenPart.tok "plate"] = "\x7b\x7bplate\x7d\x7d" ∧
    applyTemplate (mkTokenString [TokenPart.tok "plate"]) [("plate", some "\x7d\x7d")] =
      "\x7d\x7d" ∧
    strIncludes
      (applyTemplate (mkTokenString [TokenPart.tok "plate"]) [("plate", some "\x7d\x7d")])
      "\x7d\x7d" = true :=
  ⟨rfl, rfl, rfl⟩

/-- C2 amended: token substitution is pure, total and shape-preserving.
    Strings go through the legacy-hash rewrite and then token replacement;
    arrays map element-wise, objects value-wise, and other values are
    unchanged.  A legacy hash token and a double-brace token of the same
    well-formed name substitute identically, through the engine's
    resolver, which reads flat names directly from the context (missing
    or undefined resolving to the empty string) and walks dotted names
    path segment by segment, a bracketed index normalizing to its dotted
    form.  On a string built only from tokens present in the context and
    brace-free literal text, substitution renders each part; the original
    claim's conclusion that the result holds no double-brace sequences
    holds once the substituted values are themselves brace-free, the
    amendment the counterexample forces. -/
theorem token_substitution_amended :
    (∀ (ctx : Ctx) (s : String), replaceTemplates (.str s) ctx = .str (applyTemplate s ctx)) ∧
    (∀ (ctx : Ctx) (xs : List JsValue),
      replaceTemplates (.arr xs) ctx = .arr (xs.map fun v => replaceTemplates v ctx)) ∧
    (∀ (ctx : Ctx) (fs : List (String × JsValue)),
      replaceTemplates (.obj fs) ctx = .obj (fs.map fun p => (p.1, replaceTemplates p.2 ctx))) ∧
    (∀ (ctx : Ctx) (n : Int), replaceTemplates (.num n) ctx = .num n) ∧
    (∀ (ctx : Ctx) (b : Bool), replaceTemplates (.bool b) ctx = .bool b) ∧
    (∀ ctx : Ctx, replaceTemplates .null ctx = .null) ∧
    (∀ v : JsValue, getValueByPath v "a[0]" = getValueByPath v "a.0") ∧
    (∀ (ctx : Ctx) (key : String), strIncludes key "." = false →
      ctxResolve ctx key = (ctxGet ctx key).getD "") ∧
    (∀ (ctx : Ctx) (key : String), strIncludes key "." = true →
      ctxResolve ctx key =
        (match getValueByPath (ctxToJs ctx) key with
         | none => ""
         | some .null => ""
         | some (.str s) => s
         | some v => jsToString v)) ∧
    (∀ (ctx : Ctx) (name : String), wfName name →
      applyTemplate ("#\x7b" ++ name ++ "\x7d") ctx = ctxResolve ctx name ∧
      applyTemplate ("\x7b\x7b" ++ name ++ "\x7d\x7d") ctx = ctxResolve ctx name) ∧
    (∀ (ctx : Ctx) (parts : List TokenPart), partsWF parts →
      applyTemplate (mkTokenString parts) ctx = renderParts ctx parts) ∧
    (∀ (ctx : Ctx) (parts : List TokenPart), partsWF parts →
      (∀ n, TokenPart.tok n ∈ parts → noBraces (ctxResolve ctx n)) →
      strIncludes (applyTemplate (mkTokenString parts) ctx) "\x7b\x7b" = false ∧
      strIncludes (applyTemplate (mkTokenString parts) ctx) "\x7d\x7d" = false) := by
  refine ⟨fun _ _ => rfl, ?_, ?_, fun _ _ => rfl, fun _ _ => rfl, fun _ => rfl,
    fun _ => rfl, ?_, ?_, ?_, applyTemplate_parts, ?_⟩
  · intro ctx xs
    simp [replaceTemplates, replaceTemplatesArr_eq_map]
  · intro ctx fs
    simp [replaceTemplates, replaceTemplatesObj_eq_map]
  · intro ctx key h
    simp only [ctxResolve, h, Bool.false_eq_true, if_false]
    cases hc : ctxGet ctx key <;> rfl
  · intro ctx key h
    simp only [ctxResolve, h, if_true]
  · intro ctx name hwf
    constructor
    · show String.mk (flatScan (tokenStep (ctxResolve ctx))
        (String.mk (flatScan hashStep ("#\x7b" ++ name ++ "\x7d").data)).data) =
        ctxResolve ctx name
      have hdata : ("#\x7b" ++ name ++ "\x7d").data =
          '#' :: '\x7b' :: (name.data ++ '\x7d' :: ([] : List Char)) := by
        simp [String.data_append]
      rw [hdata, show (String.mk (flatScan hashStep
        ('#' :: '\x7b' :: (name.data ++ '\x7d' :: ([] : List Char))))).data =
        flatScan hashStep ('#' :: '\x7b' :: (name.data ++ '\x7d' :: ([] : List Char)))
        from rfl]
      rw [flatScan_hash_canonical name [] hwf]
      have hshape : ('\x7b' :: '\x7b' :: name.data ++ ['\x7d', '\x7d']) ++
          flatScan hashStep [] =
          '\x7b' :: '\x7b' :: (name.data ++ '\x7d' :: '\x7d' :: ([] : List Char)) := by
        simp [flatScan_nil]
      rw [hshape, flatScan_token (ctxResolve ctx) name [] hwf]
      apply String.ext
      simp [flatScan_nil]
    · have hmk : ("\x7b\x7b" ++ name ++ "\x7d\x7d") = mkTokenString [TokenPart.tok name] := by
        apply String.ext
        simp [mkTokenString, String.data_append]
      have hrp : renderParts ctx [TokenPart.tok name] = ctxResolve ctx name := by
        apply String.ext
        simp [renderParts, String.data_append]
      rw [hmk, applyTemplate_parts ctx [TokenPart.tok name] ⟨hwf, trivial⟩, hrp]
  · intro ctx parts hWF hvals
    rw [applyTemplate_parts ctx parts hWF]
    exact noBraces_no_double _ (renderParts_noBraces ctx parts hWF hvals)
end Carp

namespace Carp

/-- Witness for the amended C2 at a concrete part list, context and
    legacy-spelling token. -/
theorem token_substitution_amended_witness :
    applyTemplate
        (mkTokenString [TokenPart.lit "a=", TokenPart.tok "plate", TokenPart.lit "&b"])
        [("plate", some "X1")] = "a=X1&b" ∧
    strIncludes
        (applyTemplate
          (mkTokenString [TokenPart.lit "a=", TokenPart.tok "plate", TokenPart.lit "&b"])
          [("plate", some "X1")]) "\x7b\x7b" = false ∧
    applyTemplate "#\x7bplate\x7d" [("plate", some "X1")] = "X1" ∧
    ctxResolve [("plate", some "X1")] "note" = "" := by
  obtain ⟨h1, h2, h3, h4, h5, h6, h7, h8, h9, h10, h11, h12⟩ := token_substitution_amended
  have hwf : partsWF [TokenPart.lit "a=", TokenPart.tok "plate", TokenPart.lit "&b"] := by
    simp only [partsWF, litOK, wfName]
    refine ⟨by decide, ⟨by decide, by decide⟩, by decide, trivial⟩
  have hvals : ∀ n, TokenPart.tok n ∈
      [TokenPart.lit "a=", TokenPart.tok "plate", TokenPart.lit "&b"] →
      noBraces (ctxResolve [("plate", some "X1")] n) := by
    intro n hn
    simp only [List.mem_cons, List.not_mem_nil, or_false] at hn
    rcases hn with h | h | h
    · simp at h
    · injection h with h
      subst h
      show ∀ c ∈ (ctxResolve [("plate", some "X1")] "plate").data, c ≠ '\x7b' ∧ c ≠ '\x7d'
      decide
    · simp at h
  refine ⟨?_, ?_, ?_, ?_⟩
  · exact (h11 [("plate", some "X1")] _ hwf).trans rfl
  · exact (h12 [("plate", some "X1")] _ hwf hvals).1
  · exact ((h10 [("plate", some "X1")] "plate" (by constructor <;> decide)).1).trans rfl
  · exact (h8 [("plate", some "X1")] "note" rfl).trans rfl

end Carp

namespace Carp

/-! ## C4: JSON-mode response evaluation -/


theorem identStart_not_jsonWs {c : Char} (h : isIdentStart c = true) : isJsonWs c = false := by
  by_contra hw
  simp only [Bool.not_eq_false, isJsonWs, Bool.or_eq_true, decide_eq_true_eq] at hw
  rcases hw with ((h1 | h1) | h1) | h1 <;> subst h1 <;> revert h <;> decide

theorem jsonWs_not_identChar {c : Char} (h : isJsonWs c = true) : isIdentChar c = false := by
  simp only [isJsonWs, Bool.or_eq_true, decide_eq_true_eq] at h
  rcases h with ((h1 | h1) | h1) | h1 <;> subst h1 <;> decide

theorem takeWhile_all (p : Char → Bool) : ∀ (l : List Char), (∀ x ∈ l, p x = true) →
    l.takeWhile p = l ∧ l.dropWhile p = [] := by
  intro l
  induction l with
  | nil => intro _; exact ⟨rfl, rfl⟩
  | cons x tl ih =>
    intro h
    have hx : p x = true := h x (List.mem_cons_self x tl)
    have := ih fun d hd => h d (List.mem_cons_of_mem x hd)
    simp [List.takeWhile_cons, List.dropWhile_cons, hx, this.1, this.2]

theorem funcUnwrap_ident_ws (c : Char) (lit tl2 : List Char)
    (hstart : isIdentStart c = true) (hlit : ∀ x ∈ lit, isIdentChar x = true)
    (hws : ∀ x ∈ tl2, isJsonWs x = true) :
    functionUnwrap (c :: (lit ++ tl2)) = none := by
  match tl2, hws with
  | [], _ =>
    simp only [functionUnwrap, List.append_nil]
    rw [if_pos hstart, (takeWhile_all isIdentChar lit hlit).1, List.drop_length]
  | w :: rest, hws =>
    have hw : isIdentChar w = false := jsonWs_not_identChar (hws w (List.mem_cons_self w rest))
    have hnp : w ≠ '(' := by
      intro he
      subst he
      exact absurd (hws '(' (List.mem_cons_self _ rest)) (by decide)
    have hrun := @takeWhile_all_append isIdentChar lit w rest hlit hw
    simp only [functionUnwrap]
    rw [if_pos hstart, hrun.1, List.drop_left]
    split
    · rename_i heq
      injection heq with h1 _
      exact absurd h1 hnp
    · rfl

theorem alpha_not_digit {c : Char} (ha : c.isAlpha = true) : c.isDigit = false := by
  by_contra hnd
  simp only [Bool.not_eq_false] at hnd
  simp only [Char.isAlpha, Char.isUpper, Char.isLower, Char.isDigit, Bool.or_eq_true,
    Bool.and_eq_true, decide_eq_true_eq, ge_iff_le, UInt32.le_def, BitVec.le_def] at ha hnd
  have e48 : ((48 : UInt32)).toBitVec.toNat = 48 := rfl
  have e57 : ((57 : UInt32)).toBitVec.toNat = 57 := rfl
  have e65 : ((65 : UInt32)).toBitVec.toNat = 65 := rfl
  have e90 : ((90 : UInt32)).toBitVec.toNat = 90 := rfl
  have e97 : ((97 : UInt32)).toBitVec.toNat = 97 := rfl
  have e122 : ((122 : UInt32)).toBitVec.toNat = 122 := rfl
  rw [e48, e57] at hnd
  rcases ha with ⟨ha1, ha2⟩ | ⟨ha1, ha2⟩
  · rw [e65] at ha1; rw [e90] at ha2; omega
  · rw [e97] at ha1; rw [e122] at ha2; omega

theorem identStart_not_digit {c : Char} (h : isIdentStart c = true) : c.isDigit = false := by
  simp only [isIdentStart, Bool.or_eq_true, decide_eq_true_eq] at h
  rcases h with (h1 | h1) | h1
  · exact alpha_not_digit h1
  · subst h1; decide
  · subst h1; decide

theorem identStart_ne_brace {c : Char} (h : isIdentStart c = true) :
    c ≠ '\x7b' ∧ c ≠ '[' ∧ c ≠ '"' ∧ c ≠ '-' := by
  refine ⟨?_, ?_, ?_, ?_⟩ <;> (intro he; subst he; revert h; decide)




set_option maxHeartbeats 2000000 in
theorem wrapper_excludes_direct (s : String) (i : List Char)
    (hfu : functionUnwrap s.data = some i) : jsonParse s = none := by
  match hd : s.data with
  | [] => rw [hd] at hfu; exact absurd hfu (by simp [functionUnwrap])
  | c :: tl =>
    rw [hd] at hfu
    have hstart : isIdentStart c = true := by
      by_contra hns
      simp only [Bool.not_eq_true] at hns
      simp [functionUnwrap, hns] at hfu
    cases hj : jsonParse s with
    | none => rfl
    | some v =>
      exfalso
      have hws : skipJsonWs s.data = s.data := by
        rw [hd]
        simp [skipJsonWs, List.dropWhile_cons, identStart_not_jsonWs hstart]
      rw [jsonParse, hws, hd] at hj
      have hbr := identStart_ne_brace hstart
      simp only [parseJsonVal] at hj
      split at hj
      case h_2 => simp at hj
      case h_1 v2 rest2 hm =>
        split at hm
        case h_1 l3 tl3 heq =>
          injection heq with g1 _
          exact absurd g1 hbr.1
        case h_2 l3 tl3 heq =>
          injection heq with g1 _
          exact absurd g1 hbr.2.1
        case h_3 l3 tl3 heq =>
          injection heq with g1 _
          exact absurd g1 hbr.2.2.1
        case h_4 l3 tl3 heq =>
          rw [Option.some.injEq, Prod.mk.injEq] at hm
          obtain ⟨_, hrest⟩ := hm
          subst hrest
          split at hj
          case isFalse => simp at hj
          case isTrue hws2 =>
            have hall : ∀ x ∈ tl3, isJsonWs x = true :=
              List.dropWhile_eq_nil_iff.mp hws2
            injection heq with g1 g2
            subst g1
            subst g2
            have hnone : functionUnwrap ('t' :: 'r' :: 'u' :: 'e' :: tl3) = none :=
              funcUnwrap_ident_ws 't' ['r', 'u', 'e'] tl3 (by decide) (by decide) hall
            rw [hnone] at hfu
            exact Option.noConfusion hfu
        case h_5 l3 tl3 heq =>
          rw [Option.some.injEq, Prod.mk.injEq] at hm
          obtain ⟨_, hrest⟩ := hm
          subst hrest
          split at hj
          case isFalse => simp at hj
          case isTrue hws2 =>
            have hall : ∀ x ∈ tl3, isJsonWs x = true :=
              List.dropWhile_eq_nil_iff.mp hws2
            injection heq with g1 g2
            subst g1
            subst g2
            have hnone : functionUnwrap ('f' :: 'a' :: 'l' :: 's' :: 'e' :: tl3) = none :=
              funcUnwrap_ident_ws 'f' ['a', 'l', 's', 'e'] tl3 (by decide) (by decide) hall
            rw [hnone] at hfu
            exact Option.noConfusion hfu
        case h_6 l3 tl3 heq =>
          rw [Option.some.injEq, Prod.mk.injEq] at hm
          obtain ⟨_, hrest⟩ := hm
          subst hrest
          split at hj
          case isFalse => simp at hj
          case isTrue hws2 =>
            have hall : ∀ x ∈ tl3, isJsonWs x = true :=
              List.dropWhile_eq_nil_iff.mp hws2
            injection heq with g1 g2
            subst g1
            subst g2
            have hnone : functionUnwrap ('n' :: 'u' :: 'l' :: 'l' :: tl3) = none :=
              funcUnwrap_ident_ws 'n' ['u', 'l', 'l'] tl3 (by decide) (by decide) hall
            rw [hnone] at hfu
            exact Option.noConfusion hfu
        case h_7 =>
          have hdig : c.isDigit = false := identStart_not_digit hstart
          have hint : parseJsonIntAt (c :: tl) = none := by
            unfold parseJsonIntAt
            split
            · rename_i tl2 heq2
              injection heq2 with g1 _
              exact absurd g1 hbr.2.2.2
            · simp [List.takeWhile_cons, hdig]
          rw [hint] at hm
          simp at hm


end Carp

namespace Carp

/-- The lenient parse in the order the claim states it: a direct JSON
    parse of the trimmed text first, then the JSONP-unwrapped inner
    content, then the first-to-last-brace slice.  An attempt succeeds when
    it parses to a truthy value, the engine's notion of success (a falsy
    parse falls through, matching the truthiness guard of the source). -/
def specLenientParse (text : String) : Option JsValue :=
  if text = "" then none
  else
    let trimmed := jsTrim text
    if trimmed = "" then none
    else
      let direct := safeJsonParse (some trimmed)
      if jsTruthyOpt direct then direct
      else
        let inner : Option JsValue :=
          match functionUnwrap trimmed.data with
          | some i => safeJsonParse (some (String.mk i))
          | none => none
        if jsTruthyOpt inner then inner
        else braceSlice trimmed

/-- The engine's lenient parse equals the claim-ordered one: when the
    whole text is a JSONP wrapper, a direct parse can never succeed
    (wrapper_excludes_direct), so the engine's skip of the direct attempt
    is unobservable. -/
theorem tryParse_eq_specLenient (text : String) :
    tryParseJsonFromText text = specLenientParse text := by
  unfold tryParseJsonFromText specLenientParse
  by_cases h0 : text = ""
  · simp [h0]
  · rw [if_neg h0, if_neg h0]
    by_cases h1 : jsTrim text = ""
    · simp [h1]
    · rw [if_neg h1, if_neg h1]
      cases hfu : functionUnwrap (jsTrim text).data with
      | none =>
        simp only
        cases hsp : safeJsonParse (some (jsTrim text)) with
        | none => rfl
        | some v =>
          by_cases ht : jsTruthy v = true
          · simp [jsTruthyOpt, ht]
          · simp only [Bool.not_eq_true] at ht
            simp [jsTruthyOpt, ht]
      | some inner =>
        have hdirect : safeJsonParse (some (jsTrim text)) = none := by
          simp only [safeJsonParse, if_neg h1]
          exact wrapper_excludes_direct (jsTrim text) inner hfu
        simp only [hdirect, jsTruthyOpt, Bool.false_eq_true, if_false]
        cases hsp : safeJsonParse (some (String.mk inner)) with
        | none => rfl
        | some v =>
          by_cases ht : jsTruthy v = true
          · simp [jsTruthyOpt, ht]
          · simp only [Bool.not_eq_true] at ht
            simp [jsTruthyOpt, ht]

end Carp

namespace Carp

/-- C4: JSON-mode response evaluation.  The response text is parsed
    leniently in the claim's order (direct parse, then JSONP unwrap, then
    first-to-last-brace slice); a failed parse yields the fixed
    Invalid JSON response failure; given a parsed value, the success
    decision gives success.equals precedence (strict or string-coercion
    equality against the value at success.path, undefined without a
    path), then success.regex (tested against the string form of the
    value at the path, or the serialized JSON without one), then
    truthiness of the value at the path, and is false without a success
    rule; and the Scenario C example evaluates to success. -/
theorem json_mode_response_evaluation :
    (∀ text : String, tryParseJsonFromText text = specLenientParse text) ∧
    (∀ (text : String) (cfg : CustomResponseConfig),
      effectiveType cfg = "json" → tryParseJsonFromText text = none →
      evaluateCustomResponse text (some cfg) =
        some { success := false, message := some "Invalid JSON response" }) ∧
    (∀ (text : String) (cfg : CustomResponseConfig) (json : JsValue)
      (rule : SuccessRule) (eqv : JsValue),
      effectiveType cfg = "json" → tryParseJsonFromText text = some json →
      jsTruthy json = true → cfg.success = some rule → rule.equals = some eqv →
      (evaluateCustomResponse text (some cfg)).map (fun e => e.success) =
        some (jsStrictEqOpt (rule.path.bind fun p => getValueByPath json p) eqv ||
          decide (jsToStringOpt (rule.path.bind fun p => getValueByPath json p) =
            jsToString eqv))) ∧
    (∀ (text : String) (cfg : CustomResponseConfig) (json : JsValue)
      (rule : SuccessRule) (r : String),
      effectiveType cfg = "json" → tryParseJsonFromText text = some json →
      jsTruthy json = true → cfg.success = some rule → rule.equals = none →
      rule.regex = some r →
      (evaluateCustomResponse text (some cfg)).map (fun e => e.success) =
        some (regexTest r
          (match rule.path.bind fun p => getValueByPath json p with
           | some tv => jsToString tv
           | none => jsonStringify json))) ∧
    (∀ (text : String) (cfg : CustomResponseConfig) (json : JsValue)
      (rule : SuccessRule),
      effectiveType cfg = "json" → tryParseJsonFromText text = some json →
      jsTruthy json = true → cfg.success = some rule → rule.equals = none →
      rule.regex = none →
      (evaluateCustomResponse text (some cfg)).map (fun e => e.success) =
        some (match rule.path with
          | some p => jsTruthyOpt (getValueByPath json p)
          | none => false)) ∧
    (∀ (text : String) (cfg : CustomResponseConfig) (json : JsValue),
      effectiveType cfg = "json" → tryParseJsonFromText text = some json →
      jsTruthy json = true → cfg.success = none →
      (evaluateCustomResponse text (some cfg)).map (fun e => e.success) = some false) ∧
    ((evaluateCustomResponse "\x7b\"info\":\x7b\"errmsg\":\"ok\"\x7d\x7d"
        (some { type := none,
                success := some { path := some "info.errmsg", equals := some (.str "ok"),
                                  regex := none },
                messagePath := none, redirectPath := none })).map (fun e => e.success) =
      some true) := by
  refine ⟨tryParse_eq_specLenient, ?_, ?_, ?_, ?_, ?_, rfl⟩
  · intro text cfg heff hparse
    simp only [evaluateCustomResponse, heff, if_pos, hparse, jsTruthyOpt, Bool.false_eq_true,
      not_false_iff, if_true, if_false]
  · intro text cfg json rule eqv heff hparse htruthy hsucc heqv
    simp only [evaluateCustomResponse, heff, if_pos, hparse, jsTruthyOpt, htruthy,
      not_true_eq_false, if_false, hsucc, heqv, Option.map_some]
    cases rule.path <;> simp
  · intro text cfg json rule r heff hparse htruthy hsucc heqv hregex
    simp only [evaluateCustomResponse, heff, if_pos, hparse, jsTruthyOpt, htruthy,
      not_true_eq_false, if_false, hsucc, heqv, hregex, Option.map_some]
    cases rule.path <;> simp
  · intro text cfg json rule heff hparse htruthy hsucc heqv hregex
    simp only [evaluateCustomResponse, heff, if_pos, hparse, jsTruthyOpt, htruthy,
      not_true_eq_false, if_false, hsucc, heqv, hregex, Option.map_some]
    cases rule.path <;> simp
  · intro text cfg json heff hparse htruthy hsucc
    simp only [evaluateCustomResponse, heff, if_pos, hparse, jsTruthyOpt, htruthy,
      not_true_eq_false, if_false, hsucc, Option.map_some]
    rfl

end Carp

namespace Carp

/-- Witness for C4: concrete texts and rules exercising the invalid-JSON
    failure and each branch of the success precedence. -/
theorem json_mode_response_evaluation_witness :
    evaluateCustomResponse "nope"
        (some { type := some "json", success := none, messagePath := none,
                redirectPath := none }) =
      some { success := false, message := some "Invalid JSON response" } ∧
    (evaluateCustomResponse "\x7b\"a\":1\x7d"
        (some { type := some "json",
                success := some { path := some "a", equals := some (.num 1),
                                  regex := none },
                messagePath := none, redirectPath := none })).map (fun e => e.success) =
      some true ∧
    (evaluateCustomResponse "\x7b\"a\":\"x1y\"\x7d"
        (some { type := some "json",
                success := some { path := some "a", equals := none, regex := some "x1" },
                messagePath := none, redirectPath := none })).map (fun e => e.success) =
      some true ∧
    (evaluateCustomResponse "\x7b\"a\":\"\"\x7d"
        (some { type := some "json",
                success := some { path := some "a", equals := none, regex := none },
                messagePath := none, redirectPath := none })).map (fun e => e.success) =
      some false ∧
    (evaluateCustomResponse "\x7b\"a\":1\x7d"
        (some { type := some "json", success := none, messagePath := none,
                redirectPath := none })).map (fun e => e.success) =
      some false := by
  obtain ⟨h1, h2, h3, h4, h5, h6, h7⟩ := json_mode_response_evaluation
  refine ⟨?_, ?_, ?_, ?_, ?_⟩
  · exact h2 "nope"
      { type := some "json", success := none, messagePath := none, redirectPath := none }
      rfl rfl
  · exact (h3 "\x7b\"a\":1\x7d"
      { type := some "json",
        success := some { path := some "a", equals := some (.num 1), regex := none },
        messagePath := none, redirectPath := none }
      (.obj [("a", .num 1)])
      { path := some "a", equals := some (.num 1), regex := none } (.num 1)
      rfl rfl rfl rfl rfl).trans rfl
  · exact (h4 "\x7b\"a\":\"x1y\"\x7d"
      { type := some "json",
        success := some { path := some "a", equals := none, regex := some "x1" },
        messagePath := none, redirectPath := none }
      (.obj [("a", .str "x1y")])
      { path := some "a", equals := none, regex := some "x1" } "x1"
      rfl rfl rfl rfl rfl rfl).trans rfl
  · exact (h5 "\x7b\"a\":\"\"\x7d"
      { type := some "json",
        success := some { path := some "a", equals := none, regex := none },
        messagePath := none, redirectPath := none }
      (.obj [("a", .str "")])
      { path := some "a", equals := none, regex := none }
      rfl rfl rfl rfl rfl rfl).trans rfl
  · exact (h6 "\x7b\"a\":1\x7d"
      { type := some "json", success := none, messagePath := none, redirectPath := none }
      (.obj [("a", .num 1)]) rfl rfl rfl rfl).trans rfl

end Carp

namespace Carp

/-! ## C5: built-in fallback heuristic -/

/-- The built-in fallback heuristic as the claim states it (claim-side
    definition for comparison with the engine): parse leniently; with the
    discountcharge shape, success with the extracted info; without it,
    success follows the raw HTTP status, surfacing a truthy errmsg
    different from ok as the message. -/
def specBuiltinFallback (statusOk : Bool) (responseText : String) : ParkingRequestResult :=
  let jsonResponse := tryParseJsonFromText responseText
  match extractDiscountInfo jsonResponse with
  | some info =>
    { success := true, rawResponse := some responseText, discountInfo := some info }
  | none =>
    let errmsg : Option JsValue := jsonResponse.bind fun j =>
      (jsMember j "info").bind fun info => jsMember info "errmsg"
    { success := statusOk,
      message :=
        match errmsg with
        | some em => if jsTruthy em ∧ em ≠ .str "ok" then some (jsToString em) else none
        | none => none,
      rawResponse := some responseText }

/-- C5 counterexample: the claim as stated is false on the legacy path.
    For a 2xx legacy submission whose response carries no discountcharge,
    the claim's heuristic reports a generic success, but the engine's
    legacy response handling fails (it ignores the HTTP status
    entirely). -/
theorem builtin_fallback_counterexample :
    (legacyResponseStage "\x7b\"info\":\x7b\"errmsg\":\"boom\"\x7d\x7d").success = false ∧
    (specBuiltinFallback true "\x7b\"info\":\x7b\"errmsg\":\"boom\"\x7d\x7d").success = true ∧
    legacyResponseStage "\x7b\"info\":\x7b\"errmsg\":\"boom\"\x7d\x7d" ≠
      specBuiltinFallback true "\x7b\"info\":\x7b\"errmsg\":\"boom\"\x7d\x7d" := by
  refine ⟨rfl, rfl, ?_⟩
  intro h
  have hs : (false : Bool) = true := by
    calc (false : Bool)
        = (legacyResponseStage "\x7b\"info\":\x7b\"errmsg\":\"boom\"\x7d\x7d").success := rfl
      _ = (specBuiltinFallback true "\x7b\"info\":\x7b\"errmsg\":\"boom\"\x7d\x7d").success :=
          congrArg ParkingRequestResult.success h
      _ = true := rfl
  exact Bool.false_ne_true hs

/-- C5 amended: with the discountcharge shape present, both the custom
    fallback (no response rule) and the legacy path succeed with the
    extracted info, as claimed.  Without it the two paths differ from the
    claim: the custom fallback follows the HTTP status but reports only
    the fixed Request failed message (never errmsg), while the legacy
    path always fails regardless of status, surfacing a truthy errmsg
    different from ok and a fixed default otherwise. -/
theorem builtin_fallback_amended :
    (∀ (text : String) (ok : Bool) (info : DiscountInfo),
      extractDiscountInfo (tryParseJsonFromText text) = some info →
      customResponseStage text ok none =
        { success := true, rawResponse := some text, discountInfo := some info } ∧
      legacyResponseStage text =
        { success := true, rawResponse := some text, discountInfo := some info }) ∧
    (∀ (text : String) (ok : Bool),
      extractDiscountInfo (tryParseJsonFromText text) = none →
      customResponseStage text ok none =
        { success := ok, message := if ok then none else some "Request failed",
          rawResponse := some text }) ∧
    (∀ text : String,
      extractDiscountInfo (tryParseJsonFromText text) = none →
      legacyResponseStage text =
        { success := false,
          message := some (legacyErrorMessage (tryParseJsonFromText text)),
          rawResponse := some text }) ∧
    (∀ (j info em : JsValue),
      jsMember j "info" = some info → jsTruthy info = true → jsTypeofObject info = true →
      jsMember info "errmsg" = some em → jsTruthy em = true → em ≠ .str "ok" →
      legacyErrorMessage (some j) = jsToString em) ∧
    (legacyErrorMessage none = "Parking discount request failed") := by
  refine ⟨?_, ?_, ?_, ?_, rfl⟩
  · intro text ok info h
    constructor
    · simp only [customResponseStage, evaluateCustomResponse, h]
    · simp only [legacyResponseStage, h]
  · intro text ok h
    simp only [customResponseStage, evaluateCustomResponse, h]
  · intro text h
    simp only [legacyResponseStage, h]
  · intro j info em h1 h2 h3 h4 h5 h6
    simp only [legacyErrorMessage, h1, h2, h3, h4, h5, h6, and_self, if_pos, if_true,
      ne_eq, not_false_iff, true_and]

/-- Witness for the amended C5 at concrete responses. -/
theorem builtin_fallback_amended_witness :
    customResponseStage "\x7b\"info\":\x7b\"discountcharge\":3\x7d\x7d" false none =
      { success := true,
        rawResponse := some "\x7b\"info\":\x7b\"discountcharge\":3\x7d\x7d",
        discountInfo := some { plate := "", discountcharge := .int 3, needcharge := "0",
                               entertime := "", staytime := "" } } ∧
    customResponseStage "oops" false none =
      { success := false, message := some "Request failed", rawResponse := some "oops" } ∧
    legacyResponseStage "oops" =
      { success := false, message := some (legacyErrorMessage (tryParseJsonFromText "oops")),
        rawResponse := some "oops" } ∧
    legacyErrorMessage (some (.obj [("info", .obj [("errmsg", .str "boom")])])) = "boom" := by
  obtain ⟨h1, h2, h3, h4, h5⟩ := builtin_fallback_amended
  refine ⟨?_, ?_, ?_, ?_⟩
  · exact (h1 "\x7b\"info\":\x7b\"discountcharge\":3\x7d\x7d" false
      { plate := "", discountcharge := .int 3, needcharge := "0", entertime := "",
        staytime := "" } rfl).1
  · exact h2 "oops" false rfl
  · exact h3 "oops" rfl
  · exact h4 (.obj [("info", .obj [("errmsg", .str "boom")])])
      (.obj [("errmsg", .str "boom")]) (.str "boom") rfl rfl rfl rfl rfl (by decide)

end Carp

namespace Carp

/-! ## C6: body directive application -/

/-- The body-directive application as the claim states it (claim-side
    definition for comparison with the engine): an object body with
    parseable key/value overrides is spread-merged; a non-empty string
    body with parseable overrides goes through URLSearchParams.set per
    override, bodyType defaulting to form; every other directive
    wholesale-replaces the body with the directive text and forces
    bodyType to raw.  The claim has no separate empty-directive case. -/
def specApplyBodyDirective (config : CustomRequestConfig) (directive : String) :
    CustomRequestConfig :=
  let trimmed := jsTrim directive
  match config.body, parseKeyValuePairs trimmed with
  | some bodyV, some ovs =>
    if jsTruthy bodyV ∧ jsTypeofObject bodyV then
      { config with body := some (.obj (recSpread (jsSpreadEntries bodyV) ovs)) }
    else
      match bodyV with
      | .str s =>
        if s ≠ "" then
          { config with
              body := some (.str (urlParamsToString (ovs.foldl
                (fun acc p => urlParamsSet acc p.1 (jsToString p.2)) (urlParamsParse s)))),
              bodyType := match config.bodyType with
                | some t => some t
                | none => some "form" }
        else { config with body := some (.str trimmed), bodyType := some "raw" }
      | _ => { config with body := some (.str trimmed), bodyType := some "raw" }
  | _, _ => { config with body := some (.str trimmed), bodyType := some "raw" }

/-- C6 counterexample: a whitespace-only #body directive is a no-op in the
    engine (the body keeps its object value and bodyType stays unset),
    while the case split of the claim has it wholesale-replace the body
    with the directive text and force bodyType to raw. -/
theorem body_directive_counterexample :
    applyBodyDirective
      { url := .str "u", method := none, headers := none,
        body := some (.obj [("totalcount", .str "1")]), bodyType := none } "   " =
      { url := .str "u", method := none, headers := none,
        body := some (.obj [("totalcount", .str "1")]), bodyType := none } ∧
    specApplyBodyDirective
      { url := .str "u", method := none, headers := none,
        body := some (.obj [("totalcount", .str "1")]), bodyType := none } "   " =
      { url := .str "u", method := none, headers := none,
        body := some (.str ""), bodyType := some "raw" } := by
  exact ⟨rfl, rfl⟩

/-- C6 amended: for every directive with non-empty trimmed content the
    engine behaves exactly as the claim says (object bodies spread-merge
    parsed overrides, non-empty string bodies go through
    URLSearchParams.set with bodyType defaulting to form, every other
    case wholesale-replaces with the trimmed text and forces raw),
    including the claimed totalcount/adposid example; a whitespace-only
    directive, however, is a no-op rather than a wholesale replacement;
    and a note-level body directive runs through the same function on the
    already-parsed configuration, hence on top of template-level
    directives. -/
theorem body_directive_amended :
    (∀ (cfg : CustomRequestConfig) (d : String), jsTrim d = "" →
      applyBodyDirective cfg d = cfg) ∧
    (∀ (cfg : CustomRequestConfig) (d : String), jsTrim d ≠ "" →
      applyBodyDirective cfg d = specApplyBodyDirective cfg d) ∧
    (applyBodyDirective
      { url := .str "u", method := none, headers := none,
        body := some (.obj [("totalcount", .str "1")]), bodyType := none } "adposid=5" =
      { url := .str "u", method := none, headers := none,
        body := some (.obj [("totalcount", .str "1"), ("adposid", .str "5")]),
        bodyType := none }) ∧
    (∀ (cfg : CustomRequestConfig) (d : String), d ≠ "" →
      applyNoteDirectives cfg none (some d) = applyBodyDirective cfg d) := by
  refine ⟨?_, ?_, ?_, ?_⟩
  · intro cfg d h
    simp only [applyBodyDirective, h, if_pos]
  · intro cfg d ht
    simp only [applyBodyDirective, specApplyBodyDirective, if_neg ht]
    cases hb : cfg.body with
    | none => cases hov : parseKeyValuePairs (jsTrim d) <;> rfl
    | some bodyV =>
      cases hov : parseKeyValuePairs (jsTrim d) with
      | none =>
        by_cases htr : jsTruthy bodyV ∧ jsTypeofObject bodyV
        · simp only [if_pos htr]
        · simp only [if_neg htr]
      | some ovs =>
        by_cases htr : jsTruthy bodyV ∧ jsTypeofObject bodyV
        · simp only [if_pos htr]
        · simp only [if_neg htr]
          cases bodyV <;> rfl
  · rfl
  · intro cfg d h
    simp only [applyNoteDirectives, if_pos h]

/-- Witness for the amended C6 at concrete configurations. -/
theorem body_directive_amended_witness :
    applyBodyDirective
      { url := .str "u", method := none, headers := none,
        body := some (.str "x"), bodyType := none } " " =
      { url := .str "u", method := none, headers := none,
        body := some (.str "x"), bodyType := none } ∧
    applyBodyDirective
      { url := .str "u", method := none, headers := none,
        body := some (.str "a=1"), bodyType := none } "a=2" =
      specApplyBodyDirective
        { url := .str "u", method := none, headers := none,
          body := some (.str "a=1"), bodyType := none } "a=2" ∧
    applyNoteDirectives
      { url := .str "u", method := none, headers := none,
        body := none, bodyType := none } none (some "raw text") =
      applyBodyDirective
        { url := .str "u", method := none, headers := none,
          body := none, bodyType := none } "raw text" := by
  obtain ⟨h1, h2, h3, h4⟩ := body_directive_amended
  exact ⟨h1 _ " " rfl, h2 _ "a=2" (by decide), h4 _ "raw text" (by decide)⟩

end Carp

namespace Carp

/-! ## C7: header directive merge -/

/-- The lowercased key list of a header map. -/
def lowKeys (hs : List (String × String)) : List String := hs.map fun p => jsToLower p.1

/-- At most one key per case-insensitive header name. -/
def ciKeysDistinct (hs : List (String × String)) : Prop := (lowKeys hs).Nodup

instance (hs : List (String × String)) : Decidable (ciKeysDistinct hs) :=
  inferInstanceAs (Decidable (lowKeys hs).Nodup)

/-- The deletion phase of one mergeHeaders override step: drop a
    case-variant existing key. -/
def mergeBase (next : List (String × String)) (k : String) : List (String × String) :=
  match findHeaderKey next (jsToLower k) with
  | some existingKey => if existingKey ≠ k then objDelete next existingKey else next
  | none => next

/-- One override step of mergeHeaders: delete a case-variant existing key,
    then assign under the override's own spelling. -/
def mergeStep (next : List (String × String)) (k v : String) : List (String × String) :=
  objSet (mergeBase next k) k v

theorem mergeBase_none {next : List (String × String)} {k : String}
    (h : findHeaderKey next (jsToLower k) = none) : mergeBase next k = next := by
  unfold mergeBase
  rw [h]

theorem mergeBase_some {next : List (String × String)} {k ek : String}
    (h : findHeaderKey next (jsToLower k) = some ek) :
    mergeBase next k = if ek ≠ k then objDelete next ek else next := by
  unfold mergeBase
  rw [h]

theorem mergeHeaders_eq_steps (headers overrides : List (String × String)) :
    mergeHeaders headers overrides =
      overrides.foldl (fun next p => mergeStep next p.1 p.2) headers := rfl

theorem findHeaderKey_none {hs : List (String × String)} {l : String}
    (h : findHeaderKey hs l = none) : ∀ p ∈ hs, jsToLower p.1 ≠ l := by
  intro p hp hl
  unfold findHeaderKey at h
  cases hf : hs.find? (fun p => jsToLower p.1 = l) with
  | none =>
    have h2 := List.find?_eq_none.mp hf p hp
    exact h2 (by simp [hl])
  | some q => rw [hf] at h; simp at h

theorem findHeaderKey_some {hs : List (String × String)} {l ek : String}
    (h : findHeaderKey hs l = some ek) :
    ∃ w, (ek, w) ∈ hs ∧ jsToLower ek = l := by
  unfold findHeaderKey at h
  cases hf : hs.find? (fun p => jsToLower p.1 = l) with
  | none => rw [hf] at h; simp at h
  | some q =>
    rw [hf] at h
    simp at h
    have hq := List.mem_of_find?_eq_some hf
    have hpred := List.find?_some hf
    simp only [decide_eq_true_eq] at hpred
    subst h
    exact ⟨q.2, by simpa using hq, hpred⟩

theorem objSet_present {α : Type} {hs : List (String × α)} {k : String} (v : α)
    (h : hs.any (fun p => p.1 = k) = true) :
    objSet hs k v = hs.map (fun p => if p.1 = k then (k, v) else p) := by
  simp [objSet, h]

theorem objSet_absent {α : Type} {hs : List (String × α)} {k : String} (v : α)
    (h : hs.any (fun p => p.1 = k) = false) : objSet hs k v = hs ++ [(k, v)] := by
  simp [objSet, h]

theorem lowKeys_objSet_present {hs : List (String × String)} {k : String} (v : String)
    (h : hs.any (fun p => p.1 = k) = true) : lowKeys (objSet hs k v) = lowKeys hs := by
  rw [objSet_present v h]
  unfold lowKeys
  rw [List.map_map]
  apply List.map_congr_left
  intro p hp
  by_cases hpk : p.1 = k
  · simp [Function.comp, hpk]
  · simp [Function.comp, hpk]

theorem objSet_absent_spec {hs : List (String × String)} {k : String} (v : String)
    (hd : ciKeysDistinct hs) (habs : ∀ p ∈ hs, jsToLower p.1 ≠ jsToLower k) :
    ciKeysDistinct (objSet hs k v) ∧ (k, v) ∈ objSet hs k v ∧
      ∀ p ∈ objSet hs k v, jsToLower p.1 = jsToLower k → p = (k, v) := by
  have hany : hs.any (fun p => p.1 = k) = false := by
    rw [List.any_eq_false]
    intro p hp
    simp only [decide_eq_true_eq]
    intro hpk
    exact habs p hp (by rw [hpk])
  rw [objSet_absent v hany]
  refine ⟨?_, by simp, ?_⟩
  · unfold ciKeysDistinct lowKeys at hd ⊢
    rw [List.map_append, List.nodup_append]
    refine ⟨hd, by simp, ?_⟩
    intro a ha hb
    simp only [List.map_cons, List.map_nil, List.mem_singleton] at hb
    obtain ⟨p, hp, rfl⟩ := List.mem_map.mp ha
    exact habs p hp hb
  · intro p hp hl
    rcases List.mem_append.mp hp with h1 | h1
    · exact absurd hl (habs p h1)
    · simpa using h1

theorem mergeStep_spec {next : List (String × String)} (k v : String)
    (h : ciKeysDistinct next) :
    ciKeysDistinct (mergeStep next k v) ∧ (k, v) ∈ mergeStep next k v ∧
      ∀ p ∈ mergeStep next k v, jsToLower p.1 = jsToLower k → p = (k, v) := by
  unfold mergeStep
  cases hf : findHeaderKey next (jsToLower k) with
  | none =>
    have habs : ∀ p ∈ next, jsToLower p.1 ≠ jsToLower k := findHeaderKey_none hf
    rw [mergeBase_none hf]
    exact objSet_absent_spec v h habs
  | some ek =>
    obtain ⟨w, hekmem, heklow⟩ := findHeaderKey_some hf
    by_cases hk : ek = k
    · subst hk
      rw [mergeBase_some hf, if_neg (by simp)]
      have hany : next.any (fun p => p.1 = ek) = true :=
        List.any_eq_true.mpr ⟨(ek, w), hekmem, by simp⟩
      rw [objSet_present v hany]
      refine ⟨?_, List.mem_map.mpr ⟨(ek, w), hekmem, by simp⟩, ?_⟩
      · have := @lowKeys_objSet_present next ek v hany
        rw [objSet_present v hany] at this
        unfold ciKeysDistinct
        rw [this]
        exact h
      · intro p hp hl
        obtain ⟨q, hq, hpq⟩ := List.mem_map.mp hp
        by_cases hqk : q.1 = ek
        · rw [if_pos hqk] at hpq
          exact hpq.symm
        · rw [if_neg hqk] at hpq
          subst hpq
          have hmap : (next.map fun p => jsToLower p.1).Nodup := h
          have hqek := List.inj_on_of_nodup_map hmap hq hekmem (by simpa using hl)
          rw [hqek] at hqk
          simp at hqk
    · rw [mergeBase_some hf, if_pos hk]
      have hsub : (objDelete next ek).Sublist next := List.filter_sublist _
      have hd2 : ciKeysDistinct (objDelete next ek) := by
        unfold ciKeysDistinct lowKeys at h ⊢
        exact (hsub.map _).nodup h
      have habs2 : ∀ p ∈ objDelete next ek, jsToLower p.1 ≠ jsToLower k := by
        intro p hp hl
        have hpek : p.1 ≠ ek := by
          have := (List.mem_filter.mp hp).2
          simpa using this
        have hpnext : p ∈ next := (List.mem_filter.mp hp).1
        have hmap : (next.map fun p => jsToLower p.1).Nodup := h
        have hpq2 := List.inj_on_of_nodup_map hmap hpnext hekmem
          (by simpa using hl.trans heklow.symm)
        rw [hpq2] at hpek
        simp at hpek
      exact objSet_absent_spec v hd2 habs2

theorem mergeHeaders_ci_distinct (base ovs : List (String × String))
    (h : ciKeysDistinct base) : ciKeysDistinct (mergeHeaders base ovs) := by
  rw [mergeHeaders_eq_steps]
  induction ovs generalizing base with
  | nil => exact h
  | cons p rest ih =>
    rw [List.foldl_cons]
    exact ih _ (mergeStep_spec p.1 p.2 h).1

end Carp

namespace Carp

/-- C7 counterexample: a template-level #header directive is merged with a
    plain case-sensitive spread (not mergeHeaders), so an existing
    Content-Type IS accompanied by a separate content-type entry after
    the merge, contradicting the at-most-one-key-per-case-insensitive-name
    property for directives appearing in the template text. -/
theorem header_merge_counterexample :
    ((parseRequestTemplate
        "\x7b\"url\":\"u\",\"headers\":\x7b\"Content-Type\":\"a\"\x7d\x7d#header\x7bcontent-type: b\x7d").map
      fun c => c.headers) =
      some (some [("Content-Type", "a"), ("content-type", "b")]) ∧
    ¬ ciKeysDistinct [("Content-Type", "a"), ("content-type", "b")] := by
  exact ⟨rfl, by decide⟩

/-- C7 amended: the claimed behaviour holds for note-level #header
    directives, which go through mergeHeaders on the parsed
    configuration: mergeHeaders preserves case-insensitive key
    distinctness, and a single override lands under its own spelling as
    the unique entry for its case-insensitive name.  A template-level
    #header directive, by contrast, is merged with a plain case-sensitive
    spread, which deduplicates only exact-case matches (an exact-case
    override replaces in place, as the final conjunct shows), so case
    variants can coexist after a template-level merge. -/
theorem header_merge_amended :
    (∀ (base ovs : List (String × String)), ciKeysDistinct base →
       ciKeysDistinct (mergeHeaders base ovs)) ∧
    (∀ (base : List (String × String)) (k v : String), ciKeysDistinct base →
       (k, v) ∈ mergeHeaders base [(k, v)] ∧
       ∀ p ∈ mergeHeaders base [(k, v)], jsToLower p.1 = jsToLower k → p = (k, v)) ∧
    (∀ (cfg : CustomRequestConfig) (d : String) (ovs : List (String × String)),
       d ≠ "" → parseHeaderDirective d = some ovs →
       applyNoteDirectives cfg (some d) none =
         { cfg with headers := some (mergeHeaders (cfg.headers.getD []) ovs) }) ∧
    ((parseRequestTemplate
        "\x7b\"url\":\"u\",\"headers\":\x7b\"Content-Type\":\"a\"\x7d\x7d#header\x7bContent-Type: b\x7d").map
      fun c => c.headers) = some (some [("Content-Type", "b")]) := by
  refine ⟨mergeHeaders_ci_distinct, ?_, ?_, rfl⟩
  · intro base k v h
    have hspec := @mergeStep_spec base k v h
    have heq : mergeHeaders base [(k, v)] = mergeStep base k v := rfl
    rw [heq]
    exact ⟨hspec.2.1, hspec.2.2⟩
  · intro cfg d ovs hd hp
    simp only [applyNoteDirectives, hp, if_pos hd]

/-- Witness for the amended C7 at a concrete header map and directive. -/
theorem header_merge_amended_witness :
    ciKeysDistinct (mergeHeaders [("Content-Type", "a")] [("content-type", "b")]) ∧
    ("content-type", "b") ∈ mergeHeaders [("Content-Type", "a")] [("content-type", "b")] ∧
    applyNoteDirectives
      { url := .str "u", method := none, headers := some [("Content-Type", "a")],
        body := none, bodyType := none } (some "content-type: b") none =
      { url := .str "u", method := none,
        headers := some (mergeHeaders [("Content-Type", "a")] [("content-type", "b")]),
        body := none, bodyType := none } := by
  obtain ⟨h1, h2, h3, h4⟩ := header_merge_amended
  refine ⟨h1 [("Content-Type", "a")] [("content-type", "b")] (by decide),
    (h2 [("Content-Type", "a")] "content-type" "b" (by decide)).1, ?_⟩
  exact h3
    { url := .str "u", method := none, headers := some [("Content-Type", "a")],
      body := none, bodyType := none } "content-type: b" [("content-type", "b")]
    (by decide) rfl

end Carp

namespace Carp

/-! ## C3: request assembly order -/

/-- The request assembly as the claim states it (claim-side definition for
    comparison with the engine): identical to assembleRequest except for
    the header pipeline order, which substitutes the header values first
    and only afterwards injects the Cookie header (so the injected cookie
    value would not undergo token substitution), then the Referer
    header. -/
def specAssembleRequest (cfg : CustomRequestConfig) (ctx : Ctx) : RequestBuild :=
  match cfg.url with
  | .str u =>
    let url := applyTemplate u ctx
    match methodOf cfg with
    | none => .thrown
    | some method =>
      let headers0 := cfg.headers.getD []
      let resolvedHeaders := headers0.map fun p => (p.1, applyTemplate p.2 ctx)
      let headers1 :=
        if ¬ hasHeader resolvedHeaders "cookie" ∧ strTruthy (ctxGet ctx "jsessionid") then
          setHeader resolvedHeaders "Cookie"
            ("JSESSIONID=" ++ (ctxGet ctx "jsessionid").getD "")
        else resolvedHeaders
      let resolvedHeaders2 :=
        if ¬ hasHeader headers1 "referer" ∧ strTruthy (ctxGet ctx "referer") then
          setHeader headers1 "Referer" ((ctxGet ctx "referer").getD "")
        else headers1
      if method = "GET" then
        .ok { url := url, method := method, headers := resolvedHeaders2, body := none }
      else
        let resolvedBodyType :=
          match cfg.bodyType with
          | some t => some t
          | none =>
            match cfg.body with
            | some b => if jsTypeofObject b then some "form" else none
            | none => none
        match buildRequestBody cfg.body resolvedBodyType ctx with
        | .thrown => .thrown
        | .ok body =>
          let finalHeaders :=
            if resolvedBodyType = some "json" then
              if ¬ hasHeader resolvedHeaders2 "content-type" then
                setHeader resolvedHeaders2 "Content-Type" "application/json"
              else resolvedHeaders2
            else if resolvedBodyType = some "form" then
              if ¬ hasHeader resolvedHeaders2 "content-type" then
                setHeader resolvedHeaders2 "Content-Type"
                  "application/x-www-form-urlencoded; charset=UTF-8"
              else resolvedHeaders2
            else resolvedHeaders2
          .ok { url := url, method := method, headers := finalHeaders, body := body }
  | _ => .thrown

/-- C3 counterexample: the engine injects the Cookie header BEFORE the
    header-value substitution pass, so a jsessionid whose value contains a
    token is substituted inside the injected cookie; under the order the
    claim states, the injected cookie value would stay verbatim. -/
theorem request_assembly_counterexample :
    assembleRequest
      { url := .str "u", method := none, headers := none, body := none, bodyType := none }
      [("jsessionid", some "\x7b\x7bplate\x7d\x7d"), ("plate", some "X")] =
      .ok { url := "u", method := "POST",
            headers := [("Cookie", "JSESSIONID=X")], body := none } ∧
    specAssembleRequest
      { url := .str "u", method := none, headers := none, body := none, bodyType := none }
      [("jsessionid", some "\x7b\x7bplate\x7d\x7d"), ("plate", some "X")] =
      .ok { url := "u", method := "POST",
            headers := [("Cookie", "JSESSIONID=\x7b\x7bplate\x7d\x7d")], body := none } ∧
    assembleRequest
      { url := .str "u", method := none, headers := none, body := none, bodyType := none }
      [("jsessionid", some "\x7b\x7bplate\x7d\x7d"), ("plate", some "X")] ≠
    specAssembleRequest
      { url := .str "u", method := none, headers := none, body := none, bodyType := none }
      [("jsessionid", some "\x7b\x7bplate\x7d\x7d"), ("plate", some "X")] := by
  refine ⟨rfl, rfl, ?_⟩
  intro h
  have h2 : (RequestBuild.ok
      { url := "u", method := "POST", headers := [("Cookie", "JSESSIONID=X")],
        body := none }) =
      (RequestBuild.ok
      { url := "u", method := "POST",
        headers := [("Cookie", "JSESSIONID=\x7b\x7bplate\x7d\x7d")], body := none }) := by
    calc (RequestBuild.ok
        { url := "u", method := "POST", headers := [("Cookie", "JSESSIONID=X")],
          body := none })
        = assembleRequest
            { url := .str "u", method := none, headers := none, body := none,
              bodyType := none }
            [("jsessionid", some "\x7b\x7bplate\x7d\x7d"), ("plate", some "X")] := rfl
      _ = specAssembleRequest
            { url := .str "u", method := none, headers := none, body := none,
              bodyType := none }
            [("jsessionid", some "\x7b\x7bplate\x7d\x7d"), ("plate", some "X")] := h
      _ = (RequestBuild.ok
          { url := "u", method := "POST",
            headers := [("Cookie", "JSESSIONID=\x7b\x7bplate\x7d\x7d")],
            body := none }) := rfl
  exact absurd h2 (by decide)

end Carp

namespace Carp

/-- C3 amended: the assembled request uses the token-substituted URL and
    the upper-cased method defaulting to POST, and a GET request carries
    no body and exactly the header-pipeline headers (no default
    Content-Type), as claimed; but the header pipeline injects the Cookie
    header BEFORE the header-value substitution pass (so the injected
    cookie value itself undergoes token substitution), and only the
    Referer injection happens after substitution (its value staying
    verbatim). -/
theorem request_assembly_amended :
    (∀ (cfg : CustomRequestConfig) (u : String) (ctx : Ctx) (req : HttpRequest),
       cfg.url = .str u → assembleRequest cfg ctx = .ok req →
       req.url = applyTemplate u ctx ∧ methodOf cfg = some req.method ∧
       (req.method = "GET" → req.body = none ∧ req.headers = headersStage cfg ctx)) ∧
    (∀ cfg : CustomRequestConfig, cfg.method = none → methodOf cfg = some "POST") ∧
    (∀ (cfg : CustomRequestConfig) (s : String), cfg.method = some (.str s) → s ≠ "" →
       methodOf cfg = some (jsToUpper s)) ∧
    (∀ (cfg : CustomRequestConfig) (ctx : Ctx), cfg.headers = none →
       strTruthy (ctxGet ctx "jsessionid") = true →
       ("Cookie", applyTemplate ("JSESSIONID=" ++ (ctxGet ctx "jsessionid").getD "") ctx) ∈
         headersStage cfg ctx) ∧
    (∀ (cfg : CustomRequestConfig) (ctx : Ctx), cfg.headers = none →
       strTruthy (ctxGet ctx "jsessionid") = false →
       strTruthy (ctxGet ctx "referer") = true →
       headersStage cfg ctx = [("Referer", (ctxGet ctx "referer").getD "")]) := by
  refine ⟨?_, ?_, ?_, ?_, ?_⟩
  · intro cfg u ctx req hurl hreq
    unfold assembleRequest at hreq
    rw [hurl] at hreq
    dsimp only at hreq
    cases hm : methodOf cfg with
    | none => rw [hm] at hreq; simp at hreq
    | some method =>
      rw [hm] at hreq
      dsimp only at hreq
      by_cases hget : method = "GET"
      · rw [if_pos hget] at hreq
        rw [RequestBuild.ok.injEq] at hreq
        subst hreq
        exact ⟨rfl, rfl, fun _ => ⟨rfl, rfl⟩⟩
      · rw [if_neg hget] at hreq
        split at hreq
        · simp at hreq
        · rw [RequestBuild.ok.injEq] at hreq
          subst hreq
          exact ⟨rfl, rfl, fun hg => absurd hg hget⟩
  · intro cfg h
    unfold methodOf
    rw [h]
  · intro cfg s h hs
    unfold methodOf
    rw [h]
    dsimp only
    rw [if_pos (by simp [jsTruthy, hs])]
  · intro cfg ctx hh hjs
    unfold headersStage
    rw [hh]
    dsimp only
    have hc : (if ¬ hasHeader ((none : Option (List (String × String))).getD []) "cookie" ∧
          strTruthy (ctxGet ctx "jsessionid") then
        setHeader ((none : Option (List (String × String))).getD []) "Cookie"
          ("JSESSIONID=" ++ (ctxGet ctx "jsessionid").getD "")
      else (none : Option (List (String × String))).getD []) =
        [("Cookie", "JSESSIONID=" ++ (ctxGet ctx "jsessionid").getD "")] := by
      rw [if_pos ⟨by decide, hjs⟩]
      rfl
    rw [hc]
    have hm2 : List.map (fun p => (p.1, applyTemplate p.2 ctx))
        [("Cookie", "JSESSIONID=" ++ (ctxGet ctx "jsessionid").getD "")] =
        [("Cookie",
          applyTemplate ("JSESSIONID=" ++ (ctxGet ctx "jsessionid").getD "") ctx)] := rfl
    rw [hm2]
    by_cases href : (¬ hasHeader
        [("Cookie", applyTemplate ("JSESSIONID=" ++ (ctxGet ctx "jsessionid").getD "") ctx)]
        "referer" ∧ strTruthy (ctxGet ctx "referer"))
    · rw [if_pos href]
      have hs2 : setHeader
          [("Cookie",
            applyTemplate ("JSESSIONID=" ++ (ctxGet ctx "jsessionid").getD "") ctx)]
          "Referer" ((ctxGet ctx "referer").getD "") =
          [("Cookie", applyTemplate ("JSESSIONID=" ++ (ctxGet ctx "jsessionid").getD "") ctx),
           ("Referer", (ctxGet ctx "referer").getD "")] := rfl
      rw [hs2]
      simp
    · rw [if_neg href]
      simp
  · intro cfg ctx hh hjs href
    unfold headersStage
    rw [hh]
    dsimp only
    have hc : (if ¬ hasHeader ((none : Option (List (String × String))).getD []) "cookie" ∧
          strTruthy (ctxGet ctx "jsessionid") then
        setHeader ((none : Option (List (String × String))).getD []) "Cookie"
          ("JSESSIONID=" ++ (ctxGet ctx "jsessionid").getD "")
      else (none : Option (List (String × String))).getD []) = [] := by
      rw [if_neg]
      · rfl
      · intro hcc
        rw [hjs] at hcc
        exact absurd hcc.2 (by simp)
    rw [hc, List.map_nil]
    rw [if_pos ⟨by decide, href⟩]
    rfl

/-- Witness for the amended C3 at a concrete configuration and context. -/
theorem request_assembly_amended_witness :
    (("X" : String) = applyTemplate "\x7b\x7bplate\x7d\x7d" [("plate", some "X")] ∧
     methodOf
       { url := .str "\x7b\x7bplate\x7d\x7d", method := some (.str "get"), headers := none,
         body := none, bodyType := none } = some "GET" ∧
     headersStage
       { url := .str "\x7b\x7bplate\x7d\x7d", method := some (.str "get"), headers := none,
         body := none, bodyType := none } [("plate", some "X")] = []) ∧
    methodOf
      { url := .str "u", method := none, headers := none, body := none,
        bodyType := none } = some "POST" ∧
    ("Cookie",
      applyTemplate
        ("JSESSIONID=" ++
          (ctxGet [("jsessionid", some "J\x7b\x7bplate\x7d\x7d")] "jsessionid").getD "")
        [("jsessionid", some "J\x7b\x7bplate\x7d\x7d")]) ∈
      headersStage
        { url := .str "u", method := none, headers := none, body := none, bodyType := none }
        [("jsessionid", some "J\x7b\x7bplate\x7d\x7d")] ∧
    headersStage
      { url := .str "u", method := none, headers := none, body := none, bodyType := none }
      [("referer", some "R")] =
      [("Referer", (ctxGet [("referer", some "R")] "referer").getD "")] := by
  obtain ⟨h1, h2, h3, h4, h5⟩ := request_assembly_amended
  have ha := h1
    { url := .str "\x7b\x7bplate\x7d\x7d", method := some (.str "get"), headers := none,
      body := none, bodyType := none } "\x7b\x7bplate\x7d\x7d" [("plate", some "X")]
    { url := "X", method := "GET", headers := [], body := none } rfl rfl
  refine ⟨⟨ha.1, ha.2.1, ((ha.2.2 rfl).2).symm⟩, ?_, ?_, ?_⟩
  · exact h2
      { url := .str "u", method := none, headers := none, body := none,
        bodyType := none } rfl
  · exact h4
      { url := .str "u", method := none, headers := none, body := none, bodyType := none }
      [("jsessionid", some "J\x7b\x7bplate\x7d\x7d")] rfl rfl
  · exact h5
      { url := .str "u", method := none, headers := none, body := none, bodyType := none }
      [("referer", some "R")] rfl rfl rfl

end Carp

namespace Carp

/-! ## C8: body directive idempotence -/

/-- A scan over chunk-concatenated input whose step consumes each chunk
    wholly maps over the chunks. -/
theorem scanList_chunks {α β γ : Type} (step : List α → (β × Nat)) (chunk : γ → List α)
    (val : γ → β) (P : γ → Prop)
    (hstep : ∀ g, P g → ∀ rest, step (chunk g ++ rest) = (val g, (chunk g).length))
    (hlen : ∀ g, P g → 1 ≤ (chunk g).length) :
    ∀ l : List γ, (∀ g ∈ l, P g) → scanList step (l.flatMap chunk) = l.map val := by
  intro l
  induction l with
  | nil => intro _; rfl
  | cons g tl ih =>
    intro hP
    have hg : P g := hP g (List.mem_cons_self g tl)
    rw [List.flatMap_cons]
    cases hch : chunk g with
    | nil =>
      have := hlen g hg
      rw [hch] at this
      simp at this
    | cons x xs =>
      rw [List.cons_append, scanList_cons, ← List.cons_append, ← hch, hstep g hg]
      have hmax : max 1 (chunk g).length = (chunk g).length :=
        Nat.max_eq_right (hlen g hg)
      rw [hmax, List.drop_left, List.map_cons]
      congr 1
      exact ih (fun d hd => hP d (List.mem_cons_of_mem g hd))

/-- JavaScript property assignment is idempotent. -/
theorem objSet_idem {α : Type} (l : List (String × α)) (k : String) (v : α) :
    objSet (objSet l k v) k v = objSet l k v := by
  by_cases h : l.any (fun p => p.1 = k) = true
  · rw [objSet_present v h]
    have h2 : (l.map (fun p => if p.1 = k then (k, v) else p)).any (fun p => p.1 = k) =
        true := by
      rw [List.any_eq_true] at h ⊢
      obtain ⟨p, hp, hpk⟩ := h
      refine ⟨(k, v), List.mem_map.mpr ⟨p, hp, ?_⟩, by simp⟩
      simp only [decide_eq_true_eq] at hpk
      rw [if_pos hpk]
    rw [objSet_present v h2, List.map_map]
    apply List.map_congr_left
    intro p _
    by_cases hpk : p.1 = k
    · simp [Function.comp, hpk]
    · simp [Function.comp, hpk]
  · rw [Bool.not_eq_true] at h
    rw [objSet_absent v h]
    have h2 : (l ++ [(k, v)]).any (fun p => p.1 = k) = true := by
      rw [List.any_eq_true]
      exact ⟨(k, v), by simp, by simp⟩
    rw [objSet_present v h2, List.map_append]
    have h3 : ∀ p ∈ l, (if p.1 = k then (k, v) else p) = p := by
      intro p hp
      rw [if_neg]
      rw [List.any_eq_false] at h
      have := h p hp
      simpa using this
    calc l.map (fun p => if p.1 = k then (k, v) else p) ++
          [(k, v)].map (fun p => if p.1 = k then (k, v) else p)
        = l.map id ++ [(k, v)].map (fun p => if p.1 = k then (k, v) else p) := by
          rw [List.map_congr_left h3]
          rfl
      _ = l ++ [(k, v)] := by
          rw [List.map_id]
          congr 1
          simp

/-- URLSearchParams.set is idempotent. -/
theorem urlParamsSet_idem (l : List (String × String)) (k v : String) :
    urlParamsSet (urlParamsSet l k v) k v = urlParamsSet l k v := by
  induction l with
  | nil => simp [urlParamsSet]
  | cons p tl ih =>
    obtain ⟨k0, v0⟩ := p
    by_cases h : k0 = k
    · subst h
      simp only [urlParamsSet, if_pos rfl]
      have h2 : (tl.filter fun p => p.1 ≠ k0).filter (fun p => p.1 ≠ k0) =
          tl.filter fun p => p.1 ≠ k0 := by
        rw [List.filter_filter]
        apply List.filter_congr
        intro p _
        exact Bool.and_self _
      rw [h2]
      simp
    · simp only [urlParamsSet, if_neg h]
      rw [ih]

/-- URLSearchParams.set never yields the empty parameter list. -/
theorem urlParamsSet_ne_nil (l : List (String × String)) (k v : String) :
    urlParamsSet l k v ≠ [] := by
  cases l with
  | nil => simp [urlParamsSet]
  | cons p tl =>
    obtain ⟨k0, v0⟩ := p
    by_cases h : k0 = k
    · simp [urlParamsSet, h]
    · simp [urlParamsSet, h]

end Carp

namespace Carp

theorem char_valid_nat (c : Char) :
    c.toNat < 0xD800 ∨ (0xDFFF < c.toNat ∧ c.toNat < 0x110000) := c.valid

theorem utf8Bytes_eq1 {c : Char} (h : c.toNat < 0x80) : utf8Bytes c = [c.toNat] := by
  simp only [utf8Bytes]
  rw [if_pos h]

theorem utf8Bytes_eq2 {c : Char} (h1 : ¬ c.toNat < 0x80) (h2 : c.toNat < 0x800) :
    utf8Bytes c = [0xC0 + c.toNat / 64, 0x80 + c.toNat % 64] := by
  simp only [utf8Bytes]
  rw [if_neg h1, if_pos h2]

theorem utf8Bytes_eq3 {c : Char} (h1 : ¬ c.toNat < 0x800) (h2 : c.toNat < 0x10000) :
    utf8Bytes c = [0xE0 + c.toNat / 4096, 0x80 + c.toNat / 64 % 64, 0x80 + c.toNat % 64] := by
  have h0 : ¬ c.toNat < 0x80 := by omega
  simp only [utf8Bytes]
  rw [if_neg h0, if_neg h1, if_pos h2]

theorem utf8Bytes_eq4 {c : Char} (h1 : ¬ c.toNat < 0x10000) :
    utf8Bytes c = [0xF0 + c.toNat / 0x40000, 0x80 + c.toNat / 4096 % 64,
      0x80 + c.toNat / 64 % 64, 0x80 + c.toNat % 64] := by
  have h0 : ¬ c.toNat < 0x80 := by omega
  have h0' : ¬ c.toNat < 0x800 := by omega
  simp only [utf8Bytes]
  rw [if_neg h0, if_neg h0', if_neg h1]

theorem utf8Bytes_len_pos (c : Char) : 1 ≤ (utf8Bytes c).length := by
  by_cases h1 : c.toNat < 0x80
  · rw [utf8Bytes_eq1 h1]; simp
  · by_cases h2 : c.toNat < 0x800
    · rw [utf8Bytes_eq2 h1 h2]; simp
    · by_cases h3 : c.toNat < 0x10000
      · rw [utf8Bytes_eq3 h2 h3]; simp
      · rw [utf8Bytes_eq4 h3]; simp

theorem utf8Bytes_lt_256 (c : Char) : ∀ b ∈ utf8Bytes c, b < 256 := by
  have hv := char_valid_nat c
  by_cases h1 : c.toNat < 0x80
  · rw [utf8Bytes_eq1 h1]
    intro b hb
    simp at hb
    omega
  · by_cases h2 : c.toNat < 0x800
    · rw [utf8Bytes_eq2 h1 h2]
      intro b hb
      simp at hb
      rcases hb with hb | hb <;> omega
    · by_cases h3 : c.toNat < 0x10000
      · rw [utf8Bytes_eq3 h2 h3]
        intro b hb
        simp at hb
        rcases hb with hb | hb | hb <;> omega
      · rw [utf8Bytes_eq4 h3]
        intro b hb
        simp at hb
        rcases hb with hb | hb | hb | hb <;> omega

/-- One UTF-8 decoding step inverts the encoder at the head of the byte
    stream. -/
theorem utf8Step_bytes (c : Char) (rest : List Nat) :
    utf8Step (utf8Bytes c ++ rest) = (c, (utf8Bytes c).length) := by
  have hv := char_valid_nat c
  by_cases h1 : c.toNat < 0x80
  · rw [utf8Bytes_eq1 h1]
    simp only [List.cons_append, List.nil_append, utf8Step]
    rw [if_pos h1, Char.ofNat_toNat]
    rfl
  · by_cases h2 : c.toNat < 0x800
    · rw [utf8Bytes_eq2 h1 h2]
      simp only [List.cons_append, List.nil_append, utf8Step]
      rw [if_neg (by omega), if_neg (by omega), if_pos (by omega)]
      have hcont : isCont (0x80 + c.toNat % 64) = true := by
        simp only [isCont, Bool.and_eq_true, decide_eq_true_eq]
        omega
      rw [if_pos hcont]
      have hveq : (0xC0 + c.toNat / 64 - 0xC0) * 64 + (0x80 + c.toNat % 64 - 0x80) =
          c.toNat := by omega
      rw [hveq, Char.ofNat_toNat]
      rfl
    · by_cases h3 : c.toNat < 0x10000
      · rw [utf8Bytes_eq3 h2 h3]
        simp only [List.cons_append, List.nil_append, utf8Step]
        rw [if_neg (by omega), if_neg (by omega), if_neg (by omega), if_pos (by omega)]
        have hcont : (isCont (0x80 + c.toNat / 64 % 64) && isCont (0x80 + c.toNat % 64)) =
            true := by
          simp only [isCont, Bool.and_eq_true, decide_eq_true_eq]
          omega
        rw [if_pos hcont]
        have hno : ¬(((0xE0 + c.toNat / 4096 - 0xE0) * 4096 + (0x80 + c.toNat / 64 % 64 - 0x80) * 64 +
              (0x80 + c.toNat % 64 - 0x80) < 0x800 ||
            (0xD800 ≤ (0xE0 + c.toNat / 4096 - 0xE0) * 4096 + (0x80 + c.toNat / 64 % 64 - 0x80) * 64 +
                (0x80 + c.toNat % 64 - 0x80) &&
              (0xE0 + c.toNat / 4096 - 0xE0) * 4096 + (0x80 + c.toNat / 64 % 64 - 0x80) * 64 +
                (0x80 + c.toNat % 64 - 0x80) < 0xE000)) = true) := by
          simp only [Bool.or_eq_true, Bool.and_eq_true, decide_eq_true_eq]
          omega
        rw [if_neg hno]
        have hveq : (0xE0 + c.toNat / 4096 - 0xE0) * 4096 + (0x80 + c.toNat / 64 % 64 - 0x80) * 64 +
            (0x80 + c.toNat % 64 - 0x80) = c.toNat := by omega
        rw [hveq, Char.ofNat_toNat]
        rfl
      · rw [utf8Bytes_eq4 h3]
        simp only [List.cons_append, List.nil_append, utf8Step]
        rw [if_neg (by omega), if_neg (by omega), if_neg (by omega), if_neg (by omega),
          if_pos (by omega)]
        have hcont : (isCont (0x80 + c.toNat / 4096 % 64) &&
            isCont (0x80 + c.toNat / 64 % 64) && isCont (0x80 + c.toNat % 64)) = true := by
          simp only [isCont, Bool.and_eq_true, decide_eq_true_eq]
          omega
        rw [if_pos hcont]
        have hno : ¬(((0xF0 + c.toNat / 0x40000 - 0xF0) * 0x40000 +
              (0x80 + c.toNat / 4096 % 64 - 0x80) * 4096 +
              (0x80 + c.toNat / 64 % 64 - 0x80) * 64 + (0x80 + c.toNat % 64 - 0x80) < 0x10000 ||
            0x110000 ≤ (0xF0 + c.toNat / 0x40000 - 0xF0) * 0x40000 +
              (0x80 + c.toNat / 4096 % 64 - 0x80) * 4096 +
              (0x80 + c.toNat / 64 % 64 - 0x80) * 64 + (0x80 + c.toNat % 64 - 0x80)) = true) := by
          simp only [Bool.or_eq_true, decide_eq_true_eq]
          omega
        rw [if_neg hno]
        have hveq : (0xF0 + c.toNat / 0x40000 - 0xF0) * 0x40000 +
            (0x80 + c.toNat / 4096 % 64 - 0x80) * 4096 +
            (0x80 + c.toNat / 64 % 64 - 0x80) * 64 + (0x80 + c.toNat % 64 - 0x80) =
            c.toNat := by omega
        rw [hveq, Char.ofNat_toNat]
        rfl

/-- UTF-8 decoding inverts UTF-8 encoding. -/
theorem utf8Decode_utf8 (l : List Char) : utf8Decode (l.flatMap utf8Bytes) = l := by
  have h := scanList_chunks utf8Step utf8Bytes id (fun _ => True)
    (fun c _ rest => utf8Step_bytes c rest) (fun c _ => utf8Bytes_len_pos c) l
    (fun _ _ => trivial)
  rw [List.map_id] at h
  exact h

end Carp

namespace Carp

theorem char_toNat_ofNat {b : Nat} (h : b < 0xD800) : (Char.ofNat b).toNat = b := by
  have hval : b.isValidChar := Or.inl h
  unfold Char.ofNat
  rw [dif_pos hval]
  simp [Char.ofNatAux, Char.toNat, UInt32.toNat]

/-- The byte chunk one source byte contributes to the urlencoded text
    after the parser's plus-to-space mapping. -/
def encBytes (b : Nat) : List Nat :=
  ((formEncodeByte b).flatMap utf8Bytes).map fun x => if x = 0x2B then 0x20 else x

theorem hexDigitChar_facts : ∀ m < 16, (hexDigitChar m).toNat < 0x80 ∧
    (hexDigitChar m).toNat ≠ 0x2B ∧ (hexDigitChar m).toNat ≠ 0x25 ∧
    hexDigitVal (hexDigitChar m) = some m := by decide

theorem unres_facts {b : Nat} (h : isFormUnreserved b = true) :
    b < 0x80 ∧ b ≠ 0x2B ∧ b ≠ 0x25 ∧ b ≠ 0x20 := by
  simp only [isFormUnreserved, Bool.or_eq_true, Bool.and_eq_true, decide_eq_true_eq] at h
  omega

theorem encBytes_unres {b : Nat} (h : isFormUnreserved b = true) : encBytes b = [b] := by
  obtain ⟨h80, h2b, _, _⟩ := unres_facts h
  simp only [encBytes, formEncodeByte, if_pos h]
  rw [List.flatMap_cons, List.flatMap_nil, List.append_nil]
  rw [utf8Bytes_eq1 (by rw [char_toNat_ofNat (by omega)]; omega)]
  rw [char_toNat_ofNat (by omega : b < 0xD800)]
  simp only [List.map_cons, List.map_nil]
  rw [if_neg h2b]

theorem encBytes_space : encBytes 0x20 = [0x20] := rfl

theorem encBytes_other {b : Nat} (h : isFormUnreserved b = false) (h2 : b ≠ 0x20) :
    encBytes b =
      [0x25, (hexDigitChar (b / 16 % 16)).toNat, (hexDigitChar (b % 16)).toNat] := by
  have hx1 := hexDigitChar_facts (b / 16 % 16) (by omega)
  have hx2 := hexDigitChar_facts (b % 16) (by omega)
  simp only [encBytes, formEncodeByte, h, Bool.false_eq_true, if_false, if_neg h2]
  rw [List.flatMap_cons, List.flatMap_cons, List.flatMap_cons, List.flatMap_nil]
  rw [utf8Bytes_eq1 (by decide), utf8Bytes_eq1 (by omega), utf8Bytes_eq1 (by omega)]
  simp only [List.append_nil, List.cons_append, List.nil_append, List.map_cons, List.map_nil]
  rw [if_neg (by decide), if_neg hx1.2.1, if_neg hx2.2.1]
  rfl

theorem encBytes_len_pos {b : Nat} : 1 ≤ (encBytes b).length := by
  by_cases h : isFormUnreserved b = true
  · rw [encBytes_unres h]; simp
  · by_cases h2 : b = 0x20
    · subst h2; rw [encBytes_space]; simp
    · rw [encBytes_other (Bool.not_eq_true _ ▸ h) h2]; simp

theorem pctStep_encBytes {b : Nat} (h256 : b < 256) (rest : List Nat) :
    pctStep (encBytes b ++ rest) = (b, (encBytes b).length) := by
  by_cases h : isFormUnreserved b = true
  · obtain ⟨_, _, h25, _⟩ := unres_facts h
    rw [encBytes_unres h]
    simp only [List.cons_append, List.nil_append, pctStep]
    rw [if_neg h25]
    rfl
  · by_cases h2 : b = 0x20
    · subst h2
      rw [encBytes_space]
      simp only [List.cons_append, List.nil_append, pctStep]
      rw [if_neg (by decide)]
      rfl
    · have hx1 := hexDigitChar_facts (b / 16 % 16) (by omega)
      have hx2 := hexDigitChar_facts (b % 16) (by omega)
      rw [encBytes_other (Bool.not_eq_true _ ▸ h) h2]
      simp only [List.cons_append, List.nil_append, pctStep]
      simp only [if_true]
      rw [Char.ofNat_toNat, Char.ofNat_toNat, hx1.2.2.2, hx2.2.2.2]
      show (b / 16 % 16 * 16 + b % 16, 3) = (b, 3)
      have : b / 16 % 16 * 16 + b % 16 = b := by omega
      rw [this]

/-- Percent decoding with plus handling inverts the urlencoded byte
    serialization. -/
theorem pctDecode_encBytes (bl : List Nat) (h : ∀ b ∈ bl, b < 256) :
    pctDecode (bl.flatMap encBytes) = bl := by
  have hrt := scanList_chunks pctStep encBytes id (fun b => b < 256)
    (fun b hb rest => pctStep_encBytes hb rest) (fun b _ => encBytes_len_pos) bl h
  rw [List.map_id] at hrt
  exact hrt

/-- The urlencoded codec round trip. -/
theorem formDecode_formEncode (x : String) : formDecode (formEncode x).data = x := by
  unfold formDecode formEncode
  show String.mk (utf8Decode (pctDecode ((((strUtf8 x).flatMap formEncodeByte).flatMap
    utf8Bytes).map fun b => if b = 0x2B then 0x20 else b))) = x
  rw [List.flatMap_assoc, List.map_flatMap]
  have hfold : (fun a => ((formEncodeByte a).flatMap utf8Bytes).map
      fun b => if b = 0x2B then 0x20 else b) = encBytes := rfl
  rw [hfold]
  have hbytes : ∀ b ∈ strUtf8 x, b < 256 := by
    intro b hb
    unfold strUtf8 at hb
    obtain ⟨c, _, hc⟩ := List.mem_flatMap.mp hb
    exact utf8Bytes_lt_256 c b hc
  rw [pctDecode_encBytes _ hbytes]
  rw [show strUtf8 x = x.data.flatMap utf8Bytes from rfl, utf8Decode_utf8]

/-- The urlencoded serialization never emits an ampersand, an equals sign
    or a question mark. -/
theorem formEncode_chars (x : String) :
    ∀ ch ∈ (formEncode x).data, ch ≠ '&' ∧ ch ≠ '=' ∧ ch ≠ '?' := by
  intro ch hch
  have hhex : ∀ m < 16, hexDigitChar m ≠ '&' ∧ hexDigitChar m ≠ '=' ∧
      hexDigitChar m ≠ '?' := by decide
  unfold formEncode at hch
  show ch ≠ '&' ∧ ch ≠ '=' ∧ ch ≠ '?'
  obtain ⟨b, _, hb⟩ := List.mem_flatMap.mp hch
  unfold formEncodeByte at hb
  by_cases h : isFormUnreserved b = true
  · rw [if_pos h] at hb
    obtain ⟨h80, _, _, _⟩ := unres_facts h
    simp only [List.mem_singleton] at hb
    subst hb
    refine ⟨?_, ?_, ?_⟩ <;>
      · intro hc
        have := congrArg Char.toNat hc
        rw [char_toNat_ofNat (by omega)] at this
        subst this
        revert h
        decide
  · rw [if_neg h] at hb
    by_cases h2 : b = 0x20
    · rw [if_pos h2] at hb
      simp only [List.mem_singleton] at hb
      subst hb
      refine ⟨by decide, by decide, by decide⟩
    · rw [if_neg h2] at hb
      simp only [List.mem_cons, List.not_mem_nil, or_false] at hb
      rcases hb with hb | hb | hb
      · subst hb; exact ⟨by decide, by decide, by decide⟩
      · subst hb; exact hhex _ (by omega)
      · subst hb; exact hhex _ (by omega)

end Carp

namespace Carp

theorem str_ext {a b : String} (h : a.data = b.data) : a = b := by
  cases a
  cases b
  cases h
  rfl

theorem str_append_assoc (a b c : String) : a ++ b ++ c = a ++ (b ++ c) := by
  apply str_ext
  simp [List.append_assoc]

theorem intercalate_go_append (s : String) :
    ∀ (l : List String) (acc₁ acc₂ : String),
      String.intercalate.go (acc₁ ++ acc₂) s l = acc₁ ++ String.intercalate.go acc₂ s l := by
  intro l
  induction l with
  | nil => intro acc₁ acc₂; rfl
  | cons a as ih =>
    intro acc₁ acc₂
    have h1 : acc₁ ++ acc₂ ++ s ++ a = acc₁ ++ (acc₂ ++ s ++ a) := by
      apply str_ext
      simp [List.append_assoc]
    show String.intercalate.go (acc₁ ++ acc₂ ++ s ++ a) s as =
      acc₁ ++ String.intercalate.go (acc₂ ++ s ++ a) s as
    rw [h1]
    exact ih acc₁ (acc₂ ++ s ++ a)

theorem intercalate_cons₂ (s a b : String) (l : List String) :
    String.intercalate s (a :: b :: l) = a ++ s ++ String.intercalate s (b :: l) := by
  show String.intercalate.go (a ++ s ++ b) s l = a ++ s ++ String.intercalate.go b s l
  exact intercalate_go_append s l (a ++ s) b

theorem splitSet_no_sep {a : List Char} (h : '&' ∉ a) : splitSet ['&'] a = [a] := by
  induction a with
  | nil => rfl
  | cons c tl ih =>
    have hc : c ≠ '&' := fun he => h (he ▸ List.mem_cons_self c tl)
    have htl : '&' ∉ tl := fun ht => h (List.mem_cons_of_mem c ht)
    simp only [splitSet]
    rw [ih htl]
    rw [show (['&'].contains c) = false by simp [hc]]
    rfl

theorem splitSet_sep_append {a : List Char} (rest : List Char) (h : '&' ∉ a) :
    splitSet ['&'] (a ++ '&' :: rest) = a :: splitSet ['&'] rest := by
  induction a with
  | nil =>
    simp only [List.nil_append, splitSet]
    rw [show (['&'].contains '&') = true by decide]
    rfl
  | cons c tl ih =>
    have hc : c ≠ '&' := fun he => h (he ▸ List.mem_cons_self c tl)
    have htl : '&' ∉ tl := fun ht => h (List.mem_cons_of_mem c ht)
    simp only [List.cons_append, splitSet, List.append_eq]
    rw [ih htl]
    rw [show (['&'].contains c) = false by simp [hc]]
    rfl

theorem listIdxOf_append_sep {a : List Char} (b : List Char) (h : '=' ∉ a) :
    listIdxOf '=' (a ++ '=' :: b) = some a.length := by
  induction a with
  | nil => simp [listIdxOf]
  | cons c tl ih =>
    have hc : c ≠ '=' := fun he => h (he ▸ List.mem_cons_self c tl)
    have htl : '=' ∉ tl := fun ht => h (List.mem_cons_of_mem c ht)
    simp only [List.cons_append, listIdxOf, if_neg hc, List.append_eq]
    rw [ih htl]
    rfl

/-- The encoded text piece of one parameter pair. -/
def encPair (p : String × String) : String :=
  formEncode p.1 ++ "=" ++ formEncode p.2

theorem encPair_data (p : String × String) :
    (encPair p).data = (formEncode p.1).data ++ '=' :: (formEncode p.2).data := by
  show ((formEncode p.1).data ++ "=".data) ++ (formEncode p.2).data = _
  rw [List.append_assoc]
  rfl

theorem encPair_ne_nil (p : String × String) : (encPair p).data ≠ [] := by
  rw [encPair_data]
  intro h
  have := congrArg List.length h
  simp at this

theorem encPair_no_amp (p : String × String) : '&' ∉ (encPair p).data := by
  rw [encPair_data]
  intro hmem
  rcases List.mem_append.mp hmem with hm | hm
  · exact (formEncode_chars p.1 '&' hm).1 rfl
  · rcases List.mem_cons.mp hm with hm | hm
    · exact absurd hm.symm (by decide)
    · exact (formEncode_chars p.2 '&' hm).1 rfl

theorem parse_encPair (p : String × String) :
    (match listIdxOf '=' (encPair p).data with
     | none => (formDecode (encPair p).data, "")
     | some i =>
       (formDecode ((encPair p).data.take i),
        formDecode ((encPair p).data.drop (i + 1)))) = p := by
  rw [encPair_data]
  have hne : '=' ∉ (formEncode p.1).data := fun hm => (formEncode_chars p.1 _ hm).2.1 rfl
  rw [listIdxOf_append_sep _ hne]
  show (formDecode (((formEncode p.1).data ++ '=' :: (formEncode p.2).data).take
      (formEncode p.1).data.length),
    formDecode (((formEncode p.1).data ++ '=' :: (formEncode p.2).data).drop
      ((formEncode p.1).data.length + 1))) = p
  rw [List.take_left]
  rw [List.append_cons, List.drop_left' (by simp)]
  rw [formDecode_formEncode, formDecode_formEncode]

theorem urlParamsToString_single (p : String × String) : urlParamsToString [p] = encPair p :=
  rfl

theorem urlParamsToString_cons₂ (p q : String × String) (tl : List (String × String)) :
    urlParamsToString (p :: q :: tl) = encPair p ++ "&" ++ urlParamsToString (q :: tl) := by
  unfold urlParamsToString
  simp only [List.map_cons]
  exact intercalate_cons₂ "&" _ _ _

theorem encPair_head (p : String × String) (rest : List Char) {c : Char} {tl : List Char}
    (h : (encPair p).data ++ rest = c :: tl) : c ≠ '?' := by
  rw [encPair_data] at h
  cases hk : (formEncode p.1).data with
  | nil =>
    rw [hk] at h
    simp only [List.nil_append, List.cons_append, List.cons.injEq] at h
    rw [← h.1]
    decide
  | cons c0 cs =>
    rw [hk] at h
    simp only [List.cons_append, List.cons.injEq] at h
    rw [← h.1]
    exact (formEncode_chars p.1 c0 (by rw [hk]; exact List.mem_cons_self _ _)).2.2

theorem urlParamsParse_toString_aux :
    ∀ P : List (String × String),
      ((splitSet ['&'] (urlParamsToString P).data).filter (fun p => p ≠ [])).map
        (fun piece =>
          match listIdxOf '=' piece with
          | none => (formDecode piece, "")
          | some i => (formDecode (piece.take i), formDecode (piece.drop (i + 1)))) = P := by
  intro P
  induction P with
  | nil => rfl
  | cons p tl ih =>
    cases tl with
    | nil =>
      rw [urlParamsToString_single, splitSet_no_sep (encPair_no_amp p)]
      rw [List.filter_cons, if_pos (by simpa using encPair_ne_nil p)]
      rw [List.filter_nil, List.map_cons, List.map_nil]
      rw [parse_encPair]
    | cons q tl2 =>
      rw [urlParamsToString_cons₂]
      have hd : (encPair p ++ "&" ++ urlParamsToString (q :: tl2)).data =
          (encPair p).data ++ '&' :: (urlParamsToString (q :: tl2)).data := by
        show ((encPair p).data ++ "&".data) ++ (urlParamsToString (q :: tl2)).data = _
        rw [List.append_assoc]
        rfl
      rw [hd, splitSet_sep_append _ (encPair_no_amp p)]
      rw [List.filter_cons, if_pos (by simpa using encPair_ne_nil p)]
      rw [List.map_cons, parse_encPair]
      rw [ih]

/-- URLSearchParams parsing inverts serialization. -/
theorem urlParamsParse_toString (P : List (String × String)) :
    urlParamsParse (urlParamsToString P) = P := by
  unfold urlParamsParse
  have hq : (match (urlParamsToString P).data with
      | '?' :: tl => tl
      | l => l) = (urlParamsToString P).data := by
    split
    · rename_i heq
      exfalso
      cases P with
      | nil => simp [urlParamsToString, String.intercalate] at heq
      | cons p tl2 =>
        cases tl2 with
        | nil =>
          rw [urlParamsToString_single] at heq
          exact encPair_head p [] (by rw [List.append_nil]; exact heq) rfl
        | cons q tl3 =>
          rw [urlParamsToString_cons₂] at heq
          have hd : (encPair p ++ "&" ++ urlParamsToString (q :: tl3)).data =
              (encPair p).data ++ '&' :: (urlParamsToString (q :: tl3)).data := by
            show ((encPair p).data ++ "&".data) ++ (urlParamsToString (q :: tl3)).data = _
            rw [List.append_assoc]
            rfl
          rw [hd] at heq
          exact encPair_head p _ heq rfl
    · rfl
  dsimp only
  rw [hq]
  exact urlParamsParse_toString_aux P

/-- Serialization of a nonempty parameter list is nonempty. -/
theorem urlParamsToString_ne_empty {Q : List (String × String)} (h : Q ≠ []) :
    urlParamsToString Q ≠ "" := by
  intro he
  have hp := urlParamsParse_toString Q
  rw [he] at hp
  exact h (by rw [← hp]; rfl)

end Carp

namespace Carp

theorem recSpread_single {α : Type} (a : List (String × α)) (k : String) (v : α) :
    recSpread a [(k, v)] = objSet a k v := rfl

/-- C8 counterexample: applying the same #body directive twice is not
    idempotent when the first application lands in the wholesale-replace
    branch: the second application reparses the text as URLSearchParams
    and re-encodes it, so a space becomes a plus. -/
theorem body_idempotence_counterexample :
    (applyBodyDirective
      { url := .str "u", method := none, headers := none, body := none, bodyType := none }
      "k=a b").body = some (.str "k=a b") ∧
    (applyBodyDirective (applyBodyDirective
      { url := .str "u", method := none, headers := none, body := none, bodyType := none }
      "k=a b") "k=a b").body = some (.str "k=a+b") ∧
    applyBodyDirective (applyBodyDirective
      { url := .str "u", method := none, headers := none, body := none, bodyType := none }
      "k=a b") "k=a b" ≠
      applyBodyDirective
        { url := .str "u", method := none, headers := none, body := none, bodyType := none }
        "k=a b" := by
  refine ⟨rfl, rfl, ?_⟩
  intro h
  have h2 : (some (JsValue.str "k=a+b") : Option JsValue) = some (.str "k=a b") := by
    calc (some (JsValue.str "k=a+b") : Option JsValue)
        = (applyBodyDirective (applyBodyDirective
            { url := .str "u", method := none, headers := none, body := none,
              bodyType := none } "k=a b") "k=a b").body := rfl
      _ = (applyBodyDirective
            { url := .str "u", method := none, headers := none, body := none,
              bodyType := none } "k=a b").body := congrArg CustomRequestConfig.body h
      _ = some (.str "k=a b") := rfl
  exact absurd h2 (by decide)

/-- C8 amended: double application of one #body directive of the form k=v
    is idempotent whenever the first application does not land in the
    wholesale-replace branch: on an object body (merge is a repeated
    property assignment), on a non-empty string body (URLSearchParams
    parsing inverts serialization, and set is idempotent), on unparseable
    content (the wholesale replacement is its own fixed point), and on a
    whitespace-only directive (a no-op).  After a wholesale replacement,
    however, the second application reparses and re-encodes the text, so
    idempotence holds only when the trimmed directive text is already in
    canonical urlencoded form. -/
theorem body_idempotence_amended :
    (∀ (cfg : CustomRequestConfig) (bodyV v : JsValue) (k d : String),
       cfg.body = some bodyV → jsTruthy bodyV = true → jsTypeofObject bodyV = true →
       parseKeyValuePairs (jsTrim d) = some [(k, v)] →
       applyBodyDirective (applyBodyDirective cfg d) d = applyBodyDirective cfg d) ∧
    (∀ (cfg : CustomRequestConfig) (s : String) (v : JsValue) (k d : String),
       cfg.body = some (.str s) → s ≠ "" →
       parseKeyValuePairs (jsTrim d) = some [(k, v)] →
       applyBodyDirective (applyBodyDirective cfg d) d = applyBodyDirective cfg d) ∧
    (∀ (cfg : CustomRequestConfig) (d : String),
       jsTrim d ≠ "" → parseKeyValuePairs (jsTrim d) = none →
       applyBodyDirective (applyBodyDirective cfg d) d = applyBodyDirective cfg d) ∧
    (∀ (cfg : CustomRequestConfig) (d : String), jsTrim d = "" →
       applyBodyDirective (applyBodyDirective cfg d) d = applyBodyDirective cfg d) ∧
    (∀ (cfg : CustomRequestConfig) (v : JsValue) (k d : String),
       cfg.body = none → parseKeyValuePairs (jsTrim d) = some [(k, v)] →
       applyBodyDirective (applyBodyDirective cfg d) d =
         { cfg with
             body := some (.str (urlParamsToString
               (urlParamsSet (urlParamsParse (jsTrim d)) k (jsToString v)))),
             bodyType := some "raw" }) := by
  have htrim_of : ∀ {d : String} {k : String} {v : JsValue},
      parseKeyValuePairs (jsTrim d) = some [(k, v)] → jsTrim d ≠ "" := by
    intro d k v hp h0
    rw [h0] at hp
    rw [show parseKeyValuePairs "" = none from rfl] at hp
    simp at hp
  refine ⟨?_, ?_, ?_, ?_, ?_⟩
  · intro cfg bodyV v k d hb htru htyp hp
    have htrim := htrim_of hp
    have honce : applyBodyDirective cfg d =
        { cfg with body := some (.obj (objSet (jsSpreadEntries bodyV) k v)) } := by
      simp only [applyBodyDirective, if_neg htrim, hb, hp]
      rw [if_pos ⟨htru, htyp⟩, recSpread_single]
    rw [honce]
    simp only [applyBodyDirective, if_neg htrim, hp]
    rw [if_pos ⟨rfl, rfl⟩, recSpread_single]
    show ({ cfg with body := some (.obj (objSet (objSet (jsSpreadEntries bodyV) k v) k v)) }
      : CustomRequestConfig) = _
    rw [objSet_idem]
  · intro cfg s v k d hb hs hp
    have htrim := htrim_of hp
    have honce : applyBodyDirective cfg d =
        { cfg with
            body := some (.str (urlParamsToString
              (urlParamsSet (urlParamsParse s) k (jsToString v)))),
            bodyType := match cfg.bodyType with
              | some t => some t
              | none => some "form" } := by
      simp only [applyBodyDirective, if_neg htrim, hb, hp]
      rw [if_neg (by intro hcc; simpa [jsTypeofObject] using hcc.2)]
      rw [if_pos hs]
      simp only [List.foldl_cons, List.foldl_nil]
    have hs1 : urlParamsToString (urlParamsSet (urlParamsParse s) k (jsToString v)) ≠ "" :=
      urlParamsToString_ne_empty (urlParamsSet_ne_nil _ _ _)
    rw [honce]
    simp only [applyBodyDirective, if_neg htrim, hp]
    rw [if_neg (by intro hcc; simpa [jsTypeofObject] using hcc.2)]
    rw [if_pos hs1]
    simp only [List.foldl_cons, List.foldl_nil]
    rw [urlParamsParse_toString, urlParamsSet_idem]
    cases hbt : cfg.bodyType <;> rfl
  · intro cfg d htrim hp
    have honce : applyBodyDirective cfg d =
        { cfg with body := some (.str (jsTrim d)), bodyType := some "raw" } := by
      simp only [applyBodyDirective, if_neg htrim, hp]
      cases hb : cfg.body with
      | none => rfl
      | some bodyV => exact ite_self _
    rw [honce]
    simp only [applyBodyDirective, if_neg htrim, hp]
    rw [if_neg (by intro hcc; simpa [jsTypeofObject] using hcc.2)]
  · intro cfg d htrim
    simp only [applyBodyDirective, if_pos htrim]
  · intro cfg v k d hb hp
    have htrim := htrim_of hp
    have honce : applyBodyDirective cfg d =
        { cfg with body := some (.str (jsTrim d)), bodyType := some "raw" } := by
      simp only [applyBodyDirective, if_neg htrim, hb, hp]
    rw [honce]
    simp only [applyBodyDirective, if_neg htrim, hp]
    rw [if_neg (by intro hcc; simpa [jsTypeofObject] using hcc.2)]
    rw [if_pos htrim]
    simp only [List.foldl_cons, List.foldl_nil]

/-- Witness for the amended C8 at concrete configurations. -/
theorem body_idempotence_amended_witness :
    applyBodyDirective (applyBodyDirective
      { url := .str "u", method := none, headers := none,
        body := some (.obj [("a", .str "1")]), bodyType := none } "k=v") "k=v" =
      applyBodyDirective
        { url := .str "u", method := none, headers := none,
          body := some (.obj [("a", .str "1")]), bodyType := none } "k=v" ∧
    applyBodyDirective (applyBodyDirective
      { url := .str "u", method := none, headers := none,
        body := some (.str "a=1"), bodyType := none } "k=v") "k=v" =
      applyBodyDirective
        { url := .str "u", method := none, headers := none,
          body := some (.str "a=1"), bodyType := none } "k=v" ∧
    applyBodyDirective (applyBodyDirective
      { url := .str "u", method := none, headers := none, body := none,
        bodyType := none } "oops") "oops" =
      applyBodyDirective
        { url := .str "u", method := none, headers := none, body := none,
          bodyType := none } "oops" ∧
    applyBodyDirective (applyBodyDirective
      { url := .str "u", method := none, headers := none, body := none,
        bodyType := none } " ") " " =
      applyBodyDirective
        { url := .str "u", method := none, headers := none, body := none,
          bodyType := none } " " ∧
    applyBodyDirective (applyBodyDirective
      { url := .str "u", method := none, headers := none, body := none,
        bodyType := none } "k=a b") "k=a b" =
      { url := .str "u", method := none, headers := none,
        body := some (.str (urlParamsToString
          (urlParamsSet (urlParamsParse (jsTrim "k=a b")) "k" (jsToString (.str "a b"))))),
        bodyType := some "raw" } := by
  obtain ⟨h1, h2, h3, h4, h5⟩ := body_idempotence_amended
  refine ⟨?_, ?_, ?_, ?_, ?_⟩
  · exact h1
      { url := .str "u", method := none, headers := none,
        body := some (.obj [("a", .str "1")]), bodyType := none }
      (.obj [("a", .str "1")]) (.str "v") "k" "k=v" rfl rfl rfl rfl
  · exact h2
      { url := .str "u", method := none, headers := none, body := some (.str "a=1"),
        bodyType := none } "a=1" (.str "v") "k" "k=v" rfl (by decide) rfl
  · exact h3
      { url := .str "u", method := none, headers := none, body := none, bodyType := none }
      "oops" (by decide) rfl
  · exact h4
      { url := .str "u", method := none, headers := none, body := none, bodyType := none }
      " " rfl
  · exact h5
      { url := .str "u", method := none, headers := none, body := none, bodyType := none }
      (.str "a b") "k" "k=a b" rfl rfl

end Carp
